import Mathlib

/-!
Verification of the format-conversion layer of the basis-set-exchange
repository: the CRYSTAL reader/writer, the Molpro and Molpro-library
readers, and the Molpro-library writer.

Modelling conventions.

* A physical line of a CRYSTAL / Molpro-library file is modelled by its
  list of whitespace-separated tokens (`Line := List String`); the Molpro
  user-input reader works on comma-separated fields, and its lines are
  modelled by the list of comma-separated, whitespace-stripped fields.
  All the grammars involved (the regexes of the readers) are
  token-shaped, and the writers join tokens with whitespace, so this is
  faithful up to cosmetic column alignment.  A writer therefore produces
  a `List Line` (the `splitlines` of its text output).
* Real arithmetic (Python floats) is modelled exactly: a parsed numeric
  token denotes the exact decimal `m · 10 ^ e` (`Dec`), the products the
  readers compute stay exact decimals, and `Dec.toQ` gives the rational
  value for specification statements.  Numeric tokens keep their textual
  form, as the code itself stores them, and are compared by parsed
  value.
* Python exceptions are modelled by `Except PyErr`; an uncaught
  exception is an `Except.error`, so an error result carries no partial
  basis-set object.
* Machine-level helper modules of the repository that are not part of
  the given sources (`readers/helpers.py`, `lut.py`, `printing.py`,
  `writers/common.py`, `misc.py`, `manip.py`, `sort.py`) are modelled
  from the specification; each such definition carries a doc comment
  starting with `Modelled from the spec:`.  The normalization
  transforms of `manip`/`sort` are taken as explicit function arguments
  of the writers.
-/

deriving instance DecidableEq for Except

namespace BSE

/-- Python exception kinds raised by the embedded code. -/
inductive PyErr where
  | formatError (msg : String)
  | assertionError
  | typeError
  | indexError
  | keyError
  | valueError
  | lookupError
  | runtimeError (msg : String)
  deriving Repr, DecidableEq

/-- A physical line, modelled as its list of tokens. -/
abbrev Line := List String

/-- Numeric value of a big-endian list of decimal digit characters. -/
def digitsToNat (l : List Char) : ℕ :=
  l.foldl (fun a c => 10 * a + (c.toNat - 48)) 0

/-- Optional leading sign of a numeric token. -/
def parseSign (l : List Char) : ℤ × List Char :=
  match l with
  | [] => (1, [])
  | c :: r => if c = '+' then (1, r) else if c = '-' then (-1, r) else (1, c :: r)

/-- Exponent-marker characters: `E`/`e`, with the Fortran `D`/`d` synonym. -/
def isExpMark (c : Char) : Bool :=
  c = 'E' || c = 'e' || c = 'D' || c = 'd'

/-- The `[sign] digits` tail of an exponent field, which must be fully
consumed. -/
def parseExpTail (l : List Char) : Option ℤ :=
  let (sg, r) := parseSign l
  let ds := r.takeWhile Char.isDigit
  let rest := r.dropWhile Char.isDigit
  if ds ≠ [] ∧ rest = [] then some (sg * (digitsToNat ds : ℤ)) else none

/-- An exact decimal value `m · 10 ^ e`: the form of the value of every
floating-point token, closed under the products the readers compute.
An exact decimal models a Python float (with exact instead of binary
arithmetic). -/
structure Dec where
  m : ℤ
  e : ℤ
  deriving Repr, DecidableEq

/-- The rational value of an exact decimal. -/
def Dec.toQ (x : Dec) : ℚ := (x.m : ℚ) * (10 : ℚ) ^ x.e

/-- Product of exact decimals. -/
def Dec.mul (x y : Dec) : Dec := ⟨x.m * y.m, x.e + y.e⟩

/-- Value equality of exact decimals (decidable, kernel-computable). -/
def Dec.beq (x y : Dec) : Bool :=
  if x.e ≤ y.e then x.m == y.m * 10 ^ (y.e - x.e).toNat
  else x.m * 10 ^ (x.e - y.e).toNat == y.m

/-- The exact decimal one. -/
def Dec.one : Dec := ⟨1, 0⟩

/-- The exact decimal zero. -/
def Dec.zero : Dec := ⟨0, 0⟩

/-- Value of a mantissa `sign`, integer digits `a`, fraction digits `b`. -/
def mantissaDec (sg : ℤ) (a b : List Char) : Dec :=
  ⟨sg * ((digitsToNat a : ℤ) * 10 ^ b.length + (digitsToNat b : ℤ)), -(b.length : ℤ)⟩

/-- Shift an exact decimal by a power of ten (the exponent field). -/
def Dec.shift (x : Dec) (k : ℤ) : Dec := ⟨x.m, x.e + k⟩

/-- Modelled from the spec: the floating-point token grammar of the regex
layer — `[sign] digits [. digits] [E|e|D|d [sign] digits]`, at least one
mantissa digit, `D` treated as a synonym for `E` — together with its
numeric value.  Returns `none` when the token is not in the grammar. -/
def floatValList (l : List Char) : Option Dec :=
  let sr := parseSign l
  let a := sr.2.takeWhile Char.isDigit
  let r2 := sr.2.dropWhile Char.isDigit
  match r2 with
  | [] => if a = [] then none else some (mantissaDec sr.1 a [])
  | c :: r3 =>
    if c = '.' then
      let b := r3.takeWhile Char.isDigit
      let r4 := r3.dropWhile Char.isDigit
      if a = [] ∧ b = [] then none
      else
        match r4 with
        | [] => some (mantissaDec sr.1 a b)
        | m :: r5 =>
          if isExpMark m then
            match parseExpTail r5 with
            | some e => some ((mantissaDec sr.1 a b).shift e)
            | none => none
          else none
    else if isExpMark c ∧ a ≠ [] then
      match parseExpTail r3 with
      | some e => some ((mantissaDec sr.1 a []).shift e)
      | none => none
    else none

/-- Numeric value of a floating-point token (`none` when malformed). -/
def tokVal? (s : String) : Option Dec := floatValList s.data

/-- Token is in the floating-point grammar. -/
def isFloatTok (s : String) : Bool := (tokVal? s).isSome

/-- Token is a plain unsigned integer (`[\d]+`). -/
def isIntTok (s : String) : Bool := s.data ≠ [] && s.data.all Char.isDigit

/-- Token is one to three digits (`[\d]{1,3}`, the CRYSTAL element field). -/
def isInt13 (s : String) : Bool :=
  isIntTok s && 1 ≤ s.data.length && s.data.length ≤ 3

/-- Value of an unsigned-integer token. -/
def intTokVal (s : String) : ℕ := digitsToNat s.data

/-- Python `int(str)`: `[sign] digits`, otherwise a `ValueError`. -/
def pyInt? (s : String) : Option ℤ :=
  match s.data with
  | [] => none
  | c :: r =>
    if c = '-' then
      if r ≠ [] ∧ r.all Char.isDigit then some (-(digitsToNat r : ℤ)) else none
    else if c = '+' then
      if r ≠ [] ∧ r.all Char.isDigit then some ((digitsToNat r : ℤ)) else none
    else if (c :: r).all Char.isDigit then some ((digitsToNat (c :: r) : ℤ))
    else none

/-- Fortran-marker normalization `D`/`d` → `E`/`e` of one character. -/
def normDChar (c : Char) : Char :=
  if c = 'D' then 'E' else if c = 'd' then 'e' else c

/-- Modelled from the spec: legacy Fortran `D` exponent markers are
normalized to standard `E` notation at the tokenizer boundary. -/
def normD (s : String) : String := ⟨s.data.map normDChar⟩

/-- The `convert_exp` conversion of `printing.write_matrix`:
`E`/`e` → `D`/`d` (Fortran-style rendering). -/
def convEDChar (c : Char) : Char :=
  if c = 'E' then 'D' else if c = 'e' then 'd' else c

/-- Exponent-marker conversion of a token on output. -/
def convED (s : String) : String := ⟨s.data.map convEDChar⟩

/-- Decimal digit characters of `n`, most significant first (`[]` for
`0`); the first argument is fuel, with `n` itself always sufficient. -/
def natTokAux : ℕ → ℕ → List Char
  | 0, _ => []
  | fuel + 1, n => if n = 0 then [] else natTokAux fuel (n / 10) ++ [Nat.digitChar (n % 10)]

/-- Decimal rendering of a natural number (Python `'{}'.format(n)`). -/
def natTok (n : ℕ) : String :=
  if n = 0 then "0" else ⟨natTokAux n n⟩

/-- Decimal rendering of an integer (Python `'{}'.format(i)`, and
`'{:.0f}'` on an integer-valued float). -/
def intTok (i : ℤ) : String :=
  if i < 0 then "-" ++ natTok i.natAbs else natTok i.natAbs

/-- Uppercase one ASCII letter (kernel-computable `Char.toUpper`). -/
def upChar (c : Char) : Char :=
  if 'a' ≤ c ∧ c ≤ 'z' then Char.ofNat (c.toNat - 32) else c

/-- Lowercase one ASCII letter (kernel-computable `Char.toLower`). -/
def lowChar (c : Char) : Char :=
  if 'A' ≤ c ∧ c ≤ 'Z' then Char.ofNat (c.toNat + 32) else c

/-- ASCII uppercase of a string (`str.upper()`). -/
def strUpper (s : String) : String := ⟨s.data.map upChar⟩

/-- ASCII lowercase of a string (`str.lower()`). -/
def strLower (s : String) : String := ⟨s.data.map lowChar⟩

/-- Capitalize the first character of a string. -/
def strCapitalize (s : String) : String :=
  match s.data with
  | [] => ""
  | c :: r => ⟨upChar c :: r⟩

/-! ### The canonical basis-set object -/

/-- An electron shell of the canonical object (`electron_shells` entry). -/
structure Shell where
  function_type : String
  region : String
  angular_momentum : List ℕ
  exponents : List String
  coefficients : List (List String)
  deriving Repr, DecidableEq

/-- An ECP potential as built by the readers: `angular_momentum` is an
integer or `None`, and `coefficients` is one flat vector. -/
structure EcpPotR where
  angular_momentum : Option ℕ
  ecp_type : String
  r_exponents : List ℕ
  gaussian_exponents : List String
  coefficients : List String
  deriving Repr, DecidableEq

/-- An element entry of a reader's output; a `none` field models the
absence of the corresponding dictionary key. -/
structure ElementDataR where
  electron_shells : Option (List Shell)
  ecp_potentials : Option (List EcpPotR)
  ecp_electrons : Option ℤ
  deriving Repr, DecidableEq

/-- Empty element entry (no keys present). -/
def ElementDataR.empty : ElementDataR :=
  ⟨none, none, none⟩

/-- A reader's output: element entries keyed by atomic-number string, in
insertion order (a Python dict preserves insertion order). -/
abbrev BsData := List (String × ElementDataR)

/-- An ECP potential on the writer side: in the stored canonical format
`angular_momentum` is a list (`None` models an unbound/local term) and
`coefficients` is a list of coefficient vectors. -/
structure EcpPotW where
  angular_momentum : Option (List ℕ)
  ecp_type : String
  r_exponents : List ℕ
  gaussian_exponents : List String
  coefficients : List (List String)
  deriving Repr, DecidableEq

/-- An element entry of a writer's input. -/
structure ElementDataW where
  electron_shells : Option (List Shell)
  ecp_potentials : Option (List EcpPotW)
  ecp_electrons : Option ℤ
  deriving Repr, DecidableEq

/-- A writer's input basis set. -/
structure BasisW where
  name : String
  function_types : List String
  elements : List (String × ElementDataW)
  deriving Repr, DecidableEq

/-! ### Shared helpers (`readers/helpers.py`), modelled from the spec -/

/-- Whether a token contains the comment character. -/
def hasCommentChar (c : Char) (t : String) : Bool := t.data.contains c

/-- Modelled from the spec: `prune_lines` removes full-line and inline
comments starting at the comment character and drops resulting blank
lines, preserving relative order.  In the token model a comment starts
at the first token containing the comment character. -/
def prune_lines (lines : List Line) (c : Char) : List Line :=
  (lines.map (fun ln => ln.takeWhile (fun t => !hasCommentChar c t))).filter (· ≠ [])

/-- Contiguous blocks, each beginning at a line matching `p` (the first
line is assumed to match); fuel-based, each step consuming at least one
line. -/
def splitBlocksAux (p : Line → Bool) : ℕ → List Line → List (List Line)
  | 0, _ => []
  | _ + 1, [] => []
  | fuel + 1, l :: rest =>
    (l :: rest.takeWhile (fun x => !p x)) ::
      splitBlocksAux p fuel (rest.dropWhile (fun x => !p x))

/-- Contiguous blocks, each beginning at a line matching `p`. -/
def splitBlocks (p : Line → Bool) (lines : List Line) : List (List Line) :=
  splitBlocksAux p lines.length lines

/-- Modelled from the spec: `partition_lines` splits a flat sequence into
contiguous blocks, each beginning at a line matching `p`; the first line
must match or the input is malformed (`FormatError`); blocks with fewer
than `min_size` lines are rejected (dropped). -/
def partition_lines (lines : List Line) (p : Line → Bool) (min_size : ℕ) :
    Except PyErr (List (List Line)) :=
  match lines with
  | [] => .ok []
  | l0 :: _ =>
    if p l0 then
      .ok ((splitBlocks p lines).filter (fun b => min_size ≤ b.length))
    else .error (.formatError "partition_lines: first line does not match")

/-- Which member key `create_element_data` initializes. -/
inductive ElMember where
  | shells
  | pots
  deriving Repr, DecidableEq

/-- Look an element entry up by key. -/
def lookupEl (bs : BsData) (z : String) : Option ElementDataR :=
  (bs.find? (fun p => p.1 = z)).map (·.2)

/-- Replace the entry at key `z` (the key is assumed present). -/
def setEl (bs : BsData) (z : String) (d : ElementDataR) : BsData :=
  bs.map (fun p => if p.1 = z then (z, d) else p)

/-- Initialize the member key of an entry with an empty list if absent. -/
def ensureMember (m : ElMember) (d : ElementDataR) : ElementDataR :=
  match m with
  | .shells => { d with electron_shells := some (d.electron_shells.getD []) }
  | .pots => { d with ecp_potentials := some (d.ecp_potentials.getD []) }

/-- Modelled from the spec: `create_element_data` creates the element
entry keyed `z` if it does not exist and makes sure the requested member
is present (initialized to an empty list). -/
def create_element_data (bs : BsData) (z : String) (m : ElMember) : BsData :=
  match lookupEl bs z with
  | some d => setEl bs z (ensureMember m d)
  | none => bs ++ [(z, ensureMember m ElementDataR.empty)]

/-- Append a shell to the `electron_shells` of the entry keyed `z`. -/
def appendShell (bs : BsData) (z : String) (sh : Shell) : BsData :=
  setEl bs z
    (match lookupEl bs z with
     | some d => { d with electron_shells := some (d.electron_shells.getD [] ++ [sh]) }
     | none => ElementDataR.empty)

/-- Append an ECP potential to the `ecp_potentials` of the entry keyed `z`. -/
def appendPot (bs : BsData) (z : String) (pot : EcpPotR) : BsData :=
  setEl bs z
    (match lookupEl bs z with
     | some d => { d with ecp_potentials := some (d.ecp_potentials.getD [] ++ [pot]) }
     | none => ElementDataR.empty)

/-- Set the `ecp_electrons` of the entry keyed `z`. -/
def setEcpElectrons (bs : BsData) (z : String) (n : ℤ) : BsData :=
  setEl bs z
    (match lookupEl bs z with
     | some d => { d with ecp_electrons := some n }
     | none => ElementDataR.empty)

/-- Modelled from the spec: `parse_primitive_matrix` parses `nprim`
consecutive rows, each one exponent followed by `ncol` coefficients, and
returns the transposed structure; a wrong token count, a malformed
numeric token, or fewer than `nprim` rows is a `FormatError`.  Values
are returned as text with Fortran `D` markers normalized to `E`. -/
def parse_primitive_matrix (lines : List Line) (nprim ncol : ℕ) :
    Except PyErr (List String × List (List String)) :=
  if lines.length < nprim then
    .error (.formatError "parse_primitive_matrix: not enough rows")
  else
    let rows := lines.take nprim
    if rows.all (fun r => r.length = ncol + 1 && r.all isFloatTok) then
      .ok (rows.map (fun r => normD (r.headD "")),
           (List.range ncol).map (fun j => rows.map (fun r => normD (r.getD (j + 1) ""))))
    else .error (.formatError "parse_primitive_matrix: malformed row")

/-- Modelled from the spec: `function_type_from_am` classifies the
harmonic type from the angular momentum list (pure function). -/
def function_type_from_am (am : List ℕ) (base harm : String) : String :=
  if am.all (· < 2) then base else base ++ "_" ++ harm

/-! ### Element lookup service (`lut.py`), modelled from the spec -/

/-- Modelled from the spec: name lookup by atomic number; an unknown
number is a fatal lookup failure.  Only definedness matters to the
conversion code (the result is not stored), so the name is rendered
from the number. -/
def element_name_from_Z (z : ℕ) : Except PyErr String :=
  if 1 ≤ z ∧ z ≤ 118 then .ok ("element-" ++ natTok z) else .error .lookupError

/-- Modelled from the spec: a representative fragment of the
symbol → atomic number table; an unknown symbol is a fatal lookup
failure. -/
def symTable : List (String × ℕ) :=
  [("h", 1), ("he", 2), ("li", 3), ("be", 4), ("b", 5), ("c", 6),
   ("n", 7), ("o", 8), ("f", 9), ("ne", 10), ("na", 11), ("mg", 12),
   ("al", 13), ("si", 14), ("p", 15), ("s", 16), ("cl", 17), ("ar", 18)]

/-- Modelled from the spec: `element_Z_from_sym` with `as_str=True`
returns the atomic number as a decimal string (case-insensitive). -/
def element_Z_from_sym (s : String) : Except PyErr String :=
  match (symTable.find? (fun p => p.1 = strLower s)).map (·.2) with
  | some z => .ok (natTok z)
  | none => .error .lookupError

/-- Modelled from the spec: `element_sym_from_Z` returns the element
symbol (capitalized) of an atomic-number string. -/
def element_sym_from_Z (z : String) : Except PyErr String :=
  match pyInt? z with
  | none => .error .valueError
  | some n =>
    match symTable.find? (fun p => (natTok p.2) = intTok n) with
    | some p => .ok (strCapitalize p.1)
    | none => .error .lookupError

/-- The angular-momentum letters, in order. -/
def amChars : List Char := ['s', 'p', 'd', 'f', 'g', 'h', 'i', 'k']

/-- Modelled from the spec: `amchar_to_int` maps one angular-momentum
letter (either case) to the singleton list of its integer value. -/
def amchar_to_int (c : Char) : Except PyErr (List ℕ) :=
  match amChars.indexOf? (lowChar c) with
  | some i => .ok [i]
  | none => .error .lookupError

/-- Modelled from the spec: `amint_to_char` maps an angular-momentum
list to its letter string. -/
def amint_to_char (am : List ℕ) : Except PyErr String :=
  am.foldlM
    (fun acc a =>
      match amChars.get? a with
      | some c => .ok (acc.push c)
      | none => .error .lookupError) ""

/-- Python `float(token)` after marker normalization. -/
def pyFloatTok (s : String) : Except PyErr Dec :=
  match tokVal? s with
  | some v => .ok v
  | none => .error .valueError

/-- Python `int(group)` on a regex group (a `ValueError` unless the
group is an optionally signed digit string). -/
def int_of_group (t : String) : Except PyErr ℤ :=
  match pyInt? t with
  | some n => .ok n
  | none => .error .valueError

/-! ### The `{:.16E}` float formatting used by the CRYSTAL reader -/

/-- Number of decimal digits of `n` (`0` for `0`); fuel-based, `n`
itself always being sufficient fuel. -/
def digLen : ℕ → ℕ → ℕ
  | 0, _ => 0
  | fuel + 1, n => if n = 0 then 0 else digLen fuel (n / 10) + 1

/-- Round `m / 10 ^ k` to the nearest natural, ties to even (IEEE
default, used by Python's float formatting). -/
def rheShift (m k : ℕ) : ℕ :=
  let d := 10 ^ k
  let q := m / d
  let r := m % d
  if 2 * r < d then q else if d < 2 * r then q + 1
  else if q % 2 = 0 then q else q + 1

/-- The 17 mantissa digits (as one number in `[10^16, 10^17)`) and the
decimal exponent of `{:.16E}` for the positive value `m · 10 ^ e`, with
overflow carry on rounding up. -/
def sci16 (m : ℕ) (e : ℤ) : ℕ × ℤ :=
  let L := digLen m m
  let E : ℤ := (L : ℤ) - 1 + e
  let t : ℤ := 17 - (L : ℤ)
  let r := if 0 ≤ t then m * 10 ^ t.toNat else rheShift m (-t).toNat
  if r < 10 ^ 17 then (r, E) else (10 ^ 16, E + 1)

/-- Digit characters of `n`, most significant first, left-padded with
zeros to width `w`. -/
def padDigits (n w : ℕ) : List Char :=
  let ds := natTokAux n n
  List.replicate (w - ds.length) '0' ++ ds

/-- The exponent field of `{:.16E}`: a sign and at least two digits. -/
def expField (e : ℤ) : List Char :=
  (if e < 0 then '-' else '+') :: padDigits e.natAbs 2

/-- `{:.16E}` for a positive value `m · 10 ^ e`. -/
def fmt16EPos (m : ℕ) (e : ℤ) : String :=
  let re := sci16 m e
  let ds := padDigits re.1 17
  ⟨ds.take 1 ++ '.' :: ds.drop 1 ++ 'E' :: expField re.2⟩

/-- Python `'{:.16E}'.format` on an exact decimal: the model of the
float formatting in the CRYSTAL reader's scale application. -/
def fmt16E (x : Dec) : String :=
  if x.m = 0 then "0.0000000000000000E+00"
  else if x.m < 0 then "-" ++ fmt16EPos x.m.natAbs x.e
  else fmt16EPos x.m.natAbs x.e

/-- The CRYSTAL reader's trimming of useless zeros: strip trailing `0`s
of the mantissa, keeping one digit after the decimal point. -/
def trimZeros (s : String) : String :=
  let mant := s.data.takeWhile (· ≠ 'E')
  let rest := (s.data.dropWhile (· ≠ 'E')).drop 1
  let m := (mant.reverse.dropWhile (· = '0')).reverse
  let m := if m.getLast? = some '.' then m ++ ['0'] else m
  ⟨m ++ 'E' :: rest⟩

/-- The CRYSTAL reader's transformation of one exponent token under a
scale factor: `float` it, multiply by the squared scale, rerender with
`{:.16E}` and trim useless zeros. -/
def scaleExponent (sf : Dec) (ex : String) : Except PyErr String :=
  match tokVal? ex with
  | none => .error .valueError
  | some v => .ok (trimZeros (fmt16E (v.mul sf)))

/-! ### CRYSTAL reader (`readers/crystal.py`) -/

/-- `element_re`: an element entry starts with two integers
(`^([\d]{1,3})\s+([\d]+)?$`). -/
def element_re_match (ln : Line) : Bool :=
  match ln with
  | [a, b] => isInt13 a && isIntTok b
  | _ => false

/-- `shell_re`: three integers and two (floating or integer) numbers. -/
def shell_re_match (ln : Line) : Bool :=
  match ln with
  | [a, b, c, d, e] =>
    isIntTok a && isIntTok b && isIntTok c &&
      (isFloatTok d || isIntTok d) && (isFloatTok e || isIntTok e)
  | _ => false

/-- `ecp_re`: `ZNUC` and six integers for the numbers of terms. -/
def ecp_re_match (ln : Line) : Bool :=
  match ln with
  | [z, m, m0, m1, m2, m3, m4] =>
    isFloatTok z && isIntTok m && isIntTok m0 && isIntTok m1 &&
      isIntTok m2 && isIntTok m3 && isIntTok m4
  | _ => false

/-- `ecp_entry_re`: exponent, coefficient and a one-digit r-exponent. -/
def ecp_entry_re_match (ln : Line) : Bool :=
  match ln with
  | [g, c, r] => isFloatTok g && isFloatTok c && (r.data.length = 1 && isIntTok r)
  | _ => false

/-- Groups of a `shell_re` match, with `parse_line_regex`'s conversion:
integer groups become numbers, the floating groups stay text (the
formal-charge and scale-factor groups are returned as tokens, markers
normalized). -/
def parse_shell_header (ln : Line) : Except PyErr (ℕ × ℕ × ℕ × String × String) :=
  match ln with
  | [a, b, c, d, e] =>
    if isIntTok a && isIntTok b && isIntTok c &&
        (isFloatTok d || isIntTok d) && (isFloatTok e || isIntTok e) then
      .ok (intTokVal a, intTokVal b, intTokVal c, normD d, normD e)
    else .error (.formatError "ityb, lat, ng, che, scal")
  | _ => .error (.formatError "ityb, lat, ng, che, scal")

/-- Groups of an `ecp_re` match: the effective charge as a token and the
six term counts. -/
def parse_ecp_header (ln : Line) :
    Except PyErr (String × ℕ × ℕ × ℕ × ℕ × ℕ × ℕ) :=
  match ln with
  | [z, m, m0, m1, m2, m3, m4] =>
    if isFloatTok z && isIntTok m && isIntTok m0 && isIntTok m1 &&
        isIntTok m2 && isIntTok m3 && isIntTok m4 then
      .ok (normD z, intTokVal m, intTokVal m0, intTokVal m1,
           intTokVal m2, intTokVal m3, intTokVal m4)
    else .error (.formatError "Znuc, M, M0, M1, M2, M3, M4")
  | _ => .error (.formatError "Znuc, M, M0, M1, M2, M3, M4")

/-- Groups of an `ecp_entry_re` match: the Gaussian exponent and the
coefficient as tokens, the r-exponent as a number. -/
def parse_ecp_entry (ln : Line) : Except PyErr (String × String × ℕ) :=
  match ln with
  | [g, c, r] =>
    if isFloatTok g && isFloatTok c && (r.data.length = 1 && isIntTok r) then
      .ok (normD g, normD c, intTokVal r)
    else .error (.formatError "ALFKL, CGKL, NKL")
  | _ => .error (.formatError "ALFKL, CGKL, NKL")

/-- `_get_element_ecp`: the element (`NAT % 100`) and whether an ECP is
used (`200 < NAT ≤ 1000`), from the first token of the first line. -/
def _get_element_ecp (basis_lines : List Line) : Except PyErr (ℕ × Bool) :=
  match basis_lines with
  | [] => .error .indexError
  | ln :: _ =>
    match ln with
    | [] => .error .indexError
    | t :: _ =>
      match pyInt? t with
      | none => .error .valueError
      | some nat => .ok ((nat % 100).toNat, decide (200 < nat ∧ nat ≤ 1000))

/-- The body of the shell loop of the CRYSTAL `_parse_electron_lines`,
for one partitioned shell block. -/
def crystal_shell_block (zkey : String) (bs : BsData) (sh_lines : List Line) :
    Except PyErr BsData := do
  let hd ← match sh_lines with
    | [] => throw PyErr.indexError
    | h :: _ => pure h
  let (ityb, raw_am, nprim, _che, scal) ← parse_shell_header hd
  if ityb ≠ 0 then throw .assertionError
  let shell_am : List ℕ :=
    if raw_am = 0 then [0] else if raw_am = 1 then [0, 1] else [raw_am - 1]
  let func_type := function_type_from_am shell_am "gto" "spherical"
  let scalv ← pyFloatTok scal
  let scaling_factor := scalv.mul scalv
  let has_scaling := !(scaling_factor.beq Dec.one)
  let ngen := shell_am.length
  let (exponents, coefficients) ←
    parse_primitive_matrix (sh_lines.tail.take nprim) nprim ngen
  let exponents ←
    if has_scaling then exponents.mapM (scaleExponent scaling_factor)
    else pure exponents
  let shell : Shell :=
    { function_type := func_type, region := "", angular_momentum := shell_am,
      exponents := exponents, coefficients := coefficients }
  pure (appendShell bs zkey shell)

/-- CRYSTAL `_parse_electron_lines`: all electron shells of one element
section. -/
def crystal_parse_electron_lines (basis_lines : List Line) (bs_data : BsData) :
    Except PyErr BsData := do
  let ze ← _get_element_ecp basis_lines
  let _sym ← element_name_from_Z ze.1
  let _num_shells ←
    match (basis_lines.headD []).get? 1 with
    | none => throw PyErr.indexError
    | some t =>
      match pyInt? t with
      | none => throw PyErr.valueError
      | some n => pure n
  let zkey := natTok ze.1
  let bs := create_element_data bs_data zkey .shells
  let blocks ← partition_lines basis_lines.tail shell_re_match 1
  blocks.foldlM (crystal_shell_block zkey) bs

/-- One step of the bucket loop of `_parse_ecp_block`: for a positive
count, slice that many records at the running offset into a potential
and append it. -/
def crystal_ecp_step (zkey : String) (ecp_records : List (String × String × ℕ))
    (st : ℕ × BsData) (idxm : ℕ × ℕ) : ℕ × BsData :=
  if 0 < idxm.2 then
    let recs := (ecp_records.drop st.1).take idxm.2
    let pot : EcpPotR :=
      { angular_momentum := if idxm.1 = 0 then none else some (idxm.1 - 1),
        ecp_type := "scalar_ecp",
        r_exponents := recs.map (fun r => r.2.2),
        gaussian_exponents := recs.map (fun r => r.1),
        coefficients := recs.map (fun r => r.2.1) }
    (st.1 + idxm.2, appendPot st.2 zkey pot)
  else st

/-- CRYSTAL `_parse_ecp_block`: one block of ECP data (the header is
taken from the second line of `ecp_lines`). -/
def crystal_parse_ecp_block (basis_lines ecp_lines : List Line) (bs_data : BsData) :
    Except PyErr BsData := do
  let ze ← _get_element_ecp basis_lines
  let _sym ← element_name_from_Z ze.1
  let zkey := natTok ze.1
  let bs := create_element_data bs_data zkey .pots
  let hline ← match ecp_lines.get? 1 with
    | none => throw PyErr.indexError
    | some l => pure l
  let (znuc_tok, M, M0, M1, M2, M3, M4) ← parse_ecp_header hline
  let Znuc ← int_of_group znuc_tok
  let bs := setEcpElectrons bs zkey ((ze.1 : ℤ) - Znuc)
  let ecp_records ← (List.range (M + M0 + M1 + M2 + M3 + M4)).mapM (fun i =>
    match ecp_lines.get? (2 + i) with
    | none => throw PyErr.indexError
    | some l => parse_ecp_entry l)
  let M_arr := [M, M0, M1, M2, M3, M4]
  let final := M_arr.enum.foldl (crystal_ecp_step zkey ecp_records) (0, bs)
  pure final.2

/-- CRYSTAL `_parse_ecp_lines`: partitions an element section at ECP
header lines and parses each block. -/
def crystal_parse_ecp_lines (basis_lines : List Line) (bs_data : BsData) :
    Except PyErr BsData := do
  let secs ← partition_lines basis_lines ecp_re_match 1
  secs.foldlM (fun bs es => crystal_parse_ecp_block basis_lines es bs) bs_data

/-- `read_crystal`: CRYSTAL-formatted data to the canonical object. -/
def read_crystal (basis_lines : List Line) : Except PyErr BsData :=
  let basis_lines := prune_lines basis_lines '!'
  if basis_lines = [] then .ok []
  else do
    let secs ← partition_lines basis_lines element_re_match 3
    secs.foldlM
      (fun bs es => do
        let bs ← crystal_parse_electron_lines es bs
        let ze ← _get_element_ecp es
        if ze.2 then crystal_parse_ecp_lines es bs else pure bs)
      []

/-! ### CRYSTAL writer (`writers/crystal.py`) -/

/-- Python list slicing `l[a:b]` (negative indices wrap around). -/
def pySlice (l : List α) (a b : ℤ) : List α :=
  let n : ℤ := l.length
  let a' := if a < 0 then max 0 (n + a) else min a n
  let b' := if b < 0 then max 0 (n + b) else min b n
  (l.take b'.toNat).drop a'.toNat

/-- Modelled from the spec: `printing.write_matrix` renders the columns
row by row (the fixed decimal-point alignment is cosmetic in the token
model, so tokens are emitted as such); `convert_exp` renders exponent
markers Fortran style. -/
def write_matrix (cols : List (List String)) (convert_exp : Bool) :
    Except PyErr (List Line) :=
  match cols with
  | [] => .ok []
  | c0 :: _ =>
    if cols.all (fun c => c.length = c0.length) then
      .ok ((List.range c0.length).map (fun i =>
        cols.map (fun c => if convert_exp then convED (c.getD i "") else c.getD i "")))
    else .error (.formatError "write_matrix: ragged matrix")

/-- The `x['angular_momentum'][0]` lookup of the CRYSTAL writer on a
stored ECP term: a `TypeError` on `None`, an `IndexError` on an empty
list. -/
def am_head (t : EcpPotW) : Except PyErr ℕ :=
  match t.angular_momentum with
  | none => .error .typeError
  | some [] => .error .indexError
  | some (a :: _) => .ok a

/-- The ECP rows (`'{} {} {}'`) of one potential term, one row per
Gaussian exponent. -/
def crystal_ecp_term_rows (t : EcpPotW) : Except PyErr (List Line) := do
  let cs ← match t.coefficients.head? with
    | none => throw PyErr.indexError
    | some cs => pure cs
  (List.range t.gaussian_exponents.length).mapM (fun i =>
    match t.gaussian_exponents.get? i, cs.get? i, t.r_exponents.get? i with
    | some g, some c, some r => pure ([g, c, natTok r] : Line)
    | _, _, _ => throw PyErr.indexError)

/-- The per-angular-momentum ECP entry block of the CRYSTAL writer: the
five term counts (`num_terms`) and the emitted rows, for `am` `0..4`;
terms are selected by `k['angular_momentum'] == [am]`. -/
def crystal_ecp_entries (pots : List EcpPotW) : Except PyErr (List ℕ × List Line) := do
  let perAm ← (List.range 5).mapM (fun am => do
    let am_ecp := pots.filter (fun k => k.angular_momentum == some [am])
    let rowss ← am_ecp.mapM crystal_ecp_term_rows
    pure rowss.flatten)
  pure (perAm.map List.length, perAm.flatten)

/-- The loop body of `write_crystal` for one element: an empty record
for `Z ≥ 99` (skipped without an error), otherwise the header line, the
ECP block when present, and the shell descriptors and primitive
matrices. -/
def crystal_element_record (ecp_elements : List String) (z : String)
    (data : ElementDataW) : Except PyErr (List Line) := do
  let nat0 ← int_of_group z
  if 99 ≤ nat0 then pure []
  else do
    let nat := if ecp_elements.contains z then nat0 + 200 else nat0
    let shells ← match data.electron_shells with
      | none => throw PyErr.keyError
      | some s => pure s
    let header : Line := [intTok nat, natTok shells.length]
    let ecpLines ←
      if ecp_elements.contains z then do
        let ne ← match data.ecp_electrons with
          | none => throw PyErr.keyError
          | some n => pure n
        let Zeff := nat0 - ne
        let pots ← match data.ecp_potentials with
          | none => throw PyErr.keyError
          | some p => pure p
        let ams ← pots.mapM am_head
        let max_ecp_am ← match ams.max? with
          | none => throw PyErr.valueError
          | some m => pure m
        if 4 < max_ecp_am then
          throw (PyErr.runtimeError "ECP contains a projector above g")
        let ne2 ← crystal_ecp_entries pots
        pure ([(["INPUT"] : Line),
               (([intTok Zeff, natTok 0] ++ ne2.1.map natTok) : Line)] ++ ne2.2)
      else pure ([] : List Line)
    let shellLines ← shells.foldlM
      (fun acc sh => do
        let am := sh.angular_momentum
        let lat ← match am with
          | [a0, a1] =>
            if a0 ≠ 0 ∨ a1 ≠ 1 then
              throw (PyErr.runtimeError "only SP combined shells are supported")
            else pure 1
          | [a0] => pure (if a0 = 0 then 0 else a0 + 1)
          | _ => throw (PyErr.runtimeError "combined shells other than SP")
        let ng := sh.exponents.length
        let desc : Line := [natTok 0, natTok lat, natTok ng, natTok 0, "1.0"]
        let mat ← write_matrix (sh.exponents :: sh.coefficients) true
        pure (acc ++ desc :: mat))
      ([] : List Line)
    pure (header :: ecpLines ++ shellLines)

/-- `write_crystal`: canonical object to CRYSTAL format (a list of token
lines, ending with the `99 0` terminator).  The external normalization
transforms (`manip.uncontract_general`, `manip.uncontract_spdf`,
`sort.sort_basis`) are taken as function arguments. -/
def write_crystal (uncontract_general uncontract_spdf sort_basis : BasisW → BasisW)
    (basis : BasisW) : Except PyErr (List Line) := do
  let basis := sort_basis (uncontract_spdf (uncontract_general basis))
  let ecp_elements :=
    (basis.elements.filter (fun p => p.2.ecp_potentials.isSome)).map (·.1)
  let body ← basis.elements.foldlM
    (fun acc p => do
      let recs ← crystal_element_record ecp_elements p.1 p.2
      pure (acc ++ recs)) ([] : List Line)
  pure (body ++ [(["99", "0"] : Line)])

/-! ### Molpro user-input reader (`readers/molpro.py`); its lines are
modelled as lists of comma-separated fields -/

/-- A `\w+` field: nonempty, word characters. -/
def isWordTok (t : String) : Bool :=
  t.data ≠ [] && t.data.all (fun c => c.isAlphanum || c = '_')

/-- A field that is a single angular-momentum letter
(`[spdfghikSPDFGHIK]`). -/
def isAmChar (t : String) : Bool :=
  match t.data with
  | [c] => amChars.contains (lowChar c)
  | _ => false

/-- The `(\d+).(\d+)` range field of a contraction: the longest digit
prefix followed by exactly one character and a nonempty digit suffix
(regex backtracking semantics). -/
def splitStartEndAux (l : List Char) : ℕ → Option (ℕ × ℕ)
  | 0 => none
  | k + 1 =>
    match l.drop (k + 1) with
    | _ :: suf =>
      if (l.take (k + 1)).all Char.isDigit ∧ suf ≠ [] ∧ suf.all Char.isDigit then
        some (digitsToNat (l.take (k + 1)), digitsToNat suf)
      else splitStartEndAux l k
    | [] => splitStartEndAux l k

/-- Parse a `start.end` contraction range field. -/
def splitStartEnd (t : String) : Option (ℕ × ℕ) :=
  splitStartEndAux t.data (t.data.takeWhile Char.isDigit).length

/-- Molpro `element_shell_re`: `am, sym, exp1, exp2, ...`. -/
def molpro_shell_re_match (ln : Line) : Bool :=
  match ln with
  | am :: sym :: exps => isAmChar am && isWordTok sym && !exps.isEmpty && exps.all isFloatTok
  | _ => false

/-- Molpro `contraction_re`: `c, start.end, coeff1, coeff2, ...`. -/
def molpro_contraction_re_match (ln : Line) : Bool :=
  match ln with
  | c :: se :: coeffs =>
    c = "c" && (splitStartEnd se).isSome && !coeffs.isEmpty && coeffs.all isFloatTok
  | _ => false

/-- Groups of a Molpro shell line: the angular-momentum letter, the
element symbol and the exponent tokens (markers normalized). -/
def parse_molpro_shell_line (ln : Line) : Except PyErr (Char × String × List String) :=
  match ln with
  | am :: sym :: exps =>
    if isAmChar am && isWordTok sym && (!exps.isEmpty && exps.all isFloatTok) then
      .ok (am.data.headD 's', sym, exps.map normD)
    else .error (.formatError "am, element, exps")
  | _ => .error (.formatError "am, element, exps")

/-- Groups of a Molpro contraction line: range start and end, and the
coefficient tokens (markers normalized). -/
def parse_contraction_line (ln : Line) : Except PyErr (ℕ × ℕ × List String) :=
  match ln with
  | c :: se :: coeffs =>
    if c = "c" ∧ coeffs ≠ [] ∧ coeffs.all isFloatTok then
      match splitStartEnd se with
      | some se' => .ok (se'.1, se'.2, coeffs.map normD)
      | none => .error (.formatError "contraction")
    else .error (.formatError "contraction")
  | _ => .error (.formatError "contraction")

/-- The processing of one matched contraction line in the Molpro reader:
the declared-length assertion and the zero padding of the coefficient
vector to `nprim` entries, with the final length assertion. -/
def molpro_process_contraction (nprim : ℕ) (ln : Line) :
    Except PyErr (List String) := do
  let (start, endp, cc) ← parse_contraction_line ln
  let ncontr : ℤ := (endp : ℤ) - (start : ℤ) + 1
  if (cc.length : ℤ) ≠ ncontr then throw .assertionError
  let cc := if 1 < start then List.replicate (start - 1) "0.0" ++ cc else cc
  let cc := if (endp : ℤ) < (nprim : ℤ) then cc ++ List.replicate (nprim - endp) "0.0" else cc
  if cc.length ≠ nprim then throw .assertionError
  pure cc

/-- The contraction-reading loop of the Molpro reader: consumes matched
contraction lines, returning the coefficient vectors and the remaining
lines; the loop looks at the next line first and raises `IndexError`
when the lines run out. -/
def molpro_read_contractions (nprim : ℕ) :
    List Line → Except PyErr (List (List String) × List Line)
  | [] => .error .indexError
  | ln :: rest =>
    if molpro_contraction_re_match ln then do
      let cc ← molpro_process_contraction nprim ln
      let mr ← molpro_read_contractions nprim rest
      pure (cc :: mr.1, mr.2)
    else .ok ([], ln :: rest)

/-- The shell loop (`while element_shell_re.match(...)`) of the Molpro
reader.  Each iteration consumes at least one line, so the fuel passed
by `molpro_parse_electron_lines` cannot run out; exhaustion is mapped to
the same `IndexError` as a runaway index. -/
def molpro_shell_loop : ℕ → List Line → BsData → Except PyErr BsData
  | 0, _, _ => .error .indexError
  | _ + 1, [], _ => .error .indexError
  | fuel + 1, ln :: rest, bs =>
    if molpro_shell_re_match ln then
      match parse_molpro_shell_line ln with
      | .error e => .error e
      | .ok (amc, sym, exponents) =>
        match amchar_to_int amc with
        | .error e => .error e
        | .ok shell_am =>
          if exponents.length = 0 then .error .assertionError
          else
            match element_Z_from_sym sym with
            | .error e => .error e
            | .ok element_Z =>
              let bs1 := if (lookupEl bs element_Z).isSome then bs
                         else create_element_data bs element_Z .shells
              match molpro_read_contractions exponents.length rest with
              | .error e => .error e
              | .ok cr =>
                let func_type := if shell_am.headD 0 < 2 then "gto" else "gto_spherical"
                let shell : Shell :=
                  { function_type := func_type, region := "",
                    angular_momentum := shell_am, exponents := exponents,
                    coefficients := cr.1 }
                molpro_shell_loop fuel cr.2 (appendShell bs1 element_Z shell)
    else .ok bs

/-- Molpro `_parse_electron_lines`: asserts that the second line is a
shell entry and runs the shell loop from there. -/
def molpro_parse_electron_lines (basis_lines : List Line) (bs_data : BsData) :
    Except PyErr BsData :=
  match basis_lines.get? 1 with
  | none => .error .indexError
  | some l1 =>
    if molpro_shell_re_match l1 then
      molpro_shell_loop (basis_lines.length + 1) basis_lines.tail bs_data
    else .error .assertionError

/-- `read_molpro`: Molpro user input to the canonical object.  (The
spherical/cartesian scan of the source binds a local variable and has no
effect on the parse.) -/
def read_molpro (basis_lines : List Line) : Except PyErr BsData :=
  let basis_lines := prune_lines basis_lines '!'
  if basis_lines = [] then .ok []
  else molpro_parse_electron_lines basis_lines []

/-! ### Molpro system-library reader (`readers/libmol.py`) -/

/-- Libmol `element_shell_re`:
`sym am alias+ : nprim ncontr range+` (the colon is its own token). -/
def libmol_shell_re_match (ln : Line) : Bool :=
  match ln with
  | sym :: am :: rest =>
    isWordTok sym && isAmChar am &&
      (let aliases := rest.takeWhile (· ≠ ":")
       (!aliases.isEmpty && aliases.all (· ≠ "")) &&
         match rest.dropWhile (· ≠ ":") with
         | _ :: nprim :: ncontr :: ranges =>
           isIntTok nprim && isIntTok ncontr && !ranges.isEmpty &&
             ranges.all (fun r => (splitStartEnd r).isSome)
         | _ => false)
  | _ => false

/-- Groups of a libmol shell line: symbol, angular-momentum letter,
number of primitives, number of contractions and the raw contraction
range tokens (converted later, as in the source). -/
def parse_libmol_shell_line (ln : Line) :
    Except PyErr (String × Char × ℕ × ℕ × List String) :=
  if libmol_shell_re_match ln then
    match ln with
    | sym :: am :: rest =>
      (match rest.dropWhile (· ≠ ":") with
       | _ :: nprim :: ncontr :: ranges =>
         .ok (sym, am.data.headD 's', intTokVal nprim, intTokVal ncontr, ranges)
       | _ => .error (.formatError "element am (aliases) : nprim ncontr start.end"))
    | _ => .error (.formatError "element am (aliases) : nprim ncontr start.end")
  else .error (.formatError "element am (aliases) : nprim ncontr start.end")

/-- Python `t.split('.')` on a token's characters. -/
def splitDotAux : List Char → List Char → List (List Char)
  | [], acc => [acc.reverse]
  | c :: r, acc =>
    if c = '.' then acc.reverse :: splitDotAux r []
    else splitDotAux r (c :: acc)

/-- Python `int` on an unsigned decimal literal: digit characters with
single underscores allowed between digits. -/
def pyUIntLit? (p : List Char) : Option ℕ :=
  if p ≠ [] ∧ p.all Char.isDigit then some (digitsToNat p)
  else if p ≠ [] ∧ p.all (fun c => c.isDigit || c = '_') ∧
      (p.headD '0').isDigit ∧ (p.getLastD '0').isDigit ∧
      (p.zip p.tail).all (fun q => q.1.isDigit || q.2.isDigit) then
    some (digitsToNat (p.filter Char.isDigit))
  else none

/-- The libmol reader's range conversion
`[int(v) for v in r.split('.')]`: a `ValueError` on a part that is not
an integer literal. -/
def int_list_of_range (t : String) : Except PyErr (List ℕ) :=
  (splitDotAux t.data []).mapM (fun p =>
    match pyUIntLit? p with
    | some n => pure n
    | none => throw PyErr.valueError)

/-- Libmol `entry_re`: every token a floating or integer value. -/
def libmol_entry_match (ln : Line) : Bool :=
  !ln.isEmpty && ln.all (fun t => isFloatTok t || isIntTok t)

/-- The values read from one libmol data line (`convert_int=False`):
tokens with markers normalized, and a `.0` appended to tokens with no
decimal point. -/
def libmol_read_values (ln : Line) : List String :=
  ln.map (fun t =>
    let t := normD t
    if t.data.contains '.' then t else t ++ ".0")

/-- The data-reading loop of the libmol reader: reads whole lines until
at least `nread` values have been collected, returning the values and
the remaining lines. -/
def libmol_read_raw (nread : ℤ) :
    List Line → ℤ → List String → Except PyErr (List String × List Line)
  | [], nreadin, acc =>
    if nreadin < nread then .error .indexError else .ok (acc, [])
  | ln :: rest, nreadin, acc =>
    if nreadin < nread then
      if libmol_entry_match ln then
        let readval := libmol_read_values ln
        libmol_read_raw nread rest (nreadin + readval.length) (acc ++ readval)
      else .error (.formatError "exponent / contraction")
    else .ok (acc, ln :: rest)

/-- The coefficient collection of the libmol reader: slice `rawdata` at
the running offset for each declared range and zero-pad each slice. -/
def libmol_coefficients (cranges : List (ℕ × ℕ)) (nprim : ℕ)
    (rawdata : List String) : List (List String) :=
  (cranges.foldl
    (fun (st : ℤ × List (List String)) r =>
      let nentries : ℤ := (r.2 : ℤ) - (r.1 : ℤ) + 1
      let cc := pySlice rawdata st.1 (st.1 + nentries)
      let cc := if 1 < r.1 then List.replicate (r.1 - 1) "0.0" ++ cc else cc
      let cc := if (r.2 : ℤ) < (nprim : ℤ) then cc ++ List.replicate (nprim - r.2) "0.0" else cc
      (st.1 + nentries, st.2 ++ [cc]))
    ((nprim : ℤ), [])).2

/-- The shell loop of the libmol reader.  The loop pointer is left on
the last consumed data line (or on the comment line when no data was
read), exactly as the index arithmetic of the source leaves it.  Each
iteration consumes at least one line, so the fuel passed by
`read_libmol` cannot run out; exhaustion is mapped to the `IndexError`
of a runaway index. -/
def libmol_shell_loop : ℕ → List Line → BsData → Except PyErr BsData
  | 0, _, _ => .error .indexError
  | _ + 1, [], _ => .error .indexError
  | fuel + 1, ln :: rest, bs =>
    if libmol_shell_re_match ln then
      match parse_libmol_shell_line ln with
      | .error e => .error e
      | .ok (sym, amc, nprim, ncontr, ranges) =>
        match rest.head? with
        | none => .error .indexError
        | some _comment =>
          match amchar_to_int amc with
          | .error e => .error e
          | .ok shell_am =>
            if nprim = 0 then .error .assertionError
            else if ncontr = 0 then .error .assertionError
            else if ranges.length ≠ ncontr then .error .assertionError
            else
              match ranges.mapM int_list_of_range with
              | .error e => .error e
              | .ok rint =>
                match element_Z_from_sym sym with
                | .error e => .error e
                | .ok element_Z =>
                  let bs1 := if (lookupEl bs element_Z).isSome then bs
                             else create_element_data bs element_Z .shells
                  match rint.mapM (fun r =>
                      match r with
                      | a :: b :: _ => (Except.ok (a, b) : Except PyErr (ℕ × ℕ))
                      | _ => Except.error PyErr.indexError) with
                  | .error e => .error e
                  | .ok cranges =>
                    let nread : ℤ := (nprim : ℤ) +
                      (cranges.map (fun r => (r.2 : ℤ) - (r.1 : ℤ) + 1)).sum
                    match libmol_read_raw nread rest.tail 0 [] with
                    | .error e => .error e
                    | .ok rr =>
                      let rawdata := rr.1
                      let k := rest.tail.length - rr.2.length
                      let exponents := pySlice rawdata 0 (nprim : ℤ)
                      let coefficients := libmol_coefficients cranges nprim rawdata
                      let func_type := if shell_am.headD 0 < 2 then "gto"
                                       else "gto_spherical"
                      let shell : Shell :=
                        { function_type := func_type, region := "",
                          angular_momentum := shell_am, exponents := exponents,
                          coefficients := coefficients }
                      libmol_shell_loop fuel (rest.drop k)
                        (appendShell bs1 element_Z shell)
    else .ok bs

/-- Libmol `_parse_electron_lines`: asserts that the first line is a
shell entry and runs the shell loop. -/
def libmol_parse_electron_lines (basis_lines : List Line) (bs_data : BsData) :
    Except PyErr BsData :=
  match basis_lines with
  | [] => .error .indexError
  | l0 :: _ =>
    if libmol_shell_re_match l0 then
      libmol_shell_loop (basis_lines.length + 1) basis_lines bs_data
    else .error .assertionError

/-- `read_libmol`: Molpro system-library data to the canonical object. -/
def read_libmol (basis_lines : List Line) : Except PyErr BsData :=
  let basis_lines := prune_lines basis_lines '!'
  if basis_lines = [] then .ok []
  else libmol_parse_electron_lines basis_lines []

/-! ### Molpro system-library writer (`writers/libmol.py`) -/

/-- Modelled from the spec: `common.find_range` returns the first and
the last primitive index carrying a nonzero coefficient. -/
def find_range (c : List String) : ℕ × ℕ :=
  let nz := (List.range c.length).filter
    (fun i => !((tokVal? (c.getD i "")).getD Dec.one).beq Dec.zero)
  (nz.headD 0, nz.getLastD (c.length - 1))

/-- Chunks of `n` entries (fuel-based; `n ≥ 1`). -/
def chunksAux (n : ℕ) : ℕ → List String → List (List String)
  | 0, _ => []
  | _ + 1, [] => []
  | fuel + 1, l => l.take n :: chunksAux n fuel (l.drop n)

/-- Modelled from the spec: `common.reshape` chunks a flat list into
rows of at most `n` entries. -/
def reshape (l : List String) (n : ℕ) : List (List String) :=
  if n = 0 then [l] else chunksAux n l.length l

/-- Element name of an atomic-number string (`lut.element_name_from_Z`
applied to a dictionary key). -/
def element_name_from_Z_str (z : String) : Except PyErr String :=
  match pyInt? z with
  | none => .error .valueError
  | some n =>
    if 1 ≤ n ∧ n ≤ 118 then .ok ("element-" ++ intTok n) else .error .lookupError

/-- One shell entry of the libmol writer: the block-entry line with the
contraction ranges, the comment line and the wrapped data rows. -/
def libmol_shell_entry (name sym z cstr : String) (sh : Shell) :
    Except PyErr String := do
  let amchar ← amint_to_char sh.angular_momentum
  let amchar := strLower amchar
  let nprim := sh.exponents.length
  let ncontr := sh.coefficients.length
  let rc := sh.coefficients.foldl
    (fun (st : String × List String) c =>
      let fr := find_range c
      (st.1 ++ " " ++ natTok (fr.1 + 1) ++ "." ++ natTok (fr.2 + 1),
       st.2 ++ pySlice c (fr.1 : ℤ) ((fr.2 : ℤ) + 1)))
    ("", sh.exponents)
  let ename ← element_name_from_Z_str z
  let s := sym ++ " " ++ amchar ++ " " ++ name ++ " : " ++ natTok nprim ++ " " ++
    natTok ncontr ++ rc.1 ++ "\n"
  let s := s ++ ename ++ " " ++ cstr ++ " converted by Basis Set Exchange\n"
  let rows := reshape rc.2 5
  pure (rows.foldl (fun acc d => acc ++ " ".intercalate d ++ "\n") s)

/-- The harmonic-type line and the electron-basis text of the libmol
writer: per the spec, the entire output when an ECP is present, since
the writer returns before its ECP-emission code. -/
def libmol_harm_and_electron (make_general sort_basis : BasisW → BasisW)
    (contraction_string : ElementDataW → String) (basis : BasisW) :
    Except PyErr String := do
  let basis := sort_basis (make_general basis)
  let harm := if basis.function_types.contains "gto_cartesian" then "cartesian"
              else "spherical"
  let s := harm ++ "\n"
  let electron_elements :=
    (basis.elements.filter (fun p => p.2.electron_shells.isSome)).map (·.1)
  if electron_elements.isEmpty then pure s
  else do
    let s := s ++ "basis=\x7b\n"
    electron_elements.foldlM
      (fun acc z => do
        let data ← match (basis.elements.find? (fun p => p.1 = z)).map (·.2) with
          | some d => pure d
          | none => throw PyErr.keyError
        let sym ← element_sym_from_Z z
        let sym := strUpper sym
        (data.electron_shells.getD []).foldlM
          (fun acc2 sh => do
            let entry ← libmol_shell_entry basis.name sym z (contraction_string data) sh
            pure (acc2 ++ entry))
          acc)
      s

/-- `write_libmol`: canonical object to Molpro system-library format.
The external normalization transforms (`manip.make_general`,
`sort.sort_basis`) and the summary helper `misc.contraction_string` are
taken as function arguments.  When an ECP is present the source returns
the accumulated string right away, leaving its ECP-emission code
unreachable. -/
def write_libmol (make_general sort_basis : BasisW → BasisW)
    (contraction_string : ElementDataW → String) (basis : BasisW) :
    Except PyErr String := do
  let s ← libmol_harm_and_electron make_general sort_basis contraction_string basis
  let basis' := sort_basis (make_general basis)
  let ecp_elements :=
    (basis'.elements.filter (fun p => p.2.ecp_potentials.isSome)).map (·.1)
  if !ecp_elements.isEmpty then
    pure s
  else pure s

/-! ### Specification-side definitions for the claims -/

/-- The value `x` fits in the 17 significant decimal digits of
`{:.16E}` as given (no rounding occurs in the reformatting). -/
def rep17 (x : Dec) : Bool := digLen x.m.natAbs x.m.natAbs ≤ 17

/-- Value-equal token lists: same length, and the parsed values equal. -/
def toksEquiv (xs ys : List String) : Bool :=
  xs.length == ys.length &&
  (xs.zip ys).all (fun p =>
    match tokVal? p.1, tokVal? p.2 with
    | some a, some b => a.beq b
    | _, _ => false)

/-- Numerical equivalence of a read-back shell with a source shell: the
same angular momenta and value-equal exponents and coefficients. -/
def shellEquiv (a b : Shell) : Bool :=
  a.angular_momentum == b.angular_momentum &&
  toksEquiv a.exponents b.exponents &&
  a.coefficients.length == b.coefficients.length &&
  (a.coefficients.zip b.coefficients).all (fun p => toksEquiv p.1 p.2)

/-- Numerical equivalence of a reader output with a writer input: the
same elements in order, each with the same shells. -/
def basisEquivR (bs : BsData) (B : BasisW) : Bool :=
  bs.length == B.elements.length &&
  (bs.zip B.elements).all (fun p =>
    p.1.1 == p.2.1 &&
      (let xs := p.1.2.electron_shells.getD []
       let ys := p.2.2.electron_shells.getD []
       xs.length == ys.length && (xs.zip ys).all (fun q => shellEquiv q.1 q.2)))

/-- A well-formed exponent token for the CRYSTAL round trip: in the
floating grammar, not a bare integer (so that a data row cannot be
mistaken for an element header), and free of the comment character. -/
def goodExpTok (t : String) : Bool :=
  isFloatTok t && !isIntTok t && !hasCommentChar '!' t

/-- A well-formed coefficient token: in the floating grammar and free of
the comment character. -/
def goodCoefTok (t : String) : Bool :=
  isFloatTok t && !hasCommentChar '!' t

/-- Distinct element keys (a Python dict cannot repeat keys). -/
def keysDistinct : List String → Bool
  | [] => true
  | k :: r => !(r.contains k) && keysDistinct r

/-- Well-formedness of one shell for the CRYSTAL round trip: a single
angular momentum or the fused SP pair, one coefficient column per
angular-momentum component, at least one primitive, and well-formed
tokens. -/
def crystalWFSh (sh : Shell) : Bool :=
  (sh.angular_momentum == [0, 1] || sh.angular_momentum.length == 1) &&
  sh.coefficients.length == sh.angular_momentum.length &&
  !sh.exponents.isEmpty &&
  sh.exponents.all goodExpTok &&
  sh.coefficients.all (fun c =>
    c.length == sh.exponents.length && c.all goodCoefTok)

/-- Well-formedness of one element for the CRYSTAL round trip: a
canonically rendered atomic number in `1..98`, no ECP, at least one
shell, each well-formed. -/
def crystalWFEl (p : String × ElementDataW) : Bool :=
  (match pyInt? p.1 with
   | some n => decide (1 ≤ n ∧ n ≤ 98) && p.1 == intTok n
   | none => false) &&
  p.2.ecp_potentials == none &&
  (match p.2.electron_shells with
   | none => false
   | some shells => !shells.isEmpty && shells.all crystalWFSh)

/-- Well-formedness of a CRYSTAL round-trip input basis: distinct keys
and well-formed elements. -/
def crystalRoundWF (B : BasisW) : Bool :=
  keysDistinct (B.elements.map (·.1)) && B.elements.all crystalWFEl

/-- The claim's description of the ECP bucket slicing, bucket by bucket:
`idx` is the bucket index and `offset` the running partial sum of the
preceding counts. -/
def ecpBucketsSpecAux (records : List (String × String × ℕ)) :
    ℕ → ℕ → List ℕ → List EcpPotR
  | _, _, [] => []
  | idx, offset, m :: rest =>
    if m = 0 then ecpBucketsSpecAux records (idx + 1) offset rest
    else
      { angular_momentum := if idx = 0 then none else some (idx - 1),
        ecp_type := "scalar_ecp",
        r_exponents := ((records.drop offset).take m).map (fun r => r.2.2),
        gaussian_exponents := ((records.drop offset).take m).map (fun r => r.1),
        coefficients := ((records.drop offset).take m).map (fun r => r.2.1) } ::
        ecpBucketsSpecAux records (idx + 1) (offset + m) rest

/-- The claim's description of the ECP bucket slicing: the parsed
records sliced in the declared order `M, M0..M4` at the partial sums,
the first bucket unbound (`None`), bucket `i > 0` with angular momentum
`i - 1`, and empty buckets omitted. -/
def ecpBucketsSpec (counts : List ℕ) (records : List (String × String × ℕ)) :
    List EcpPotR :=
  ecpBucketsSpecAux records 0 0 counts

/-! ### Concrete inputs for counterexamples and witnesses -/

/-- Oxygen with one plain s shell and a CRYSTAL-expressible ECP (one
`l = 0` term): every lossy-feature condition of the round-trip claim is
met, yet reading back the written output fails. -/
def cexEcpBasis : BasisW :=
  ⟨"bn", [],
   [("8", ⟨some [⟨"gto", "", [0], ["1.5"], [["0.1"]]⟩],
           some [⟨some [0], "scalar_ecp", [2, 0], ["2.0", "3.0"], [["0.25", "0.5"]]⟩],
           some 2⟩)]⟩

/-- The CRYSTAL output `write_crystal` produces for `cexEcpBasis`. -/
def cexEcpWritten : List Line :=
  [["208", "1"], ["INPUT"], ["6", "0", "2", "0", "0", "0", "0"],
   ["2.0", "0.25", "2"], ["3.0", "0.5", "0"],
   ["0", "0", "1", "0", "1.0"], ["1.5", "0.1"], ["99", "0"]]

/-- Oxygen whose stored ECP has term counts `M = 1` (one unbound term
with `angular_momentum` `None`) and `M0 = 2` (two `l = 0` terms), as in
the bucket-reconstruction claim. -/
def cexNoneAmBasis : BasisW :=
  ⟨"bn", [],
   [("8", ⟨some [],
           some [⟨none, "scalar_ecp", [2], ["1.0"], [["0.5"]]⟩,
                 ⟨some [0], "scalar_ecp", [2], ["2.0"], [["0.25"]]⟩,
                 ⟨some [0], "scalar_ecp", [0], ["3.0"], [["0.75"]]⟩],
           some 2⟩)]⟩

/-- A CRYSTAL input whose shell header uses the reserved basis-type code
`ityb = 1` (Pople STO-nG). -/
def cexItybInput : List Line :=
  [["8", "1"], ["1", "0", "1", "0", "1.0"], ["1.5", "0.1"], ["99", "0"]]

/-- A CRYSTAL input with a data line of the wrong field count (two
coefficient columns declared for a plain s shell). -/
def cexBadRowInput : List Line :=
  [["8", "1"], ["0", "0", "1", "0", "1.0"], ["1.5", "0.1", "0.9"], ["99", "0"]]

/-- A Molpro user input whose contraction line declares the range `1.2`
(two coefficients) but carries only one coefficient. -/
def cexMolproCount : List Line :=
  [["basis="], ["s", "h", "1.0", "2.0"], ["c", "1.2", "0.5"]]

/-- A Molpro user input with one well-formed shell, then an unmatched
line, then a further well-formed shell: the reader stops at the
unmatched line and silently drops everything after it. -/
def cexMolproPartial : List Line :=
  [["basis="], ["s", "h", "1.0"], ["c", "1.1", "0.5"], ["junk"],
   ["s", "he", "2.0"], ["c", "1.1", "0.8"]]

/-- A libmol input whose single shell declares the contraction range
`9.2` over `nprim = 2` primitives. -/
def cexLibmolInput : List Line :=
  [["h", "s", "al", ":", "2", "1", "9.2"], ["comment-line"]]

/-- The shell `read_libmol` builds from `cexLibmolInput`: no exponents,
but one coefficient vector of eight zeros. -/
def cexLibmolShell : Shell :=
  ⟨"gto", "", [0], [], [["0.0", "0.0", "0.0", "0.0", "0.0", "0.0", "0.0", "0.0"]]⟩

/-- A small well-formed CRYSTAL round-trip basis: hydrogen with an SP
shell of two primitives and a d shell of one primitive. -/
def wfBasisH : BasisW :=
  ⟨"bn", [],
   [("1", ⟨some [⟨"gto", "", [0, 1], ["1.3E+01", "0.5"], [["0.2", "0.8"], ["-0.1", "0.4"]]⟩,
            ⟨"gto_spherical", "", [2], ["2.5"], [["1.0E+00"]]⟩],
           none, none⟩)]⟩

/-! ### Proof scaffolding: the writer's output shape on well-formed
input, and what the reader rebuilds from it -/

/-- The CRYSTAL shell-type code of an angular-momentum list (`0` for s,
`1` for SP, `l + 1` otherwise). -/
def latOf (am : List ℕ) : ℕ :=
  match am with
  | [_, _] => 1
  | [a0] => if a0 = 0 then 0 else a0 + 1
  | _ => 0

/-- The lines `write_crystal` emits for one well-formed shell. -/
def crystalShellLinesPure (sh : Shell) : List Line :=
  [natTok 0, natTok (latOf sh.angular_momentum), natTok sh.exponents.length,
   natTok 0, "1.0"] ::
    (List.range sh.exponents.length).map (fun i =>
      (sh.exponents :: sh.coefficients).map (fun c => convED (c.getD i "")))

/-- The lines `write_crystal` emits for one well-formed ECP-free
element. -/
def crystalElemLinesPure (p : String × ElementDataW) : List Line :=
  [p.1, natTok (p.2.electron_shells.getD []).length] ::
    ((p.2.electron_shells.getD []).map crystalShellLinesPure).flatten

/-- The full output of `write_crystal` on a well-formed ECP-free
basis. -/
def crystalWrittenPure (B : BasisW) : List Line :=
  (B.elements.map crystalElemLinesPure).flatten ++ [["99", "0"]]

/-- The shell `read_crystal` rebuilds from a written well-formed shell:
identical angular momenta, tokens re-normalized `E`→`D`→`E`. -/
def readShellOf (sh : Shell) : Shell :=
  { function_type := function_type_from_am sh.angular_momentum "gto" "spherical",
    region := "",
    angular_momentum := sh.angular_momentum,
    exponents := sh.exponents.map (fun t => normD (convED t)),
    coefficients := sh.coefficients.map (fun c => c.map (fun t => normD (convED t))) }

/-- The canonical object `read_crystal` rebuilds from the written form
of a well-formed ECP-free basis. -/
def crystalReadBack (B : BasisW) : BsData :=
  B.elements.map (fun p =>
    (p.1, ⟨some ((p.2.electron_shells.getD []).map readShellOf), none, none⟩))

/-- A character map that can only exchange exponent-marker letters: the
common shape of `normDChar` and `convEDChar`, under which token parsing
is invariant. -/
def MarkerMap (φ : Char → Char) : Prop :=
  (∀ c, Char.isDigit c = true → φ c = c) ∧
  (∀ c, Char.isDigit (φ c) = Char.isDigit c) ∧
  (∀ c, (φ c = '.') = (c = '.')) ∧
  (∀ c, (φ c = '+') = (c = '+')) ∧
  (∀ c, (φ c = '-') = (c = '-')) ∧
  (∀ c, isExpMark (φ c) = isExpMark c) ∧
  (∀ c, (φ c = '!') = (c = '!'))

/-! ## Theorems -/

/-! ### Generic list lemmas -/

theorem takeWhile_append_all {α : Type} (q : α → Bool) (l r : List α)
    (h : ∀ x ∈ l, q x = true) : (l ++ r).takeWhile q = l ++ r.takeWhile q := by
  induction l with
  | nil => simp
  | cons a t ih =>
    have ha := h a (by simp)
    simp [List.takeWhile_cons, ha, ih (fun x hx => h x (by simp [hx]))]

theorem dropWhile_append_all {α : Type} (q : α → Bool) (l r : List α)
    (h : ∀ x ∈ l, q x = true) : (l ++ r).dropWhile q = r.dropWhile q := by
  induction l with
  | nil => simp
  | cons a t ih =>
    simp only [List.cons_append, List.dropWhile_cons, h a (by simp)]
    exact ih (fun x hx => h x (by simp [hx]))

theorem dropWhile_append_of_ne_nil {α : Type} (q : α → Bool) (l r : List α)
    (h : l.dropWhile q ≠ []) : (l ++ r).dropWhile q = l.dropWhile q ++ r := by
  induction l with
  | nil => simp at h
  | cons a t ih =>
    by_cases hq : q a
    · simp only [List.cons_append, List.dropWhile_cons, hq, if_true]
      simp only [List.dropWhile_cons, hq, if_true] at h
      exact ih h
    · simp [List.dropWhile_cons, hq]

theorem range_map_getD {α β : Type} (f : α → β) (l : List α) (d : α) :
    (List.range l.length).map (fun i => f (l.getD i d)) = l.map f := by
  apply List.ext_getElem
  · simp
  · intro i h1 h2
    have hi : i < l.length := by simpa using h2
    simp only [List.getElem_map, List.getElem_range]
    rw [List.getD_eq_getElem?_getD, List.getElem?_eq_getElem hi]
    rfl

theorem splitBlocksAux_nil (p : Line → Bool) (fuel : ℕ) :
    splitBlocksAux p fuel [] = [] := by
  cases fuel <;> rfl

/-- Blocks, each of which begins with a line matching `p` and contains
no other matching line, are recovered from their concatenation. -/
theorem splitBlocksAux_flatten (p : Line → Bool) :
    ∀ (blocks : List (List Line)) (fuel : ℕ),
      blocks.flatten.length ≤ fuel →
      (∀ b ∈ blocks, b ≠ [] ∧ p (b.headD []) = true ∧ ∀ x ∈ b.tail, p x = false) →
      splitBlocksAux p fuel blocks.flatten = blocks := by
  intro blocks
  induction blocks with
  | nil => intro fuel _ _; exact splitBlocksAux_nil p fuel
  | cons b rest ih =>
    intro fuel hfuel hwf
    obtain ⟨hb, hhd, htl⟩ := hwf b (by simp)
    obtain ⟨hd, tl, rfl⟩ : ∃ hd tl, b = hd :: tl := by
      cases b with
      | nil => exact absurd rfl hb
      | cons x xs => exact ⟨x, xs, rfl⟩
    simp only [List.flatten_cons, List.cons_append] at hfuel ⊢
    cases fuel with
    | zero => simp at hfuel
    | succ f =>
      simp only [splitBlocksAux]
      have htl' : ∀ x ∈ tl, (!p x) = true := by
        intro x hx
        simp [htl x (by simpa using hx)]
      have htake : (tl ++ rest.flatten).takeWhile (fun x => !p x) = tl := by
        rw [takeWhile_append_all _ _ _ htl']
        cases hre : rest with
        | nil => simp
        | cons b2 rest2 =>
          obtain ⟨hb2, hhd2, _⟩ := hwf b2 (by simp [hre])
          obtain ⟨hd2, tl2, rfl⟩ : ∃ hd2 tl2, b2 = hd2 :: tl2 := by
            cases b2 with
            | nil => exact absurd rfl hb2
            | cons x xs => exact ⟨x, xs, rfl⟩
          simp only [List.flatten_cons, List.cons_append, List.takeWhile_cons]
          simp only [List.headD_cons] at hhd2
          simp [hhd2]
      have hdrop : (tl ++ rest.flatten).dropWhile (fun x => !p x) = rest.flatten := by
        rw [dropWhile_append_all _ _ _ htl']
        cases hre : rest with
        | nil => simp
        | cons b2 rest2 =>
          obtain ⟨hb2, hhd2, _⟩ := hwf b2 (by simp [hre])
          obtain ⟨hd2, tl2, rfl⟩ : ∃ hd2 tl2, b2 = hd2 :: tl2 := by
            cases b2 with
            | nil => exact absurd rfl hb2
            | cons x xs => exact ⟨x, xs, rfl⟩
          simp only [List.flatten_cons, List.cons_append, List.dropWhile_cons]
          simp only [List.headD_cons] at hhd2
          simp [hhd2]
      rw [htake, hdrop,
        ih f (by simp only [List.length_cons, List.length_append] at hfuel; omega)
          (fun x hx => hwf x (by simp [hx]))]

/-- `splitBlocks` recovers well-formed blocks from their
concatenation. -/
theorem splitBlocks_flatten (p : Line → Bool) (blocks : List (List Line))
    (hwf : ∀ b ∈ blocks, b ≠ [] ∧ p (b.headD []) = true ∧ ∀ x ∈ b.tail, p x = false) :
    splitBlocks p blocks.flatten = blocks :=
  splitBlocksAux_flatten p blocks _ le_rfl hwf

/-! ### Token parsing under marker maps -/

theorem markerMap_normD : MarkerMap normDChar := by
  refine ⟨?_, ?_, ?_, ?_, ?_, ?_, ?_⟩ <;> intro c <;>
    simp only [normDChar, isExpMark] <;> split_ifs <;> simp_all <;> decide

theorem markerMap_convED : MarkerMap convEDChar := by
  refine ⟨?_, ?_, ?_, ?_, ?_, ?_, ?_⟩ <;> intro c <;>
    simp only [convEDChar, isExpMark] <;> split_ifs <;> simp_all <;> decide

theorem parseSign_map (φ : Char → Char) (h : MarkerMap φ) (l : List Char) :
    parseSign (l.map φ) = ((parseSign l).1, (parseSign l).2.map φ) := by
  cases l with
  | nil => rfl
  | cons c r =>
    simp only [List.map_cons, parseSign, h.2.2.2.1 c, h.2.2.2.2.1 c]
    split_ifs <;> rfl

theorem takeWhile_digit_map (φ : Char → Char) (h : MarkerMap φ) (l : List Char) :
    (l.map φ).takeWhile Char.isDigit = l.takeWhile Char.isDigit := by
  have hcomp : (Char.isDigit ∘ φ) = Char.isDigit := funext h.2.1
  rw [List.takeWhile_map, hcomp]
  calc (l.takeWhile Char.isDigit).map φ
      = (l.takeWhile Char.isDigit).map id :=
        List.map_congr_left (fun x hx => h.1 x (List.mem_takeWhile_imp hx))
    _ = l.takeWhile Char.isDigit := List.map_id _

theorem dropWhile_digit_map (φ : Char → Char) (h : MarkerMap φ) (l : List Char) :
    (l.map φ).dropWhile Char.isDigit = (l.dropWhile Char.isDigit).map φ := by
  have hcomp : (Char.isDigit ∘ φ) = Char.isDigit := funext h.2.1
  rw [List.dropWhile_map, hcomp]

theorem parseExpTail_map (φ : Char → Char) (h : MarkerMap φ) (l : List Char) :
    parseExpTail (l.map φ) = parseExpTail l := by
  simp only [parseExpTail, parseSign_map φ h l,
    takeWhile_digit_map φ h (parseSign l).2, dropWhile_digit_map φ h (parseSign l).2]
  simp [List.map_eq_nil_iff]

/-- Token parsing is invariant under exponent-marker maps. -/
theorem floatValList_map (φ : Char → Char) (h : MarkerMap φ) (l : List Char) :
    floatValList (l.map φ) = floatValList l := by
  simp only [floatValList, parseSign_map φ h l,
    takeWhile_digit_map φ h (parseSign l).2, dropWhile_digit_map φ h (parseSign l).2]
  cases hr2 : (parseSign l).2.dropWhile Char.isDigit with
  | nil => simp
  | cons c r3 =>
    simp only [List.map_cons, h.2.2.1 c]
    by_cases hc : c = '.'
    · simp only [hc, if_true,
        takeWhile_digit_map φ h r3, dropWhile_digit_map φ h r3]
      cases hr4 : r3.dropWhile Char.isDigit with
      | nil => simp
      | cons m r5 =>
        simp only [List.map_cons, h.2.2.2.2.2.1 m, parseExpTail_map φ h r5]
    · simp only [hc, if_false, h.2.2.2.2.2.1 c, parseExpTail_map φ h r3]

theorem tokVal?_normD (s : String) : tokVal? (normD s) = tokVal? s :=
  floatValList_map normDChar markerMap_normD s.data

theorem tokVal?_convED (s : String) : tokVal? (convED s) = tokVal? s :=
  floatValList_map convEDChar markerMap_convED s.data

theorem tokVal?_normD_convED (s : String) :
    tokVal? (normD (convED s)) = tokVal? s := by
  rw [tokVal?_normD, tokVal?_convED]

theorem isFloatTok_convED (s : String) : isFloatTok (convED s) = isFloatTok s := by
  simp [isFloatTok, tokVal?_convED]

theorem isIntTok_map (φ : Char → Char) (h : MarkerMap φ) (s : String) :
    isIntTok ⟨s.data.map φ⟩ = isIntTok s := by
  have hcomp : (Char.isDigit ∘ φ) = Char.isDigit := funext h.2.1
  cases hd : s.data with
  | nil => simp [isIntTok, hd]
  | cons c r => simp [isIntTok, hd, List.all_map, hcomp, h.2.1 c]

theorem isIntTok_convED (s : String) : isIntTok (convED s) = isIntTok s :=
  isIntTok_map convEDChar markerMap_convED s

theorem hasCommentChar_map (φ : Char → Char) (h : MarkerMap φ) (s : String) :
    hasCommentChar '!' ⟨s.data.map φ⟩ = hasCommentChar '!' s := by
  simp only [hasCommentChar, List.contains_eq_any_beq, List.any_map]
  congr 1
  funext c
  simpa [beq_iff_eq, eq_comm] using h.2.2.2.2.2.2 c

theorem hasCommentChar_convED (s : String) :
    hasCommentChar '!' (convED s) = hasCommentChar '!' s :=
  hasCommentChar_map convEDChar markerMap_convED s

/-! ### Decimal rendering lemmas -/

theorem digitChar_isDigit (d : ℕ) (h : d < 10) : (Nat.digitChar d).isDigit = true := by
  interval_cases d <;> decide

theorem digitChar_toNat (d : ℕ) (h : d < 10) : (Nat.digitChar d).toNat - 48 = d := by
  interval_cases d <;> decide

theorem natTokAux_all_digit : ∀ fuel n, (natTokAux fuel n).all Char.isDigit = true := by
  intro fuel
  induction fuel with
  | zero => intro n; rfl
  | succ f ih =>
    intro n
    simp only [natTokAux]
    split
    · rfl
    · simp [List.all_append, ih (n / 10),
        digitChar_isDigit (n % 10) (Nat.mod_lt _ (by norm_num))]

theorem digitsToNat_append_singleton (l : List Char) (c : Char) :
    digitsToNat (l ++ [c]) = 10 * digitsToNat l + (c.toNat - 48) := by
  simp [digitsToNat, List.foldl_append]

theorem natTokAux_val : ∀ fuel n, n ≤ fuel → digitsToNat (natTokAux fuel n) = n := by
  intro fuel
  induction fuel with
  | zero =>
    intro n hn
    interval_cases n
    rfl
  | succ f ih =>
    intro n hn
    simp only [natTokAux]
    split
    · simp_all [digitsToNat]
    · rename_i h
      have hdiv : n / 10 ≤ f := by
        have : n / 10 < n := Nat.div_lt_self (Nat.pos_of_ne_zero h) (by norm_num)
        omega
      rw [digitsToNat_append_singleton, ih (n / 10) hdiv,
        digitChar_toNat _ (Nat.mod_lt _ (by norm_num)), Nat.div_add_mod]

theorem natTokAux_ne_nil (fuel n : ℕ) (h1 : 0 < n) (h2 : n ≤ fuel) :
    natTokAux fuel n ≠ [] := by
  cases fuel with
  | zero => omega
  | succ f =>
    simp only [natTokAux, Nat.pos_iff_ne_zero.mp h1, if_false]
    simp

theorem natTokAux_length : ∀ fuel n k, n ≤ fuel → n < 10 ^ k →
    (natTokAux fuel n).length ≤ k := by
  intro fuel
  induction fuel with
  | zero =>
    intro n k h1 h2
    interval_cases n
    simp [natTokAux]
  | succ f ih =>
    intro n k h1 h2
    simp only [natTokAux]
    split
    · simp
    · rename_i hn
      have hk : k ≠ 0 := by
        rintro rfl
        simp at h2
        omega
      have hdivlt : n / 10 < 10 ^ (k - 1) := by
        apply Nat.div_lt_of_lt_mul
        calc n < 10 ^ k := h2
          _ = 10 * 10 ^ (k - 1) := by
            rw [← pow_succ']
            congr 1
            omega
      have hdiv : n / 10 ≤ f := by
        have : n / 10 < n := Nat.div_lt_self (Nat.pos_of_ne_zero hn) (by norm_num)
        omega
      have := ih (n / 10) (k - 1) hdiv hdivlt
      simp only [List.length_append, List.length_cons, List.length_nil]
      omega

theorem natTok_all_digit (n : ℕ) : (natTok n).data.all Char.isDigit = true := by
  by_cases h0 : n = 0
  · subst h0; decide
  · simp only [natTok, h0, if_false]
    exact natTokAux_all_digit n n

theorem natTok_data_ne (n : ℕ) : (natTok n).data ≠ [] := by
  by_cases h0 : n = 0
  · subst h0; decide
  · simp only [natTok, h0, if_false]
    exact natTokAux_ne_nil n n (Nat.pos_of_ne_zero h0) le_rfl

theorem natTok_isIntTok (n : ℕ) : isIntTok (natTok n) = true := by
  simp [isIntTok, natTok_all_digit n, natTok_data_ne n]

theorem intTokVal_natTok (n : ℕ) : intTokVal (natTok n) = n := by
  by_cases h0 : n = 0
  · subst h0; decide
  · simp only [intTokVal, natTok, h0, if_false]
    exact natTokAux_val n n le_rfl

theorem pyInt?_natTok (n : ℕ) : pyInt? (natTok n) = some (n : ℤ) := by
  by_cases h0 : n = 0
  · subst h0; decide
  · have hne := natTokAux_ne_nil n n (Nat.pos_of_ne_zero h0) le_rfl
    have hall := natTokAux_all_digit n n
    have hval := natTokAux_val n n le_rfl
    simp only [natTok, h0, if_false, pyInt?]
    cases hd : natTokAux n n with
    | nil => exact absurd hd hne
    | cons c r =>
      rw [hd] at hall hval
      have hc : c.isDigit = true := by
        simp only [List.all_cons, Bool.and_eq_true] at hall
        exact hall.1
      have hcm : ¬ c = '-' := by
        rintro rfl
        exact absurd hc (by decide)
      have hcp : ¬ c = '+' := by
        rintro rfl
        exact absurd hc (by decide)
      simp [hcm, hcp, hall, digitsToNat] at hval ⊢
      simp [digitsToNat, hval]

theorem natTok_no_comment (n : ℕ) : hasCommentChar '!' (natTok n) = false := by
  have hall := natTok_all_digit n
  simp only [hasCommentChar, List.contains_eq_any_beq]
  rw [List.any_eq_false]
  intro c hc
  have : c.isDigit = true := by
    rw [List.all_eq_true] at hall
    exact hall c hc
  simp only [beq_iff_eq]
  rintro rfl
  exact absurd this (by decide)

theorem intTok_nonneg (n : ℤ) (h : 0 ≤ n) : intTok n = natTok n.natAbs := by
  simp [intTok, not_lt.mpr h]

theorem natTok_length_le (n k : ℕ) (hk : 1 ≤ k) (h : n < 10 ^ k) :
    (natTok n).data.length ≤ k := by
  by_cases h0 : n = 0
  · subst h0
    simpa using hk
  · simp only [natTok, h0, if_false]
    exact natTokAux_length n n k le_rfl h

/-! ### Exact-decimal lemmas -/

theorem Dec.toQ_mul (x y : Dec) : (x.mul y).toQ = x.toQ * y.toQ := by
  simp only [Dec.mul, Dec.toQ]
  push_cast
  rw [zpow_add₀ (by norm_num : (10 : ℚ) ≠ 0)]
  ring

theorem int_mul_zpow_eq (a b : ℤ) (k : ℕ) (E : ℤ) :
    (a : ℚ) * (10 : ℚ) ^ E = (b : ℚ) * (10 : ℚ) ^ (E + (k : ℤ)) ↔ a = b * 10 ^ k := by
  have h10 : (10 : ℚ) ^ E ≠ 0 := zpow_ne_zero E (by norm_num)
  rw [zpow_add₀ (by norm_num : (10 : ℚ) ≠ 0) E k, zpow_natCast]
  constructor
  · intro h
    have h2 : (a : ℚ) * (10 : ℚ) ^ E = ((b * 10 ^ k : ℤ) : ℚ) * (10 : ℚ) ^ E := by
      push_cast
      linear_combination h
    exact_mod_cast mul_right_cancel₀ h10 h2
  · intro h
    subst h
    push_cast
    ring

/-- `Dec.beq` decides rational-value equality. -/
theorem Dec.beq_iff (x y : Dec) : x.beq y = true ↔ x.toQ = y.toQ := by
  unfold Dec.beq Dec.toQ
  split
  · rename_i he
    have hk : x.e + ((y.e - x.e).toNat : ℤ) = y.e := by
      rw [Int.toNat_of_nonneg (by omega)]
      omega
    have h2 := int_mul_zpow_eq x.m y.m (y.e - x.e).toNat x.e
    rw [hk] at h2
    rw [beq_iff_eq]
    exact h2.symm
  · rename_i he
    have hk : y.e + ((x.e - y.e).toNat : ℤ) = x.e := by
      rw [Int.toNat_of_nonneg (by omega)]
      omega
    have h2 := int_mul_zpow_eq y.m x.m (x.e - y.e).toNat y.e
    rw [hk] at h2
    rw [beq_iff_eq]
    constructor
    · intro h
      exact (h2.mpr h.symm).symm
    · intro h
      exact (h2.mp h.symm).symm

theorem Dec.beq_refl (x : Dec) : x.beq x = true :=
  (Dec.beq_iff x x).mpr rfl

/-! ### CRYSTAL reader: shell-block characterization -/

theorem mapM_ok_of_all {α β : Type} (f : α → Except PyErr β) (g : α → β) (l : List α)
    (h : ∀ x ∈ l, f x = .ok (g x)) : l.mapM f = .ok (l.map g) := by
  induction l with
  | nil => rfl
  | cons a t ih =>
    rw [List.mapM_cons, h a (by simp), ih (fun x hx => h x (by simp [hx]))]
    rfl

theorem scaleExponent_ok (sf : Dec) (ex : String) (v : Dec)
    (h : tokVal? ex = some v) :
    scaleExponent sf ex = .ok (trimZeros (fmt16E (v.mul sf))) := by
  simp [scaleExponent, h]

/-- An `ityb` other than `0` (the reserved Pople codes included) makes
the shell parser raise `AssertionError`. -/
theorem crystal_shell_block_assert (z : String) (bs : BsData) (hd : Line)
    (rows : List Line) (i r ng : ℕ) (che sc : String) (hi : i ≠ 0)
    (hhd : parse_shell_header hd = .ok (i, r, ng, che, sc)) :
    crystal_shell_block z bs (hd :: rows) = .error .assertionError := by
  simp [crystal_shell_block, hhd, hi, bind, Except.bind, throw, throwThe,
    MonadExceptOf.throw, pure, Except.pure]

/-- The shell parser on a block with a trivial scale factor. -/
theorem crystal_shell_block_ok (z : String) (bs : BsData) (hd : Line)
    (rows : List Line) (r ng : ℕ) (che sc : String) (sv : Dec)
    (exps : List String) (coefs : List (List String))
    (hhd : parse_shell_header hd = .ok (0, r, ng, che, sc))
    (hsv : tokVal? sc = some sv)
    (hsc1 : (sv.mul sv).beq Dec.one = true)
    (hmat : parse_primitive_matrix (rows.take ng) ng
      (if r = 0 then [0] else if r = 1 then [0, 1] else [r - 1]).length =
        .ok (exps, coefs)) :
    crystal_shell_block z bs (hd :: rows) =
      .ok (appendShell bs z
        { function_type := function_type_from_am
            (if r = 0 then [0] else if r = 1 then [0, 1] else [r - 1]) "gto" "spherical",
          region := "",
          angular_momentum := if r = 0 then [0] else if r = 1 then [0, 1] else [r - 1],
          exponents := exps, coefficients := coefs }) := by
  simp [crystal_shell_block, hhd, pyFloatTok, hsv, hsc1, hmat, bind, Except.bind,
    throw, throwThe, MonadExceptOf.throw, pure, Except.pure]

/-- The shell parser on a block with a nontrivial scale factor: every
stored exponent is the parsed exponent times the squared scale factor,
reformatted with `{:.16E}` and trimmed. -/
theorem crystal_shell_block_scaled (z : String) (bs : BsData) (hd : Line)
    (rows : List Line) (r ng : ℕ) (che sc : String) (sv : Dec)
    (exps : List String) (coefs : List (List String))
    (hhd : parse_shell_header hd = .ok (0, r, ng, che, sc))
    (hsv : tokVal? sc = some sv)
    (hsc1 : (sv.mul sv).beq Dec.one = false)
    (hmat : parse_primitive_matrix (rows.take ng) ng
      (if r = 0 then [0] else if r = 1 then [0, 1] else [r - 1]).length =
        .ok (exps, coefs))
    (hexps : ∀ ex ∈ exps, (tokVal? ex).isSome = true) :
    crystal_shell_block z bs (hd :: rows) =
      .ok (appendShell bs z
        { function_type := function_type_from_am
            (if r = 0 then [0] else if r = 1 then [0, 1] else [r - 1]) "gto" "spherical",
          region := "",
          angular_momentum := if r = 0 then [0] else if r = 1 then [0, 1] else [r - 1],
          exponents := exps.map (fun ex =>
            trimZeros (fmt16E (((tokVal? ex).getD Dec.one).mul (sv.mul sv)))),
          coefficients := coefs }) := by
  have hmap : exps.mapM (scaleExponent (sv.mul sv)) =
      .ok (exps.map (fun ex =>
        trimZeros (fmt16E (((tokVal? ex).getD Dec.one).mul (sv.mul sv))))) := by
    apply mapM_ok_of_all
    intro ex hex
    obtain ⟨v, hv⟩ := Option.isSome_iff_exists.mp (hexps ex hex)
    rw [scaleExponent_ok _ _ _ hv, hv]
    rfl
  have hmap' : List.mapM.loop (scaleExponent (sv.mul sv)) exps [] =
      .ok (exps.map (fun ex =>
        trimZeros (fmt16E (((tokVal? ex).getD Dec.one).mul (sv.mul sv))))) := hmap
  simp [crystal_shell_block, hhd, pyFloatTok, hsv, hsc1, hmat, hmap', bind,
    Except.bind, throw, throwThe, MonadExceptOf.throw, pure, Except.pure]

/-- A matrix parse failure propagates out of the shell parser as the
same `FormatError`. -/
theorem crystal_shell_block_matrix_error (z : String) (bs : BsData) (hd : Line)
    (rows : List Line) (r ng : ℕ) (che sc : String) (sv : Dec) (msg : String)
    (hhd : parse_shell_header hd = .ok (0, r, ng, che, sc))
    (hsv : tokVal? sc = some sv)
    (hmat : parse_primitive_matrix (rows.take ng) ng
      (if r = 0 then [0] else if r = 1 then [0, 1] else [r - 1]).length =
        .error (.formatError msg)) :
    crystal_shell_block z bs (hd :: rows) = .error (.formatError msg) := by
  simp [crystal_shell_block, hhd, pyFloatTok, hsv, hmat, bind, Except.bind,
    throw, throwThe, MonadExceptOf.throw, pure, Except.pure]

/-- C3: in the CRYSTAL shell parser a raw angular-momentum code of `1`
yields the fused SP shell `[0, 1]`, a raw code of `0` yields `[0]`, and
every other raw code `k` yields `[k - 1]` (both with and without a
scale factor); an unsupported basis-type code (`ityb ≠ 0`, the reserved
Pople variants included) makes the parse fail fast with an error
instead of silently mis-mapping. -/
theorem C3_crystal_am_mapping :
    (∀ z bs hd rows r ng che sc sv exps coefs,
      parse_shell_header hd = .ok (0, r, ng, che, sc) →
      tokVal? sc = some sv →
      (sv.mul sv).beq Dec.one = true →
      parse_primitive_matrix (rows.take ng) ng
        (if r = 0 then [0] else if r = 1 then [0, 1] else [r - 1]).length =
          .ok (exps, coefs) →
      crystal_shell_block z bs (hd :: rows) =
        .ok (appendShell bs z
          { function_type := function_type_from_am
              (if r = 0 then [0] else if r = 1 then [0, 1] else [r - 1])
              "gto" "spherical",
            region := "",
            angular_momentum := if r = 0 then [0] else if r = 1 then [0, 1] else [r - 1],
            exponents := exps, coefficients := coefs })) ∧
    (∀ z bs hd rows i r ng che sc, i ≠ 0 →
      parse_shell_header hd = .ok (i, r, ng, che, sc) →
      crystal_shell_block z bs (hd :: rows) = .error .assertionError) :=
  ⟨fun z bs hd rows r ng che sc sv exps coefs h1 h2 h3 h4 =>
    crystal_shell_block_ok z bs hd rows r ng che sc sv exps coefs h1 h2 h3 h4,
   fun z bs hd rows i r ng che sc hi h =>
    crystal_shell_block_assert z bs hd rows i r ng che sc hi h⟩

/-- Witness for C3: a raw code `1` block parses to the SP shell
`[0, 1]`, and the reserved `ityb = 1` header is rejected. -/
theorem C3_crystal_am_mapping_witness :
    crystal_shell_block "8" [] [["0", "1", "1", "0", "1.0"], ["2.0", "0.5", "0.25"]] =
      .ok (appendShell [] "8"
        { function_type := "gto", region := "", angular_momentum := [0, 1],
          exponents := ["2.0"], coefficients := [["0.5"], ["0.25"]] }) ∧
    crystal_shell_block "8" [] [["1", "0", "1", "0", "1.0"], ["2.0", "0.5"]] =
      .error .assertionError := by
  constructor
  · have h := C3_crystal_am_mapping.1 "8" [] ["0", "1", "1", "0", "1.0"]
      [["2.0", "0.5", "0.25"]] 1 1 "0" "1.0" ⟨10, -1⟩ ["2.0"] [["0.5"], ["0.25"]]
      (by decide) (by decide) (by decide) (by decide)
    simpa using h
  · exact C3_crystal_am_mapping.2 "8" [] ["1", "0", "1", "0", "1.0"]
      [["2.0", "0.5"]] 1 0 1 "0" "1.0" (by decide) (by decide)

/-- C7 counterexamples, one per reader named by the claim.  CRYSTAL: a
shell header using the reserved-but-unsupported basis-type code `1`
makes `read_crystal` raise `AssertionError`, not the `FormatError` the
claim demands.  Molpro: a contraction line whose coefficient count
contradicts its declared range makes `read_molpro` raise
`AssertionError`, not `FormatError`; and an input with an unmatched
line after a well-formed shell is not rejected at all — `read_molpro`
returns the partial object built so far, silently dropping the
further, itself well-formed shell line behind the unmatched line. -/
theorem C7_counterexample :
    read_crystal cexItybInput = .error .assertionError ∧
    read_molpro cexMolproCount = .error .assertionError ∧
    read_molpro cexMolproPartial =
      .ok [("1", ⟨some [⟨"gto", "", [0], ["1.0"], [["0.5"]]⟩], none, none⟩)] ∧
    molpro_shell_re_match ["s", "he", "2.0"] = true :=
  ⟨by decide, by decide, by decide, by decide⟩

/-- C7 (amended): in the CRYSTAL reader a data line with a wrong field
count (or a malformed numeric token) aborts the parse with a
`FormatError`, while a shell header using a reserved-but-unsupported
basis-type code aborts it with an `AssertionError`; in both cases the
error propagates out of `read_crystal` and no partial basis-set object
is produced (an `Except.error` result carries no data).  The Molpro
reader is weaker on both counts: a contraction line whose coefficient
count contradicts its declared range raises `AssertionError`, not
`FormatError`, and an unmatched line does not abort the parse at all —
the shell loop simply stops and returns the object built so far, a
best-effort partial result. -/
theorem C7_malformed_rejection :
    (∀ z bs hd rows r ng che sc sv msg,
      parse_shell_header hd = .ok (0, r, ng, che, sc) →
      tokVal? sc = some sv →
      parse_primitive_matrix (rows.take ng) ng
        (if r = 0 then [0] else if r = 1 then [0, 1] else [r - 1]).length =
          .error (.formatError msg) →
      crystal_shell_block z bs (hd :: rows) = .error (.formatError msg)) ∧
    (∀ z bs hd rows i r ng che sc, i ≠ 0 →
      parse_shell_header hd = .ok (i, r, ng, che, sc) →
      crystal_shell_block z bs (hd :: rows) = .error .assertionError) ∧
    read_crystal cexBadRowInput =
      .error (.formatError "parse_primitive_matrix: malformed row") ∧
    read_crystal cexItybInput = .error .assertionError ∧
    (∀ (nprim : ℕ) (ln : Line) (start endp : ℕ) (cc : List String),
      parse_contraction_line ln = .ok (start, endp, cc) →
      (cc.length : ℤ) ≠ (endp : ℤ) - (start : ℤ) + 1 →
      molpro_process_contraction nprim ln = .error .assertionError) ∧
    (∀ (fuel : ℕ) (ln : Line) (rest : List Line) (bs : BsData),
      molpro_shell_re_match ln = false →
      molpro_shell_loop (fuel + 1) (ln :: rest) bs = .ok bs) :=
  ⟨fun z bs hd rows r ng che sc sv msg h1 h2 h3 =>
    crystal_shell_block_matrix_error z bs hd rows r ng che sc sv msg h1 h2 h3,
   fun z bs hd rows i r ng che sc hi h =>
    crystal_shell_block_assert z bs hd rows i r ng che sc hi h,
   by decide, by decide,
   fun nprim ln start endp cc hpc hne => by
     simp only [molpro_process_contraction, hpc, bind, Except.bind, pure,
       Except.pure, throw, throwThe, MonadExceptOf.throw]
     rw [if_pos hne],
   fun fuel ln rest bs h => by
     simp [molpro_shell_loop, h]⟩

/-- Witness for C7: the propagation statements applied at concrete
blocks and lines. -/
theorem C7_malformed_rejection_witness :
    crystal_shell_block "8" [] [["0", "0", "1", "0", "1.0"], ["1.5", "0.1", "0.9"]] =
      .error (.formatError "parse_primitive_matrix: malformed row") ∧
    crystal_shell_block "8" [] [["2", "0", "1", "0", "1.0"], ["1.5", "0.1"]] =
      .error .assertionError ∧
    molpro_process_contraction 2 ["c", "1.2", "0.5"] = .error .assertionError ∧
    molpro_shell_loop (3 + 1) [["junk"]] [] = .ok [] := by
  refine ⟨?_, ?_, ?_, ?_⟩
  · exact C7_malformed_rejection.1 "8" [] ["0", "0", "1", "0", "1.0"]
      [["1.5", "0.1", "0.9"]] 0 1 "0" "1.0" ⟨10, -1⟩
      "parse_primitive_matrix: malformed row" (by decide) (by decide) (by decide)
  · exact C7_malformed_rejection.2.1 "8" [] ["2", "0", "1", "0", "1.0"]
      [["1.5", "0.1"]] 2 0 1 "0" "1.0" (by decide) (by decide)
  · exact C7_malformed_rejection.2.2.2.2.1 2 ["c", "1.2", "0.5"] 1 2 ["0.5"]
      (by decide) (by decide)
  · exact C7_malformed_rejection.2.2.2.2.2 3 ["junk"] [] [] (by decide)

/-! ### CRYSTAL reader: ECP block characterization -/

theorem mapM_congr {α β : Type} (f g : α → Except PyErr β) (l : List α)
    (h : ∀ x ∈ l, f x = g x) : l.mapM f = l.mapM g := by
  induction l with
  | nil => rfl
  | cons a t ih =>
    rw [List.mapM_cons, List.mapM_cons, h a (by simp),
      ih (fun x hx => h x (by simp [hx]))]

/-- The bucket loop of `_parse_ecp_block` realizes the claim's slicing:
one potential per nonzero count, in order, at the running offsets. -/
theorem ecp_fold_buckets (zkey : String) (records : List (String × String × ℕ)) :
    ∀ (counts : List ℕ) (idx offset : ℕ) (bs0 : BsData),
      ((List.enumFrom idx counts).foldl (crystal_ecp_step zkey records)
          (offset, bs0)).2 =
        (ecpBucketsSpecAux records idx offset counts).foldl
          (fun b pot => appendPot b zkey pot) bs0 := by
  intro counts
  induction counts with
  | nil => intro idx offset bs0; rfl
  | cons m rest ih =>
    intro idx offset bs0
    show ((List.enumFrom (idx + 1) rest).foldl (crystal_ecp_step zkey records)
      (crystal_ecp_step zkey records (offset, bs0) (idx, m))).2 = _
    by_cases hm : m = 0
    · subst hm
      simp only [crystal_ecp_step, lt_irrefl, if_false, ecpBucketsSpecAux, if_true]
      exact ih (idx + 1) offset bs0
    · have hm' : 0 < m := Nat.pos_of_ne_zero hm
      simp only [crystal_ecp_step, hm', if_true, ecpBucketsSpecAux, hm, if_false,
        List.foldl_cons]
      exact ih (idx + 1) (offset + m) _

/-- C4: on a CRYSTAL ECP block whose header (the block's second line)
declares the effective charge and counts `M, M0..M4`, the reader
consumes exactly `M+M0+M1+M2+M3+M4` data rows, slices them in that
order into per-angular-momentum potentials (the first bucket unbound,
bucket `i > 0` carrying angular momentum `i - 1`, empty buckets
omitted), and sets `ecp_electrons = Z - Znuc`. -/
theorem C4_ecp_block_slicing (basis_lines ecp_lines : List Line) (bs : BsData)
    (t : String) (rest0 : List String) (blrest : List Line) (nat : ℤ)
    (hline : Line) (ztok : String) (M M0 M1 M2 M3 M4 : ℕ) (Znuc : ℤ)
    (records : List (String × String × ℕ))
    (hbl : basis_lines = (t :: rest0) :: blrest)
    (hnat : pyInt? t = some nat)
    (hz1 : 1 ≤ (nat % 100).toNat) (hz2 : (nat % 100).toNat ≤ 118)
    (hhl : ecp_lines.get? 1 = some hline)
    (hhdr : parse_ecp_header hline = .ok (ztok, M, M0, M1, M2, M3, M4))
    (hznuc : int_of_group ztok = .ok Znuc)
    (hrecs : (List.range (M + M0 + M1 + M2 + M3 + M4)).mapM (fun i =>
      match ecp_lines.get? (2 + i) with
      | none => (.error .indexError : Except PyErr (String × String × ℕ))
      | some l => parse_ecp_entry l) = .ok records) :
    (crystal_parse_ecp_block basis_lines ecp_lines bs =
      .ok ((ecpBucketsSpec [M, M0, M1, M2, M3, M4] records).foldl
        (fun b pot => appendPot b (natTok (nat % 100).toNat) pot)
        (setEcpElectrons
          (create_element_data bs (natTok (nat % 100).toNat) .pots)
          (natTok (nat % 100).toNat) (((nat % 100).toNat : ℤ) - Znuc)))) ∧
    (∀ ecp_lines' : List Line,
      ecp_lines'.take (2 + (M + M0 + M1 + M2 + M3 + M4)) =
        ecp_lines.take (2 + (M + M0 + M1 + M2 + M3 + M4)) →
      crystal_parse_ecp_block basis_lines ecp_lines' bs =
        crystal_parse_ecp_block basis_lines ecp_lines bs) := by
  have hget : ∀ (el' : List Line),
      el'.take (2 + (M + M0 + M1 + M2 + M3 + M4)) =
        ecp_lines.take (2 + (M + M0 + M1 + M2 + M3 + M4)) →
      ∀ i < 2 + (M + M0 + M1 + M2 + M3 + M4), el'.get? i = ecp_lines.get? i := by
    intro el' htk i hi
    have h1 : el'.get? i = (el'.take (2 + (M + M0 + M1 + M2 + M3 + M4))).get? i := by
      rw [List.get?_eq_getElem?, List.get?_eq_getElem?, List.getElem?_take_of_lt hi]
    rw [h1, htk, List.get?_eq_getElem?, List.get?_eq_getElem?,
      List.getElem?_take_of_lt hi]
  have main : ∀ (el' : List Line),
      el'.get? 1 = some hline →
      (List.range (M + M0 + M1 + M2 + M3 + M4)).mapM (fun i =>
        match el'.get? (2 + i) with
        | none => (.error .indexError : Except PyErr (String × String × ℕ))
        | some l => parse_ecp_entry l) = .ok records →
      crystal_parse_ecp_block basis_lines el' bs =
        .ok ((ecpBucketsSpec [M, M0, M1, M2, M3, M4] records).foldl
          (fun b pot => appendPot b (natTok (nat % 100).toNat) pot)
          (setEcpElectrons
            (create_element_data bs (natTok (nat % 100).toNat) .pots)
            (natTok (nat % 100).toNat) (((nat % 100).toNat : ℤ) - Znuc))) := by
    intro el' hhl' hrecs'
    have hrecs'' : List.mapM.loop (fun i =>
        match el'.get? (2 + i) with
        | none => (.error .indexError : Except PyErr (String × String × ℕ))
        | some l => parse_ecp_entry l) (List.range (M + M0 + M1 + M2 + M3 + M4)) [] =
        .ok records := hrecs'
    have hname : element_name_from_Z (nat % 100).toNat =
        .ok ("element-" ++ natTok (nat % 100).toNat) := by
      simp [element_name_from_Z, hz1, hz2]
    have hfold := ecp_fold_buckets (natTok (nat % 100).toNat) records
      [M, M0, M1, M2, M3, M4] 0 0
      (setEcpElectrons (create_element_data bs (natTok (nat % 100).toNat) .pots)
        (natTok (nat % 100).toNat) (((nat % 100).toNat : ℤ) - Znuc))
    simp only [crystal_parse_ecp_block, _get_element_ecp, hbl, hnat, hname, hhl',
      hhdr, hznuc, hrecs', hrecs'', ecpBucketsSpec, bind, Except.bind, pure,
      Except.pure, throw, throwThe, MonadExceptOf.throw] at hfold ⊢
    rw [← hfold]
    rfl
  refine ⟨main ecp_lines hhl hrecs, ?_⟩
  intro el' htk
  have hlen : ∀ i < M + M0 + M1 + M2 + M3 + M4,
      el'.get? (2 + i) = ecp_lines.get? (2 + i) := by
    intro i hi
    exact hget el' htk (2 + i) (by omega)
  have hhl2 : el'.get? 1 = some hline := by
    rw [hget el' htk 1 (by omega)]
    exact hhl
  have hrecs2 : (List.range (M + M0 + M1 + M2 + M3 + M4)).mapM (fun i =>
      match el'.get? (2 + i) with
      | none => (.error .indexError : Except PyErr (String × String × ℕ))
      | some l => parse_ecp_entry l) = .ok records := by
    rw [mapM_congr _ (fun i =>
      match ecp_lines.get? (2 + i) with
      | none => (.error .indexError : Except PyErr (String × String × ℕ))
      | some l => parse_ecp_entry l) _ ?_]
    · exact hrecs
    · intro i hi
      rw [hlen i (List.mem_range.mp hi)]
  rw [main el' hhl2 hrecs2, main ecp_lines hhl hrecs]

/-- Witness for C4: a sulfur block (`NAT = 216`) with `Znuc = 10`,
`M = 1`, `M0 = 2` slices one unbound potential and one `l = 0`
potential and sets `ecp_electrons = 16 - 10 = 6`; an extra trailing
line beyond the declared rows changes nothing. -/
theorem C4_ecp_block_slicing_witness :
    crystal_parse_ecp_block [["216", "2"]]
      [["f"], ["10", "1", "2", "0", "0", "0", "0"],
       ["1.1", "0.5", "2"], ["2.2", "0.6", "0"], ["3.3", "0.7", "1"]] [] =
      .ok [("16",
        ⟨none,
         some [⟨none, "scalar_ecp", [2], ["1.1"], ["0.5"]⟩,
               ⟨some 0, "scalar_ecp", [0, 1], ["2.2", "3.3"], ["0.6", "0.7"]⟩],
         some 6⟩)] ∧
    crystal_parse_ecp_block [["216", "2"]]
      [["f"], ["10", "1", "2", "0", "0", "0", "0"],
       ["1.1", "0.5", "2"], ["2.2", "0.6", "0"], ["3.3", "0.7", "1"], ["junk"]] [] =
      crystal_parse_ecp_block [["216", "2"]]
        [["f"], ["10", "1", "2", "0", "0", "0", "0"],
         ["1.1", "0.5", "2"], ["2.2", "0.6", "0"], ["3.3", "0.7", "1"]] [] := by
  have h := C4_ecp_block_slicing [["216", "2"]]
    [["f"], ["10", "1", "2", "0", "0", "0", "0"],
     ["1.1", "0.5", "2"], ["2.2", "0.6", "0"], ["3.3", "0.7", "1"]] []
    "216" ["2"] [] 216 ["10", "1", "2", "0", "0", "0", "0"] "10" 1 2 0 0 0 0 10
    [("1.1", "0.5", 2), ("2.2", "0.6", 0), ("3.3", "0.7", 1)]
    (by decide) (by decide) (by decide) (by decide) (by decide) rfl
    (by decide) (by decide)
  refine ⟨?_, h.2 _ (by decide)⟩
  rw [h.1]
  decide

/-! ### The `{:.16E}` formatter: structure and value preservation -/

theorem digLen_zero (fuel : ℕ) : digLen fuel 0 = 0 := by
  cases fuel <;> rfl

theorem digLen_bounds : ∀ fuel n, 0 < n → n ≤ fuel →
    10 ^ (digLen fuel n - 1) ≤ n ∧ n < 10 ^ digLen fuel n := by
  intro fuel
  induction fuel with
  | zero => intro n h1 h2; omega
  | succ f ih =>
    intro n h1 h2
    have hne : ¬ n = 0 := by omega
    simp only [digLen, hne, if_false]
    by_cases hsmall : n < 10
    · have hq : n / 10 = 0 := Nat.div_eq_of_lt hsmall
      rw [hq, digLen_zero]
      simp only [Nat.add_sub_cancel, pow_one, pow_zero]
      omega
    · have hqpos : 0 < n / 10 := Nat.div_pos (by omega) (by norm_num)
      have hqle : n / 10 ≤ f := by
        have : n / 10 < n := Nat.div_lt_self h1 (by norm_num)
        omega
      obtain ⟨hlo, hhi⟩ := ih (n / 10) hqpos hqle
      have hd1 : 1 ≤ digLen f (n / 10) := by
        cases f with
        | zero => omega
        | succ f' =>
          simp only [digLen, Nat.pos_iff_ne_zero.mp hqpos, if_false]
          omega
      constructor
      · have : 10 ^ (digLen f (n / 10) - 1) * 10 ≤ (n / 10) * 10 :=
          Nat.mul_le_mul_right 10 hlo
        calc 10 ^ (digLen f (n / 10) + 1 - 1) = 10 ^ (digLen f (n / 10) - 1) * 10 := by
              rw [← pow_succ]
              congr 1
              omega
          _ ≤ (n / 10) * 10 := this
          _ ≤ n := by
              have := Nat.div_mul_le_self n 10
              omega
      · have hstep : n < (n / 10 + 1) * 10 := by
          have h2 := Nat.div_add_mod n 10
          have h3 : n % 10 < 10 := Nat.mod_lt _ (by norm_num)
          omega
        calc n < (n / 10 + 1) * 10 := hstep
          _ ≤ 10 ^ (digLen f (n / 10)) * 10 := by
              have : n / 10 + 1 ≤ 10 ^ (digLen f (n / 10)) := hhi
              exact Nat.mul_le_mul_right 10 this
          _ = 10 ^ (digLen f (n / 10) + 1) := (pow_succ 10 _).symm

theorem digLen_eq_of_bounds (n k : ℕ) (h1 : 0 < n) (hlo : 10 ^ (k - 1) ≤ n)
    (hhi : n < 10 ^ k) (hk : 1 ≤ k) : digLen n n = k := by
  obtain ⟨hlo', hhi'⟩ := digLen_bounds n n h1 le_rfl
  by_contra hne
  rcases Nat.lt_or_ge (digLen n n) k with hlt | hge
  · have : 10 ^ (k - 1) < 10 ^ (k - 1) := by
      calc 10 ^ (k - 1) ≤ n := hlo
        _ < 10 ^ digLen n n := hhi'
        _ ≤ 10 ^ (k - 1) := Nat.pow_le_pow_right (by norm_num) (by omega)
    omega
  · have hgt : k < digLen n n := by omega
    have : 10 ^ k < 10 ^ k := by
      calc 10 ^ k ≤ 10 ^ (digLen n n - 1) := Nat.pow_le_pow_right (by norm_num) (by omega)
        _ ≤ n := hlo'
        _ < 10 ^ k := hhi
    omega

theorem natTokAux_length_eq : ∀ fuel n, (natTokAux fuel n).length = digLen fuel n := by
  intro fuel
  induction fuel with
  | zero => intro n; rfl
  | succ f ih =>
    intro n
    simp only [natTokAux, digLen]
    split
    · rfl
    · simp [ih (n / 10)]

theorem digitsToNat_foldl_init (l : List Char) :
    ∀ a, l.foldl (fun a c => 10 * a + (c.toNat - 48)) a =
      a * 10 ^ l.length + digitsToNat l := by
  induction l with
  | nil => intro a; simp [digitsToNat]
  | cons c t ih =>
    intro a
    simp only [List.foldl_cons, digitsToNat, List.length_cons]
    rw [ih (10 * a + (c.toNat - 48)), ih (10 * 0 + (c.toNat - 48))]
    ring

theorem digitsToNat_cons (c : Char) (l : List Char) :
    digitsToNat (c :: l) = (c.toNat - 48) * 10 ^ l.length + digitsToNat l := by
  show (c :: l).foldl _ 0 = _
  simp only [List.foldl_cons]
  rw [digitsToNat_foldl_init l (10 * 0 + (c.toNat - 48))]
  ring

theorem digitsToNat_append (l1 l2 : List Char) :
    digitsToNat (l1 ++ l2) = digitsToNat l1 * 10 ^ l2.length + digitsToNat l2 := by
  show (l1 ++ l2).foldl _ 0 = _
  rw [List.foldl_append, digitsToNat_foldl_init l2 (l1.foldl _ 0)]
  rfl

theorem digitsToNat_replicate_zero (k : ℕ) :
    digitsToNat (List.replicate k '0') = 0 := by
  induction k with
  | zero => rfl
  | succ m ih =>
    rw [List.replicate_succ]
    rw [digitsToNat_cons, ih]
    simp

theorem digitsToNat_leading_zeros (k : ℕ) (l : List Char) :
    digitsToNat (List.replicate k '0' ++ l) = digitsToNat l := by
  rw [digitsToNat_append, digitsToNat_replicate_zero]
  simp

theorem isDigit_ne_special (c : Char) (h : c.isDigit = true) :
    c ≠ 'E' ∧ c ≠ 'e' ∧ c ≠ '+' ∧ c ≠ '-' ∧ c ≠ '.' := by
  refine ⟨?_, ?_, ?_, ?_, ?_⟩ <;> rintro rfl <;> exact absurd h (by decide)

theorem takeWhile_all_eq_self {α : Type} (q : α → Bool) (l : List α)
    (h : ∀ x ∈ l, q x = true) : l.takeWhile q = l := by
  have := takeWhile_append_all q l [] h
  simpa using this

theorem dropWhile_all_eq_nil {α : Type} (q : α → Bool) (l : List α)
    (h : ∀ x ∈ l, q x = true) : l.dropWhile q = [] := by
  have := dropWhile_append_all q l [] h
  simpa using this

theorem dropWhile_append_stop {α : Type} (q : α → Bool) (l1 : List α) (x : α)
    (l2 : List α) (hx : q x = false) :
    (l1 ++ x :: l2).dropWhile q = l1.dropWhile q ++ x :: l2 := by
  induction l1 with
  | nil => simp [List.dropWhile_cons, hx]
  | cons a t ih =>
    by_cases hq : q a
    · simp only [List.cons_append, List.dropWhile_cons, hq, if_true]
      exact ih
    · simp [List.dropWhile_cons, hq]

theorem takeWhile_append_stop {α : Type} (q : α → Bool) (l1 : List α) (x : α)
    (l2 : List α) (h : ∀ c ∈ l1, q c = true) (hx : q x = false) :
    (l1 ++ x :: l2).takeWhile q = l1 := by
  rw [takeWhile_append_all q l1 _ h]
  simp [List.takeWhile_cons, hx]

theorem dropWhile_append_skip {α : Type} (q : α → Bool) (l1 : List α) (x : α)
    (l2 : List α) (h : ∀ c ∈ l1, q c = true) (hx : q x = false) :
    (l1 ++ x :: l2).dropWhile q = x :: l2 := by
  rw [dropWhile_append_all q l1 _ h]
  simp [List.dropWhile_cons, hx]

theorem parseSign_minus (r : List Char) : parseSign ('-' :: r) = (-1, r) := rfl

theorem parseSign_plus (r : List Char) : parseSign ('+' :: r) = (1, r) := rfl

theorem padDigits_all_digit (n w : ℕ) :
    ∀ c ∈ padDigits n w, c.isDigit = true := by
  intro c hc
  simp only [padDigits, List.mem_append, List.mem_replicate] at hc
  rcases hc with ⟨_, rfl⟩ | hc
  · decide
  · have h := natTokAux_all_digit n n
    rw [List.all_eq_true] at h
    exact h c hc

theorem padDigits_ne_nil (n w : ℕ) (hw : 0 < w) : padDigits n w ≠ [] := by
  intro hcon
  have h := congrArg List.length hcon
  simp only [padDigits, List.length_append, List.length_replicate,
    List.length_nil] at h
  omega

theorem digitsToNat_padDigits (n w : ℕ) : digitsToNat (padDigits n w) = n := by
  simp only [padDigits]
  rw [digitsToNat_leading_zeros]
  exact natTokAux_val n n le_rfl

theorem parseExpTail_expField (E : ℤ) : parseExpTail (expField E) = some E := by
  have htake : (padDigits E.natAbs 2).takeWhile Char.isDigit = padDigits E.natAbs 2 :=
    takeWhile_all_eq_self _ _ (padDigits_all_digit _ _)
  have hdrop : (padDigits E.natAbs 2).dropWhile Char.isDigit = [] :=
    dropWhile_all_eq_nil _ _ (padDigits_all_digit _ _)
  have hne := padDigits_ne_nil E.natAbs 2 (by norm_num)
  rcases lt_or_ge E 0 with hE | hE
  · have h1 : expField E = '-' :: padDigits E.natAbs 2 := by
      rw [expField, if_pos hE]
    rw [h1]
    simp only [parseExpTail, parseSign_minus, htake, hdrop]
    rw [if_pos ⟨hne, trivial⟩, digitsToNat_padDigits]
    have : (-1 : ℤ) * (E.natAbs : ℤ) = E := by omega
    rw [this]
  · have h1 : expField E = '+' :: padDigits E.natAbs 2 := by
      rw [expField, if_neg (by omega)]
    rw [h1]
    simp only [parseExpTail, parseSign_plus, htake, hdrop]
    rw [if_pos ⟨hne, trivial⟩, digitsToNat_padDigits]
    have : (1 : ℤ) * (E.natAbs : ℤ) = E := by omega
    rw [this]

theorem digLen_pos (M : ℕ) (h1 : 1 ≤ M) : 1 ≤ digLen M M := by
  obtain ⟨_, hhi⟩ := digLen_bounds M M h1 le_rfl
  rcases Nat.eq_zero_or_pos (digLen M M) with h | h
  · rw [h, pow_zero] at hhi; omega
  · exact h

theorem sci16_bounds (M : ℕ) (h1 : 1 ≤ M) (hL : digLen M M ≤ 17) :
    10 ^ 16 ≤ M * 10 ^ (17 - digLen M M) ∧
      M * 10 ^ (17 - digLen M M) < 10 ^ 17 := by
  obtain ⟨hlo, hhi⟩ := digLen_bounds M M h1 le_rfl
  have hL1 := digLen_pos M h1
  constructor
  · calc 10 ^ 16 = 10 ^ (digLen M M - 1) * 10 ^ (17 - digLen M M) := by
          rw [← pow_add]; congr 1; omega
      _ ≤ M * 10 ^ (17 - digLen M M) :=
          Nat.mul_le_mul_right _ hlo
  · calc M * 10 ^ (17 - digLen M M)
        < 10 ^ digLen M M * 10 ^ (17 - digLen M M) :=
          (Nat.mul_lt_mul_right (Nat.pos_pow_of_pos _ (by norm_num))).mpr hhi
      _ = 10 ^ 17 := by rw [← pow_add]; congr 1; omega

theorem sci16_eq (M : ℕ) (e : ℤ) (h1 : 1 ≤ M) (hL : digLen M M ≤ 17) :
    sci16 M e = (M * 10 ^ (17 - digLen M M), (digLen M M : ℤ) - 1 + e) := by
  obtain ⟨_, hhi⟩ := sci16_bounds M h1 hL
  have ht : (0 : ℤ) ≤ 17 - (digLen M M : ℤ) := by
    push_cast; omega
  have htn : ((17 : ℤ) - (digLen M M : ℤ)).toNat = 17 - digLen M M := by omega
  simp only [sci16, if_pos ht, htn]
  rw [if_pos hhi]

theorem dataMk (l : List Char) : (String.mk l).data = l := rfl

theorem getLast?_cons_of_ne_nil {α : Type} (a : α) (l : List α) (h : l ≠ []) :
    (a :: l).getLast? = l.getLast? := by
  cases l with
  | nil => exact absurd rfl h
  | cons b t => exact List.getLast?_cons_cons

theorem trimZeros_core (d0 : Char) (rest16 : List Char) (E : ℤ)
    (hd0 : d0.isDigit = true) (hr : ∀ c ∈ rest16, c.isDigit = true)
    (hlen : 0 < rest16.length) :
    ∃ core : List Char,
      core ≠ [] ∧ (∀ c ∈ core, c.isDigit = true) ∧
      core.length ≤ rest16.length ∧
      (trimZeros ⟨d0 :: '.' :: (rest16 ++ 'E' :: expField E)⟩).data
        = d0 :: '.' :: (core ++ 'E' :: expField E) ∧
      digitsToNat core * 10 ^ (rest16.length - core.length) = digitsToNat rest16 := by
  have hne : ∀ c : Char, c.isDigit = true → (fun c => decide (c ≠ 'E')) c = true := by
    intro c hcd
    obtain ⟨hE, _⟩ := isDigit_ne_special c hcd
    simp [hE]
  have hmemE : ∀ c ∈ d0 :: '.' :: rest16, (fun c => decide (c ≠ 'E')) c = true := by
    intro c hc
    simp only [List.mem_cons] at hc
    rcases hc with rfl | rfl | hc
    · exact hne _ hd0
    · decide
    · exact hne _ (hr c hc)
  have hmant : (d0 :: '.' :: (rest16 ++ 'E' :: expField E)).takeWhile
      (fun c => decide (c ≠ 'E')) = d0 :: '.' :: rest16 := by
    have h := takeWhile_append_stop (fun c => decide (c ≠ 'E'))
      (d0 :: '.' :: rest16) 'E' (expField E) hmemE (by decide)
    simpa using h
  have hdropE : ((d0 :: '.' :: (rest16 ++ 'E' :: expField E)).dropWhile
      (fun c => decide (c ≠ 'E'))).drop 1 = expField E := by
    have h := dropWhile_append_skip (fun c => decide (c ≠ 'E'))
      (d0 :: '.' :: rest16) 'E' (expField E) hmemE (by decide)
    simp only [List.cons_append] at h
    rw [h]
    rfl
  have hsplit : rest16.reverse.takeWhile (fun c => decide (c = '0')) ++
      rest16.reverse.dropWhile (fun c => decide (c = '0')) = rest16.reverse :=
    List.takeWhile_append_dropWhile _ _
  have htk0 : ∀ c ∈ rest16.reverse.takeWhile (fun c => decide (c = '0')), c = '0' := by
    intro c hc
    have h := List.mem_takeWhile_imp hc
    simpa using h
  have htkrep : rest16.reverse.takeWhile (fun c => decide (c = '0')) =
      List.replicate (rest16.reverse.takeWhile (fun c => decide (c = '0'))).length '0' :=
    List.eq_replicate_of_mem htk0
  have hrest : rest16 = (rest16.reverse.dropWhile (fun c => decide (c = '0'))).reverse ++
      List.replicate (rest16.reverse.takeWhile (fun c => decide (c = '0'))).length '0' := by
    have h := congrArg List.reverse hsplit
    simp only [List.reverse_append, List.reverse_reverse] at h
    have htkr : (rest16.reverse.takeWhile (fun c => decide (c = '0'))).reverse
        = List.replicate
            (rest16.reverse.takeWhile (fun c => decide (c = '0'))).length '0' := by
      conv_lhs => rw [htkrep]
      rw [List.reverse_replicate]
    conv_lhs => rw [← h]
    rw [htkr]
  have hdrmem : ∀ c ∈ rest16.reverse.dropWhile (fun c => decide (c = '0')),
      c.isDigit = true := by
    intro c hc
    have h1 : c ∈ rest16.reverse := (List.dropWhile_sublist _).subset hc
    exact hr c (List.mem_reverse.mp h1)
  have hmantrev : (d0 :: '.' :: rest16).reverse = rest16.reverse ++ '.' :: [d0] := by
    simp [List.reverse_cons, List.append_assoc]
  have hstrip : (d0 :: '.' :: rest16).reverse.dropWhile (fun c => decide (c = '0'))
      = rest16.reverse.dropWhile (fun c => decide (c = '0')) ++ '.' :: [d0] := by
    rw [hmantrev]
    exact dropWhile_append_stop (fun c => decide (c = '0'))
      rest16.reverse '.' [d0] (by decide)
  have hm : ((d0 :: '.' :: rest16).reverse.dropWhile (fun c => decide (c = '0'))).reverse
      = d0 :: '.' :: (rest16.reverse.dropWhile (fun c => decide (c = '0'))).reverse := by
    rw [hstrip]
    simp [List.reverse_append]
  rcases hdrcase : rest16.reverse.dropWhile (fun c => decide (c = '0')) with _ | ⟨a, t⟩
  · -- all digits of rest16 are zeros: the strip reaches the point, one zero is restored
    refine ⟨['0'], by simp, by intro c hc; simp at hc; subst hc; decide, by simpa using hlen, ?_, ?_⟩
    · show (trimZeros ⟨d0 :: '.' :: (rest16 ++ 'E' :: expField E)⟩).data = _
      simp only [trimZeros, dataMk, hmant, hdropE, hm, hdrcase]
      simp
    · have h0 : digitsToNat rest16 = 0 := by
        rw [hrest, hdrcase]
        simp [digitsToNat_replicate_zero, digitsToNat_append]
      rw [h0]
      have h1 : digitsToNat ['0'] = 0 := by decide
      rw [h1, Nat.zero_mul]
  · -- a nonzero digit survives: the stripped mantissa core is returned unchanged
    have hdrne : (rest16.reverse.dropWhile (fun c => decide (c = '0'))).reverse ≠ [] := by
      rw [hdrcase]; simp
    rcases List.eq_nil_or_concat
        ((rest16.reverse.dropWhile (fun c => decide (c = '0'))).reverse) with hnil | ⟨Lp, cl, hcat⟩
    · exact absurd hnil hdrne
    have hclmem : cl ∈ (rest16.reverse.dropWhile (fun c => decide (c = '0'))).reverse := by
      rw [hcat, List.concat_eq_append]; simp
    have hcldig : cl.isDigit = true := hdrmem cl (List.mem_reverse.mp hclmem)
    have hlast : ((rest16.reverse.dropWhile (fun c => decide (c = '0'))).reverse).getLast?
        = some cl := by
      rw [hcat, List.concat_eq_append]
      exact List.getLast?_concat _
    have hlastne : ¬ (d0 :: '.' ::
        (rest16.reverse.dropWhile (fun c => decide (c = '0'))).reverse).getLast?
          = some '.' := by
      rw [getLast?_cons_of_ne_nil _ _ (by simp : ('.' ::
        (rest16.reverse.dropWhile (fun c => decide (c = '0'))).reverse) ≠ []),
        getLast?_cons_of_ne_nil _ _ hdrne, hlast]
      intro hcon
      obtain ⟨_, _, _, _, hdot⟩ := isDigit_ne_special cl hcldig
      exact hdot (Option.some.inj hcon)
    refine ⟨(rest16.reverse.dropWhile (fun c => decide (c = '0'))).reverse,
      hdrne, fun c hc => hdrmem c (List.mem_reverse.mp hc), ?_, ?_, ?_⟩
    · conv_rhs => rw [hrest]
      simp
    · show (trimZeros ⟨d0 :: '.' :: (rest16 ++ 'E' :: expField E)⟩).data = _
      simp only [trimZeros, dataMk, hmant, hdropE, hm, if_neg hlastne]
      simp
    · conv_rhs => rw [hrest]
      rw [digitsToNat_append, digitsToNat_replicate_zero]
      have hlen2 : rest16.length =
          (rest16.reverse.dropWhile (fun c => decide (c = '0'))).reverse.length +
          (rest16.reverse.takeWhile (fun c => decide (c = '0'))).length := by
        conv_lhs => rw [hrest]
        simp
      rw [hlen2]
      simp [List.length_replicate]

theorem fmt16EPos_data (M : ℕ) (e : ℤ) (h1 : 1 ≤ M) (hL : digLen M M ≤ 17) :
    ∃ d0 : Char, ∃ rest16 : List Char,
      d0.isDigit = true ∧ (∀ c ∈ rest16, c.isDigit = true) ∧ rest16.length = 16 ∧
      digitsToNat (d0 :: rest16) = M * 10 ^ (17 - digLen M M) ∧
      fmt16EPos M e = ⟨d0 :: '.' :: (rest16 ++ 'E' ::
        expField ((digLen M M : ℤ) - 1 + e))⟩ := by
  obtain ⟨hrlo, hrhi⟩ := sci16_bounds M h1 hL
  have hr1 : 0 < M * 10 ^ (17 - digLen M M) :=
    lt_of_lt_of_le (by norm_num) hrlo
  have hdl : digLen (M * 10 ^ (17 - digLen M M)) (M * 10 ^ (17 - digLen M M)) = 17 := by
    apply digLen_eq_of_bounds _ 17 hr1 _ hrhi (by norm_num)
    show 10 ^ 16 ≤ _
    exact hrlo
  have hlen : (natTokAux (M * 10 ^ (17 - digLen M M)) (M * 10 ^ (17 - digLen M M))).length
      = 17 := by
    rw [natTokAux_length_eq]
    exact hdl
  have hpd : padDigits (M * 10 ^ (17 - digLen M M)) 17
      = natTokAux (M * 10 ^ (17 - digLen M M)) (M * 10 ^ (17 - digLen M M)) := by
    simp [padDigits, hlen]
  have hvalr : digitsToNat (natTokAux (M * 10 ^ (17 - digLen M M))
      (M * 10 ^ (17 - digLen M M))) = M * 10 ^ (17 - digLen M M) :=
    natTokAux_val _ _ le_rfl
  have hdigr : ∀ c ∈ natTokAux (M * 10 ^ (17 - digLen M M))
      (M * 10 ^ (17 - digLen M M)), c.isDigit = true := by
    have h := natTokAux_all_digit (M * 10 ^ (17 - digLen M M)) (M * 10 ^ (17 - digLen M M))
    rw [List.all_eq_true] at h
    exact h
  rcases hds : natTokAux (M * 10 ^ (17 - digLen M M)) (M * 10 ^ (17 - digLen M M))
      with _ | ⟨d0, rest16⟩
  · rw [hds] at hlen
    simp at hlen
  refine ⟨d0, rest16, ?_, ?_, ?_, ?_, ?_⟩
  · exact hdigr d0 (by rw [hds]; simp)
  · intro c hc
    exact hdigr c (by rw [hds]; simp [hc])
  · rw [hds] at hlen
    simpa using hlen
  · rw [← hds]
    exact hvalr
  · simp [fmt16EPos, sci16_eq M e h1 hL, hpd, hds]

theorem floatValList_fmt_core (d0 : Char) (core : List Char) (E : ℤ)
    (hd : d0.isDigit = true) (hcd : ∀ c ∈ core, c.isDigit = true) :
    floatValList (d0 :: '.' :: (core ++ 'E' :: expField E))
      = some ⟨((d0.toNat - 48 : ℕ) : ℤ) * 10 ^ core.length + (digitsToNat core : ℤ),
              -(core.length : ℤ) + E⟩ := by
  obtain ⟨_, _, hplus, hminus, _⟩ := isDigit_ne_special d0 hd
  have hps : parseSign (d0 :: '.' :: (core ++ 'E' :: expField E))
      = (1, d0 :: '.' :: (core ++ 'E' :: expField E)) := by
    simp [parseSign, hplus, hminus]
  have hdot : ('.' : Char).isDigit = false := by decide
  have htake : (d0 :: '.' :: (core ++ 'E' :: expField E)).takeWhile Char.isDigit
      = [d0] := by
    rw [List.takeWhile_cons, hd]
    simp [List.takeWhile_cons, hdot]
  have hdrop : (d0 :: '.' :: (core ++ 'E' :: expField E)).dropWhile Char.isDigit
      = '.' :: (core ++ 'E' :: expField E) := by
    rw [List.dropWhile_cons]
    simp [List.dropWhile_cons, hd, hdot]
  have htb : (core ++ 'E' :: expField E).takeWhile Char.isDigit = core :=
    takeWhile_append_stop _ _ _ _ hcd (by decide)
  have hdb : (core ++ 'E' :: expField E).dropWhile Char.isDigit = 'E' :: expField E :=
    dropWhile_append_skip _ _ _ _ hcd (by decide)
  simp [floatValList, hps, htake, hdrop, htb, hdb, parseExpTail_expField,
    mantissaDec, Dec.shift, isExpMark, digitsToNat]

theorem floatValList_fmt_core_neg (d0 : Char) (core : List Char) (E : ℤ)
    (hd : d0.isDigit = true) (hcd : ∀ c ∈ core, c.isDigit = true) :
    floatValList ('-' :: d0 :: '.' :: (core ++ 'E' :: expField E))
      = some ⟨-(((d0.toNat - 48 : ℕ) : ℤ) * 10 ^ core.length + (digitsToNat core : ℤ)),
              -(core.length : ℤ) + E⟩ := by
  have hdot : ('.' : Char).isDigit = false := by decide
  have htake : (d0 :: '.' :: (core ++ 'E' :: expField E)).takeWhile Char.isDigit
      = [d0] := by
    rw [List.takeWhile_cons, hd]
    simp [List.takeWhile_cons, hdot]
  have hdrop : (d0 :: '.' :: (core ++ 'E' :: expField E)).dropWhile Char.isDigit
      = '.' :: (core ++ 'E' :: expField E) := by
    rw [List.dropWhile_cons]
    simp [List.dropWhile_cons, hd, hdot]
  have htb : (core ++ 'E' :: expField E).takeWhile Char.isDigit = core :=
    takeWhile_append_stop _ _ _ _ hcd (by decide)
  have hdb : (core ++ 'E' :: expField E).dropWhile Char.isDigit = 'E' :: expField E :=
    dropWhile_append_skip _ _ _ _ hcd (by decide)
  simp [floatValList, parseSign_minus, htake, hdrop, htb, hdb, parseExpTail_expField,
    mantissaDec, Dec.shift, isExpMark, digitsToNat]

theorem trimZeros_core_neg (d0 : Char) (rest16 : List Char) (E : ℤ)
    (hd0 : d0.isDigit = true) (hr : ∀ c ∈ rest16, c.isDigit = true)
    (hlen : 0 < rest16.length) :
    ∃ core : List Char,
      core ≠ [] ∧ (∀ c ∈ core, c.isDigit = true) ∧
      core.length ≤ rest16.length ∧
      (trimZeros ⟨'-' :: d0 :: '.' :: (rest16 ++ 'E' :: expField E)⟩).data
        = '-' :: d0 :: '.' :: (core ++ 'E' :: expField E) ∧
      digitsToNat core * 10 ^ (rest16.length - core.length) = digitsToNat rest16 := by
  have hne : ∀ c : Char, c.isDigit = true → (fun c => decide (c ≠ 'E')) c = true := by
    intro c hcd
    obtain ⟨hE, _⟩ := isDigit_ne_special c hcd
    simp [hE]
  have hmemE : ∀ c ∈ '-' :: d0 :: '.' :: rest16,
      (fun c => decide (c ≠ 'E')) c = true := by
    intro c hc
    simp only [List.mem_cons] at hc
    rcases hc with rfl | rfl | rfl | hc
    · decide
    · exact hne _ hd0
    · decide
    · exact hne _ (hr c hc)
  have hmant : ('-' :: d0 :: '.' :: (rest16 ++ 'E' :: expField E)).takeWhile
      (fun c => decide (c ≠ 'E')) = '-' :: d0 :: '.' :: rest16 := by
    have h := takeWhile_append_stop (fun c => decide (c ≠ 'E'))
      ('-' :: d0 :: '.' :: rest16) 'E' (expField E) hmemE (by decide)
    simpa using h
  have hdropE : (('-' :: d0 :: '.' :: (rest16 ++ 'E' :: expField E)).dropWhile
      (fun c => decide (c ≠ 'E'))).drop 1 = expField E := by
    have h := dropWhile_append_skip (fun c => decide (c ≠ 'E'))
      ('-' :: d0 :: '.' :: rest16) 'E' (expField E) hmemE (by decide)
    simp only [List.cons_append] at h
    rw [h]
    rfl
  have hsplit : rest16.reverse.takeWhile (fun c => decide (c = '0')) ++
      rest16.reverse.dropWhile (fun c => decide (c = '0')) = rest16.reverse :=
    List.takeWhile_append_dropWhile _ _
  have htk0 : ∀ c ∈ rest16.reverse.takeWhile (fun c => decide (c = '0')), c = '0' := by
    intro c hc
    have h := List.mem_takeWhile_imp hc
    simpa using h
  have htkrep : rest16.reverse.takeWhile (fun c => decide (c = '0')) =
      List.replicate (rest16.reverse.takeWhile (fun c => decide (c = '0'))).length '0' :=
    List.eq_replicate_of_mem htk0
  have hrest : rest16 = (rest16.reverse.dropWhile (fun c => decide (c = '0'))).reverse ++
      List.replicate (rest16.reverse.takeWhile (fun c => decide (c = '0'))).length '0' := by
    have h := congrArg List.reverse hsplit
    simp only [List.reverse_append, List.reverse_reverse] at h
    have htkr : (rest16.reverse.takeWhile (fun c => decide (c = '0'))).reverse
        = List.replicate
            (rest16.reverse.takeWhile (fun c => decide (c = '0'))).length '0' := by
      conv_lhs => rw [htkrep]
      rw [List.reverse_replicate]
    conv_lhs => rw [← h]
    rw [htkr]
  have hdrmem : ∀ c ∈ rest16.reverse.dropWhile (fun c => decide (c = '0')),
      c.isDigit = true := by
    intro c hc
    have h1 : c ∈ rest16.reverse := (List.dropWhile_sublist _).subset hc
    exact hr c (List.mem_reverse.mp h1)
  have hmantrev : ('-' :: d0 :: '.' :: rest16).reverse
      = rest16.reverse ++ '.' :: [d0, '-'] := by
    simp [List.reverse_cons, List.append_assoc]
  have hstrip : ('-' :: d0 :: '.' :: rest16).reverse.dropWhile (fun c => decide (c = '0'))
      = rest16.reverse.dropWhile (fun c => decide (c = '0')) ++ '.' :: [d0, '-'] := by
    rw [hmantrev]
    exact dropWhile_append_stop (fun c => decide (c = '0'))
      rest16.reverse '.' [d0, '-'] (by decide)
  have hm : (('-' :: d0 :: '.' :: rest16).reverse.dropWhile
      (fun c => decide (c = '0'))).reverse
      = '-' :: d0 :: '.' :: (rest16.reverse.dropWhile (fun c => decide (c = '0'))).reverse := by
    rw [hstrip]
    simp [List.reverse_append]
  rcases hdrcase : rest16.reverse.dropWhile (fun c => decide (c = '0')) with _ | ⟨a, t⟩
  · refine ⟨['0'], by simp, by intro c hc; simp at hc; subst hc; decide,
      by simpa using hlen, ?_, ?_⟩
    · show (trimZeros ⟨'-' :: d0 :: '.' :: (rest16 ++ 'E' :: expField E)⟩).data = _
      simp only [trimZeros, dataMk, hmant, hdropE, hm, hdrcase]
      simp
    · have h0 : digitsToNat rest16 = 0 := by
        rw [hrest, hdrcase]
        simp [digitsToNat_replicate_zero, digitsToNat_append]
      rw [h0]
      have h1 : digitsToNat ['0'] = 0 := by decide
      rw [h1, Nat.zero_mul]
  · have hdrne : (rest16.reverse.dropWhile (fun c => decide (c = '0'))).reverse ≠ [] := by
      rw [hdrcase]; simp
    rcases List.eq_nil_or_concat
        ((rest16.reverse.dropWhile (fun c => decide (c = '0'))).reverse) with hnil | ⟨Lp, cl, hcat⟩
    · exact absurd hnil hdrne
    have hclmem : cl ∈ (rest16.reverse.dropWhile (fun c => decide (c = '0'))).reverse := by
      rw [hcat, List.concat_eq_append]; simp
    have hcldig : cl.isDigit = true := hdrmem cl (List.mem_reverse.mp hclmem)
    have hlast : ((rest16.reverse.dropWhile (fun c => decide (c = '0'))).reverse).getLast?
        = some cl := by
      rw [hcat, List.concat_eq_append]
      exact List.getLast?_concat _
    have hlastne : ¬ ('-' :: d0 :: '.' ::
        (rest16.reverse.dropWhile (fun c => decide (c = '0'))).reverse).getLast?
          = some '.' := by
      rw [getLast?_cons_of_ne_nil _ _ (by simp : (d0 :: '.' ::
        (rest16.reverse.dropWhile (fun c => decide (c = '0'))).reverse) ≠ []),
        getLast?_cons_of_ne_nil _ _ (by simp : ('.' ::
        (rest16.reverse.dropWhile (fun c => decide (c = '0'))).reverse) ≠ []),
        getLast?_cons_of_ne_nil _ _ hdrne, hlast]
      intro hcon
      obtain ⟨_, _, _, _, hdot⟩ := isDigit_ne_special cl hcldig
      exact hdot (Option.some.inj hcon)
    refine ⟨(rest16.reverse.dropWhile (fun c => decide (c = '0'))).reverse,
      hdrne, fun c hc => hdrmem c (List.mem_reverse.mp hc), ?_, ?_, ?_⟩
    · conv_rhs => rw [hrest]
      simp
    · show (trimZeros ⟨'-' :: d0 :: '.' :: (rest16 ++ 'E' :: expField E)⟩).data = _
      simp only [trimZeros, dataMk, hmant, hdropE, hm, if_neg hlastne]
      simp
    · conv_rhs => rw [hrest]
      rw [digitsToNat_append, digitsToNat_replicate_zero]
      have hlen2 : rest16.length =
          (rest16.reverse.dropWhile (fun c => decide (c = '0'))).reverse.length +
          (rest16.reverse.takeWhile (fun c => decide (c = '0'))).length := by
        conv_lhs => rw [hrest]
        simp
      rw [hlen2]
      simp [List.length_replicate]

theorem zpow_split10 (a : ℕ) (b c : ℤ) (h : (a : ℤ) + b = c) :
    (10 : ℚ) ^ c = (10 : ℚ) ^ a * (10 : ℚ) ^ b := by
  rw [← h, zpow_add₀ (by norm_num : (10 : ℚ) ≠ 0)]
  norm_num [zpow_natCast]

theorem fmt_core_value (M : ℕ) (e : ℤ) (d0 : Char) (rest16 core : List Char)
    (hlen16 : rest16.length = 16)
    (hval : digitsToNat (d0 :: rest16) = M * 10 ^ (17 - digLen M M))
    (hclen : core.length ≤ rest16.length)
    (hdig : digitsToNat core * 10 ^ (rest16.length - core.length) = digitsToNat rest16)
    (hL : digLen M M ≤ 17) :
    ((((d0.toNat - 48 : ℕ) : ℤ) * 10 ^ core.length + (digitsToNat core : ℤ) : ℤ) : ℚ)
      * (10 : ℚ) ^ (-(core.length : ℤ) + ((digLen M M : ℤ) - 1 + e))
      = (M : ℚ) * (10 : ℚ) ^ e := by
  rw [hlen16] at hclen hdig
  have hK : ((d0.toNat - 48) * 10 ^ core.length + digitsToNat core) * 10 ^ (16 - core.length)
      = M * 10 ^ (17 - digLen M M) := by
    have hp : (10 : ℕ) ^ core.length * 10 ^ (16 - core.length) = 10 ^ 16 := by
      rw [← pow_add]
      congr 1
      omega
    calc ((d0.toNat - 48) * 10 ^ core.length + digitsToNat core) * 10 ^ (16 - core.length)
        = (d0.toNat - 48) * (10 ^ core.length * 10 ^ (16 - core.length))
          + digitsToNat core * 10 ^ (16 - core.length) := by ring
      _ = (d0.toNat - 48) * 10 ^ 16 + digitsToNat rest16 := by rw [hp, hdig]
      _ = digitsToNat (d0 :: rest16) := by rw [digitsToNat_cons, hlen16]
      _ = M * 10 ^ (17 - digLen M M) := hval
  have hq : ((((d0.toNat - 48 : ℕ) : ℤ) * 10 ^ core.length + (digitsToNat core : ℤ) : ℤ) : ℚ)
      * (10 : ℚ) ^ ((16 - core.length : ℕ) : ℤ)
      = (M : ℚ) * (10 : ℚ) ^ ((17 - digLen M M : ℕ) : ℤ) := by
    have h := congrArg (fun n : ℕ => (n : ℚ)) hK
    push_cast at h ⊢
    convert h using 2 <;> rw [zpow_natCast]
  have hz1 : (10 : ℚ) ^ (-(core.length : ℤ) + ((digLen M M : ℤ) - 1 + e))
      = (10 : ℚ) ^ ((16 - core.length : ℕ)) * (10 : ℚ) ^ ((digLen M M : ℤ) + e - 17) := by
    apply zpow_split10
    omega
  have hz2 : (10 : ℚ) ^ e
      = (10 : ℚ) ^ ((17 - digLen M M : ℕ)) * (10 : ℚ) ^ ((digLen M M : ℤ) + e - 17) := by
    apply zpow_split10
    omega
  rw [hz1, hz2, ← mul_assoc, ← mul_assoc]
  congr 1
  have hq' := hq
  rw [zpow_natCast, zpow_natCast] at hq'
  exact hq'

theorem tokVal?_trimZeros_fmt16EPos (M : ℕ) (e : ℤ) (h1 : 1 ≤ M)
    (hL : digLen M M ≤ 17) :
    (∃ y : Dec, tokVal? (trimZeros (fmt16EPos M e)) = some y ∧
       y.toQ = (M : ℚ) * (10 : ℚ) ^ e) ∧
    (∃ y : Dec, tokVal? (trimZeros ⟨'-' :: (fmt16EPos M e).data⟩) = some y ∧
       y.toQ = -((M : ℚ) * (10 : ℚ) ^ e)) := by
  obtain ⟨d0, rest16, hd0, hr16, hlen16, hval, hfmt⟩ := fmt16EPos_data M e h1 hL
  have hlpos : 0 < rest16.length := by omega
  constructor
  · obtain ⟨core, hcne, hcd, hclen, hdata, hdig⟩ :=
      trimZeros_core d0 rest16 ((digLen M M : ℤ) - 1 + e) hd0 hr16 hlpos
    refine ⟨⟨((d0.toNat - 48 : ℕ) : ℤ) * 10 ^ core.length + (digitsToNat core : ℤ),
      -(core.length : ℤ) + ((digLen M M : ℤ) - 1 + e)⟩, ?_, ?_⟩
    · show floatValList (trimZeros (fmt16EPos M e)).data = _
      rw [hfmt, hdata]
      exact floatValList_fmt_core d0 core _ hd0 hcd
    · exact fmt_core_value M e d0 rest16 core hlen16 hval hclen hdig hL
  · obtain ⟨core, hcne, hcd, hclen, hdata, hdig⟩ :=
      trimZeros_core_neg d0 rest16 ((digLen M M : ℤ) - 1 + e) hd0 hr16 hlpos
    refine ⟨⟨-(((d0.toNat - 48 : ℕ) : ℤ) * 10 ^ core.length + (digitsToNat core : ℤ)),
      -(core.length : ℤ) + ((digLen M M : ℤ) - 1 + e)⟩, ?_, ?_⟩
    · show floatValList (trimZeros ⟨'-' :: (fmt16EPos M e).data⟩).data = _
      have hchars : ('-' :: (fmt16EPos M e).data)
          = '-' :: d0 :: '.' :: (rest16 ++ 'E' ::
              expField ((digLen M M : ℤ) - 1 + e)) := by
        rw [hfmt]
      rw [hchars, hdata]
      exact floatValList_fmt_core_neg d0 core _ hd0 hcd
    · show ((-(((d0.toNat - 48 : ℕ) : ℤ) * 10 ^ core.length
          + (digitsToNat core : ℤ)) : ℤ) : ℚ) * _ = _
      have h := fmt_core_value M e d0 rest16 core hlen16 hval hclen hdig hL
      push_cast at h ⊢
      linarith [h]

theorem tokVal?_trimZeros_fmt16E (x : Dec) (hrep : rep17 x = true) :
    ∃ y : Dec, tokVal? (trimZeros (fmt16E x)) = some y ∧ y.toQ = x.toQ := by
  have hL : digLen x.m.natAbs x.m.natAbs ≤ 17 := of_decide_eq_true hrep
  rcases lt_trichotomy x.m 0 with hneg | hzero | hpos
  · have h1 : 1 ≤ x.m.natAbs := by omega
    obtain ⟨_, y, hy, hyv⟩ := tokVal?_trimZeros_fmt16EPos x.m.natAbs x.e h1 hL
    refine ⟨y, ?_, ?_⟩
    · have hfm : fmt16E x = ⟨'-' :: (fmt16EPos x.m.natAbs x.e).data⟩ := by
        rw [fmt16E, if_neg (by omega), if_pos hneg]
        rfl
      rw [hfm]
      exact hy
    · rw [hyv, Dec.toQ]
      have hm : (x.m : ℚ) = -((x.m.natAbs : ℕ) : ℚ) := by
        exact_mod_cast congrArg (fun z : ℤ => (z : ℚ)) (by omega : x.m = -(x.m.natAbs : ℤ))
      rw [hm]
      ring
  · refine ⟨⟨0, -1⟩, ?_, ?_⟩
    · have hfm : fmt16E x = "0.0000000000000000E+00" := by
        rw [fmt16E, if_pos hzero]
      rw [hfm]
      decide
    · simp [Dec.toQ, hzero]
  · have h1 : 1 ≤ x.m.natAbs := by omega
    obtain ⟨⟨y, hy, hyv⟩, _⟩ := tokVal?_trimZeros_fmt16EPos x.m.natAbs x.e h1 hL
    refine ⟨y, ?_, ?_⟩
    · have hfm : fmt16E x = fmt16EPos x.m.natAbs x.e := by
        rw [fmt16E, if_neg (by omega), if_neg (by omega)]
      rw [hfm]
      exact hy
    · rw [hyv, Dec.toQ]
      have hm : (x.m : ℚ) = ((x.m.natAbs : ℕ) : ℚ) := by
        rw [Int.cast_natAbs, abs_of_pos hpos]
      rw [hm]

/-- C5: in the CRYSTAL reader, when a shell declares a scale factor `s`
with `s² ≠ 1`, every stored exponent token parses to the source exponent
value times `s²` (re-rendered by `{:.16E}` with the mantissa's trailing
zeros stripped, one digit kept after the decimal point); when `s² = 1`
the exponent tokens are stored unchanged. -/
theorem C5_crystal_scale_application
    (z : String) (bs : BsData) (hd : Line) (rows : List Line) (r ng : ℕ)
    (che sc : String) (sv : Dec) (exps : List String) (coefs : List (List String))
    (hhd : parse_shell_header hd = .ok (0, r, ng, che, sc))
    (hsv : tokVal? sc = some sv)
    (hmat : parse_primitive_matrix (rows.take ng) ng
      (if r = 0 then [0] else if r = 1 then [0, 1] else [r - 1]).length =
        .ok (exps, coefs)) :
    ((sv.mul sv).beq Dec.one = false →
      (∀ ex ∈ exps, ∃ v : Dec, tokVal? ex = some v ∧
        rep17 (v.mul (sv.mul sv)) = true) →
      (crystal_shell_block z bs (hd :: rows) = .ok (appendShell bs z
          { function_type := function_type_from_am
              (if r = 0 then [0] else if r = 1 then [0, 1] else [r - 1])
              "gto" "spherical",
            region := "",
            angular_momentum := if r = 0 then [0] else if r = 1 then [0, 1] else [r - 1],
            exponents := exps.map (fun ex =>
              trimZeros (fmt16E (((tokVal? ex).getD Dec.one).mul (sv.mul sv)))),
            coefficients := coefs })) ∧
        ∀ ex ∈ exps, ∃ v y : Dec, tokVal? ex = some v ∧
          tokVal? (trimZeros (fmt16E (((tokVal? ex).getD Dec.one).mul (sv.mul sv))))
            = some y ∧
          y.toQ = v.toQ * (sv.toQ * sv.toQ)) ∧
    ((sv.mul sv).beq Dec.one = true →
      crystal_shell_block z bs (hd :: rows) = .ok (appendShell bs z
        { function_type := function_type_from_am
            (if r = 0 then [0] else if r = 1 then [0, 1] else [r - 1])
            "gto" "spherical",
          region := "",
          angular_momentum := if r = 0 then [0] else if r = 1 then [0, 1] else [r - 1],
          exponents := exps, coefficients := coefs })) := by
  constructor
  · intro hfalse hgood
    constructor
    · apply crystal_shell_block_scaled z bs hd rows r ng che sc sv exps coefs
        hhd hsv hfalse hmat
      intro ex hex
      obtain ⟨v, hv, _⟩ := hgood ex hex
      simp [hv]
    · intro ex hex
      obtain ⟨v, hv, hrep⟩ := hgood ex hex
      obtain ⟨y, hy, hyv⟩ := tokVal?_trimZeros_fmt16E (v.mul (sv.mul sv)) hrep
      refine ⟨v, y, hv, ?_, ?_⟩
      · simpa [hv] using hy
      · rw [hyv, Dec.toQ_mul, Dec.toQ_mul]
  · intro htrue
    exact crystal_shell_block_ok z bs hd rows r ng che sc sv exps coefs
      hhd hsv htrue hmat

theorem C5_crystal_scale_application_witness :
    crystal_shell_block "1" [] [["0", "0", "1", "0", "2.0"], ["1.0", "0.5"]]
      = .ok (appendShell [] "1"
        { function_type := function_type_from_am [0] "gto" "spherical",
          region := "", angular_momentum := [0],
          exponents := ["4.0E+00"], coefficients := [["0.5"]] }) ∧
    tokVal? "4.0E+00" = some ⟨40, -1⟩ ∧
    Dec.toQ ⟨40, -1⟩ = Dec.toQ ⟨10, -1⟩ * (Dec.toQ ⟨20, -1⟩ * Dec.toQ ⟨20, -1⟩) := by
  obtain ⟨h1, _⟩ := C5_crystal_scale_application "1" [] ["0", "0", "1", "0", "2.0"]
    [["1.0", "0.5"]] 0 1 "0" "2.0" ⟨20, -1⟩ ["1.0"] [["0.5"]]
    (by decide) (by decide) (by decide)
  obtain ⟨heq, hval⟩ := h1 (by decide)
    (fun ex hex => by
      simp only [List.mem_singleton] at hex
      subst hex
      exact ⟨⟨10, -1⟩, by decide, by decide⟩)
  obtain ⟨v, y, hv, hy, hyv⟩ := hval "1.0" (by simp)
  have hvv : v = ⟨10, -1⟩ := by
    have hv2 : tokVal? "1.0" = some ⟨10, -1⟩ := by decide
    rw [hv2] at hv
    exact (Option.some.inj hv).symm
  have hyy : y = ⟨40, -1⟩ := by
    have hy2 : tokVal? (trimZeros (fmt16E (((tokVal? "1.0").getD Dec.one).mul
        (Dec.mul ⟨20, -1⟩ ⟨20, -1⟩)))) = some ⟨40, -1⟩ := by decide
    rw [hy2] at hy
    exact (Option.some.inj hy).symm
  have hmap : ["1.0"].map (fun ex =>
      trimZeros (fmt16E (((tokVal? ex).getD Dec.one).mul
        (Dec.mul ⟨20, -1⟩ ⟨20, -1⟩)))) = ["4.0E+00"] := by decide
  rw [hmap] at heq
  refine ⟨heq, by decide, ?_⟩
  rw [← hyy, ← hvv]
  exact hyv

theorem mapM_ok_length {α β : Type} (f : α → Except PyErr β) :
    ∀ (l : List α) (res : List β), l.mapM f = .ok res → res.length = l.length := by
  intro l
  induction l with
  | nil =>
    intro res h
    simp only [List.mapM_nil, pure, Except.pure] at h
    simp [← Except.ok.inj h]
  | cons a t ih =>
    intro res h
    rw [List.mapM_cons] at h
    cases hfa : f a with
    | error e =>
      rw [hfa] at h
      simp [bind, Except.bind] at h
    | ok b =>
      rw [hfa] at h
      cases hmt : t.mapM f with
      | error e =>
        rw [hmt] at h
        simp [bind, Except.bind] at h
      | ok bs =>
        rw [hmt] at h
        simp only [bind, Except.bind, pure, Except.pure] at h
        have hres := Except.ok.inj h
        rw [← hres]
        simp [ih bs hmt]

theorem crystal_ecp_entries_shape (pots : List EcpPotW) (counts : List ℕ)
    (rows : List Line) (h : crystal_ecp_entries pots = .ok (counts, rows)) :
    counts.length = 5 ∧ rows.length = counts.sum := by
  simp only [crystal_ecp_entries] at h
  cases hperAm : (List.range 5).mapM (fun am => do
      let am_ecp := pots.filter (fun k : EcpPotW => k.angular_momentum == some [am])
      let rowss ← am_ecp.mapM crystal_ecp_term_rows
      pure rowss.flatten) with
  | error e =>
    rw [hperAm] at h
    simp [bind, Except.bind] at h
  | ok perAm =>
    rw [hperAm] at h
    simp only [bind, Except.bind, pure, Except.pure] at h
    have hpair := Except.ok.inj h
    have hc : perAm.map List.length = counts := congrArg Prod.fst hpair
    have hr : perAm.flatten = rows := congrArg Prod.snd hpair
    constructor
    · rw [← hc]
      simp [mapM_ok_length _ _ _ hperAm]
    · rw [← hr, ← hc]
      exact List.length_flatten perAm

/-- C2 (amended): when `write_crystal` emits an ECP block, the header
line after `INPUT` is `Zeff` followed by six integers whose first (the
`M` slot) is always `0` — Hay-Wadt unbound terms are not reconstructed —
and the remaining five are the term counts for `l = 0..4` in that
order; the number of emitted ECP term rows equals the sum of the
counts.  The claimed `M = 1` configuration (a stored term with
`angular_momentum` `None`) instead raises `TypeError` (see the
counterexample). -/
theorem C2_crystal_ecp_header (ecp_elements : List String) (z : String)
    (data : ElementDataW) (nat0 ne : ℤ) (pots : List EcpPotW) (ams : List ℕ)
    (mx : ℕ) (counts : List ℕ) (rows : List Line)
    (hz : int_of_group z = .ok nat0) (h99 : nat0 < 99)
    (hmem : ecp_elements.contains z = true)
    (hsh : data.electron_shells = some [])
    (hne : data.ecp_electrons = some ne)
    (hpots : data.ecp_potentials = some pots)
    (hams : pots.mapM am_head = .ok ams)
    (hmax : ams.max? = some mx) (hmx : mx ≤ 4)
    (hent : crystal_ecp_entries pots = .ok (counts, rows)) :
    crystal_element_record ecp_elements z data =
      .ok ([intTok (nat0 + 200), natTok 0] ::
           (["INPUT"] : Line) ::
           (([intTok (nat0 - ne), natTok 0] ++ counts.map natTok) : Line) :: rows) ∧
    counts.length = 5 ∧ rows.length = counts.sum := by
  refine ⟨?_, crystal_ecp_entries_shape pots counts rows hent⟩
  have hams' : List.mapM.loop am_head pots [] = .ok ams := hams
  have hmem' : z ∈ ecp_elements := by simpa using hmem
  simp [crystal_element_record, hz, hmem, hmem', hsh, hne, hpots, hams, hams', hmax, hent,
    bind, Except.bind, throw, throwThe, MonadExceptOf.throw, pure, Except.pure,
    if_neg (by omega : ¬ (99 : ℤ) ≤ nat0), if_neg (by omega : ¬ 4 < mx)]

/-- C2 counterexample: the claimed `M = 1` bucket — one stored ECP term
with `angular_momentum` `None` next to two `l = 0` terms — makes
`write_crystal` raise `TypeError` (Python subscripts `None`), instead
of emitting a header with those counts. -/
theorem C2_counterexample :
    write_crystal id id id cexNoneAmBasis = .error .typeError := by
  decide

theorem C2_crystal_ecp_header_witness :
    crystal_element_record ["8"] "8"
        ⟨some [], some [⟨some [0], "scalar_ecp", [2, 0], ["2.0", "3.0"],
          [["0.25", "0.5"]]⟩], some 2⟩ =
      .ok ([intTok (8 + 200), natTok 0] ::
           (["INPUT"] : Line) ::
           (([intTok (8 - 2), natTok 0] ++ ([2, 0, 0, 0, 0] : List ℕ).map natTok) : Line) ::
           [["2.0", "0.25", "2"], ["3.0", "0.5", "0"]]) ∧
    ([2, 0, 0, 0, 0] : List ℕ).length = 5 ∧
    ([["2.0", "0.25", "2"], ["3.0", "0.5", "0"]] : List Line).length
      = ([2, 0, 0, 0, 0] : List ℕ).sum :=
  C2_crystal_ecp_header ["8"] "8"
    ⟨some [], some [⟨some [0], "scalar_ecp", [2, 0], ["2.0", "3.0"],
      [["0.25", "0.5"]]⟩], some 2⟩ 8 2
    [⟨some [0], "scalar_ecp", [2, 0], ["2.0", "3.0"], [["0.25", "0.5"]]⟩] [0] 0
    [2, 0, 0, 0, 0] [["2.0", "0.25", "2"], ["3.0", "0.5", "0"]]
    (by decide) (by decide) (by decide) rfl rfl rfl (by decide) (by decide)
    (by decide) (by decide)

theorem except_bind_ok {α β : Type} (m : Except PyErr α) (f : α → Except PyErr β)
    (r : β) (h : (m >>= f) = .ok r) : ∃ a, m = .ok a ∧ f a = .ok r := by
  cases m with
  | error e => simp [bind, Except.bind] at h
  | ok a =>
    refine ⟨a, rfl, ?_⟩
    simpa [bind, Except.bind] using h

/-- C10: `write_crystal` emits no record for an element of atomic number
`99` or greater — the loop body returns no lines and raises no error —
and every successfully written output ends with the terminator line
`99 0`. -/
theorem C10_crystal_terminator (ecp_elements : List String) (z : String)
    (data : ElementDataW) (nat0 : ℤ)
    (hz : int_of_group z = .ok nat0) (h99 : 99 ≤ nat0)
    (ug us sb : BasisW → BasisW) (B : BasisW) (out : List Line)
    (hw : write_crystal ug us sb B = .ok out) :
    crystal_element_record ecp_elements z data = .ok [] ∧
    out.getLast? = some ["99", "0"] := by
  constructor
  · simp [crystal_element_record, hz, bind, Except.bind, pure, Except.pure,
      if_pos h99]
  · simp only [write_crystal] at hw
    obtain ⟨body, _, hf⟩ := except_bind_ok _ _ _ hw
    have hout : body ++ [(["99", "0"] : Line)] = out := by
      simpa [pure, Except.pure] using hf
    rw [← hout]
    exact List.getLast?_concat _

theorem C10_crystal_terminator_witness :
    crystal_element_record [] "99" ⟨none, none, none⟩ = .ok [] ∧
    ([[("99" : String), "0"]] : List Line).getLast? = some ["99", "0"] :=
  C10_crystal_terminator [] "99" ⟨none, none, none⟩ 99 (by decide) (by decide)
    id id id ⟨"bn", [], []⟩ [["99", "0"]] (by decide)

/-- C9: when the basis carries an ECP for some element, `write_libmol`
returns exactly the harmonic-type line plus the electron-basis text: the
source returns the accumulated string before its ECP-emission code, so
no ECP section is ever emitted. -/
theorem C9_libmol_no_ecp (mg sb : BasisW → BasisW) (cs : ElementDataW → String)
    (B : BasisW)
    (h : ((sb (mg B)).elements.filter (fun p => p.2.ecp_potentials.isSome)) ≠ []) :
    write_libmol mg sb cs B = libmol_harm_and_electron mg sb cs B := by
  simp only [write_libmol, bind, Except.bind]
  cases hh : libmol_harm_and_electron mg sb cs B with
  | error e => rfl
  | ok s => simp [pure, Except.pure]

theorem C9_libmol_no_ecp_witness :
    write_libmol id id (fun d => "c") cexEcpBasis
      = libmol_harm_and_electron id id (fun d => "c") cexEcpBasis :=
  C9_libmol_no_ecp id id (fun d => "c") cexEcpBasis (by decide)

/-- C8 (code bug): `read_libmol` accepts a shell whose declared
contraction range `9.2` runs backwards past the primitive count 2: the
line-count arithmetic reads zero data lines, and the shell is stored
with an empty exponent list but a placeholder coefficient vector of
eight `0.0` entries — `len(coefficients[0]) ≠ len(exponents)`, breaking
the invariant without any error (the source's length assertions are
never reached for the libmol path). -/
theorem C8_libmol_invariant_violation :
    read_libmol cexLibmolInput = .ok [("1", ⟨some [cexLibmolShell], none, none⟩)] ∧
    cexLibmolShell.coefficients.all
      (fun c => c.length == cexLibmolShell.exponents.length) = false := by
  exact ⟨by decide, by decide⟩

theorem pySlice_append (exps coefs : List String) :
    pySlice (exps ++ coefs) (exps.length : ℤ)
      ((exps.length : ℤ) + (coefs.length : ℤ)) = coefs := by
  simp only [pySlice]
  have hn : ((exps ++ coefs).length : ℤ) = (exps.length : ℤ) + (coefs.length : ℤ) := by
    simp
  rw [if_neg (by omega), if_neg (by omega)]
  have ha : min (exps.length : ℤ) ((exps ++ coefs).length : ℤ) = (exps.length : ℤ) := by
    rw [hn]; omega
  have hb : min ((exps.length : ℤ) + (coefs.length : ℤ)) ((exps ++ coefs).length : ℤ)
      = ((exps ++ coefs).length : ℤ) := by
    rw [hn]
    exact min_self _
  rw [ha, hb]
  have ha' : ((exps.length : ℤ)).toNat = exps.length := by omega
  have hb' : (((exps ++ coefs).length : ℤ)).toNat = (exps ++ coefs).length := by omega
  rw [ha', hb', List.take_length, List.drop_left]

/-- C6: a contraction over the primitive range `[start, end]` of `nprim`
primitives becomes a coefficient vector of `start - 1` leading `0.0`
entries, the `end - start + 1` declared coefficients, and `nprim - end`
trailing `0.0` entries — in the Molpro reader's contraction processing
and in the libmol reader's coefficient collection alike. -/
theorem C6_contraction_padding (ln : Line) (start endp nprim : ℕ)
    (cc exps : List String)
    (hpc : parse_contraction_line ln = .ok (start, endp, cc))
    (hlen : (cc.length : ℤ) = (endp : ℤ) - (start : ℤ) + 1)
    (hs : 1 ≤ start) (hse : start ≤ endp) (hen : endp ≤ nprim)
    (hexps : exps.length = nprim) :
    molpro_process_contraction nprim ln
      = .ok (List.replicate (start - 1) "0.0" ++ cc ++
          List.replicate (nprim - endp) "0.0") ∧
    libmol_coefficients [(start, endp)] nprim (exps ++ cc)
      = [List.replicate (start - 1) "0.0" ++ cc ++
          List.replicate (nprim - endp) "0.0"] := by
  have hfin : (List.replicate (start - 1) "0.0" ++ cc ++
      List.replicate (nprim - endp) "0.0").length = nprim := by
    simp only [List.length_append, List.length_replicate]
    omega
  have hsl : pySlice (exps ++ cc) (nprim : ℤ)
      ((nprim : ℤ) + ((endp : ℤ) - (start : ℤ) + 1)) = cc := by
    have h1 : (nprim : ℤ) = (exps.length : ℤ) := by rw [hexps]
    have h2 : (nprim : ℤ) + ((endp : ℤ) - (start : ℤ) + 1)
        = (exps.length : ℤ) + (cc.length : ℤ) := by omega
    rw [h2, h1]
    exact pySlice_append exps cc
  constructor
  · simp only [molpro_process_contraction, hpc, bind, Except.bind, pure, Except.pure,
      throw, throwThe, MonadExceptOf.throw]
    rw [if_neg (by omega : ¬ ((cc.length : ℤ) ≠ (endp : ℤ) - (start : ℤ) + 1))]
    by_cases h1 : 1 < start
    · by_cases h2 : (endp : ℤ) < (nprim : ℤ)
      · simp only [if_pos h1, if_pos h2]
        rw [if_neg (by simp only [List.length_append, List.length_replicate]; omega)]
      · simp only [if_pos h1, if_neg h2]
        rw [if_neg (by simp only [List.length_append, List.length_replicate]; omega)]
        have e2 : nprim - endp = 0 := by omega
        simp [e2]
    · by_cases h2 : (endp : ℤ) < (nprim : ℤ)
      · simp only [if_neg h1, if_pos h2]
        rw [if_neg (by simp only [List.length_append, List.length_replicate]; omega)]
        have e1 : start - 1 = 0 := by omega
        simp [e1]
      · simp only [if_neg h1, if_neg h2]
        rw [if_neg (by omega : ¬ (cc.length ≠ nprim))]
        have e1 : start - 1 = 0 := by omega
        have e2 : nprim - endp = 0 := by omega
        simp [e1, e2]
  · simp only [libmol_coefficients, List.foldl_cons, List.foldl_nil, hsl]
    by_cases h1 : 1 < start
    · by_cases h2 : (endp : ℤ) < (nprim : ℤ)
      · simp only [if_pos h1, if_pos h2]
        simp
      · simp only [if_pos h1, if_neg h2]
        have e2 : nprim - endp = 0 := by omega
        simp [e2]
    · by_cases h2 : (endp : ℤ) < (nprim : ℤ)
      · simp only [if_neg h1, if_pos h2]
        have e1 : start - 1 = 0 := by omega
        simp [e1]
      · simp only [if_neg h1, if_neg h2]
        have e1 : start - 1 = 0 := by omega
        have e2 : nprim - endp = 0 := by omega
        simp [e1, e2]

theorem C6_contraction_padding_witness :
    molpro_process_contraction 6 ["c", "3.5", "0.3", "0.4", "0.5"]
      = .ok (List.replicate 2 "0.0" ++ ["0.3", "0.4", "0.5"] ++
          List.replicate 1 "0.0") ∧
    libmol_coefficients [(3, 5)] 6
        (["1.0", "2.0", "3.0", "4.0", "5.0", "6.0"] ++ ["0.3", "0.4", "0.5"])
      = [List.replicate 2 "0.0" ++ ["0.3", "0.4", "0.5"] ++
          List.replicate 1 "0.0"] :=
  C6_contraction_padding ["c", "3.5", "0.3", "0.4", "0.5"] 3 5 6
    ["0.3", "0.4", "0.5"] ["1.0", "2.0", "3.0", "4.0", "5.0", "6.0"]
    (by decide) (by decide) (by decide) (by decide) (by decide) (by decide)

theorem exc_bind_ok {α β : Type} (a : α) (f : α → Except PyErr β) :
    ((Except.ok a : Except PyErr α) >>= f) = f a := rfl

theorem exc_pure {α : Type} (a : α) : (pure a : Except PyErr α) = .ok a := rfl

theorem exc_bind_pure {α β : Type} (a : α) (f : α → Except PyErr β) :
    ((pure a : Except PyErr α) >>= f) = f a := rfl

theorem write_matrix_ok (e : List String) (cs : List (List String))
    (h : ∀ c ∈ cs, c.length = e.length) :
    write_matrix (e :: cs) true = .ok ((List.range e.length).map (fun i =>
      (e :: cs).map (fun c => convED (c.getD i "")))) := by
  simp only [write_matrix]
  rw [if_pos]
  · simp
  · rw [List.all_eq_true]
    intro c hc
    rcases List.mem_cons.mp hc with rfl | hc
    · simp
    · simp [h c hc]

theorem crystal_shell_lines_ok (sh : Shell) (h : crystalWFSh sh = true)
    (acc : List Line) :
    (do
      let am := sh.angular_momentum
      let lat ← match am with
        | [a0, a1] =>
          if a0 ≠ 0 ∨ a1 ≠ 1 then
            throw (PyErr.runtimeError "only SP combined shells are supported")
          else pure 1
        | [a0] => pure (if a0 = 0 then 0 else a0 + 1)
        | _ => throw (PyErr.runtimeError "combined shells other than SP")
      let ng := sh.exponents.length
      let desc : Line := [natTok 0, natTok lat, natTok ng, natTok 0, "1.0"]
      let mat ← write_matrix (sh.exponents :: sh.coefficients) true
      pure (acc ++ desc :: mat) : Except PyErr (List Line))
      = .ok (acc ++ crystalShellLinesPure sh) := by
  simp only [crystalWFSh, Bool.and_eq_true, Bool.or_eq_true, beq_iff_eq] at h
  obtain ⟨⟨⟨⟨ham, hcl⟩, hne⟩, hexp⟩, hcoef⟩ := h
  have hlens : ∀ c ∈ sh.coefficients, c.length = sh.exponents.length := by
    intro c hc
    rw [List.all_eq_true] at hcoef
    have := hcoef c hc
    simp only [Bool.and_eq_true, beq_iff_eq] at this
    exact this.1
  have hmat := write_matrix_ok sh.exponents sh.coefficients hlens
  rcases ham with ham | ham
  · rw [ham]
    simp only [ne_eq, bind, Except.bind, hmat]
    simp [crystalShellLinesPure, latOf, ham, pure, Except.pure]
  · obtain ⟨a0, ha0⟩ : ∃ a0, sh.angular_momentum = [a0] := by
      cases hcase : sh.angular_momentum with
      | nil => rw [hcase] at ham; simp at ham
      | cons x t =>
        cases t with
        | nil => exact ⟨x, rfl⟩
        | cons y t2 => rw [hcase] at ham; simp at ham
    rw [ha0]
    simp only [bind, Except.bind, hmat]
    simp [crystalShellLinesPure, latOf, ha0, pure, Except.pure]

theorem crystal_shell_fold_w (shells : List Shell) :
    ∀ acc : List Line, shells.all crystalWFSh = true →
    shells.foldlM
      (fun acc sh => do
        let am := sh.angular_momentum
        let lat ← match am with
          | [a0, a1] =>
            if a0 ≠ 0 ∨ a1 ≠ 1 then
              throw (PyErr.runtimeError "only SP combined shells are supported")
            else pure 1
          | [a0] => pure (if a0 = 0 then 0 else a0 + 1)
          | _ => throw (PyErr.runtimeError "combined shells other than SP")
        let ng := sh.exponents.length
        let desc : Line := [natTok 0, natTok lat, natTok ng, natTok 0, "1.0"]
        let mat ← write_matrix (sh.exponents :: sh.coefficients) true
        pure (acc ++ desc :: mat))
      acc
      = .ok (acc ++ (shells.map crystalShellLinesPure).flatten) := by
  induction shells with
  | nil =>
    intro acc _
    simp [pure, Except.pure]
  | cons sh rest ih =>
    intro acc h
    rw [List.all_cons, Bool.and_eq_true] at h
    have hsh := crystal_shell_lines_ok sh h.1 acc
    rw [List.foldlM_cons]
    simp only []
    rw [hsh, exc_bind_ok]
    rw [ih _ h.2]
    simp [List.append_assoc]

theorem crystal_element_record_pure (p : String × ElementDataW)
    (h : crystalWFEl p = true) :
    crystal_element_record [] p.1 p.2 = .ok (crystalElemLinesPure p) := by
  simp only [crystalWFEl, Bool.and_eq_true] at h
  obtain ⟨⟨hkey, hecp⟩, hshells⟩ := h
  obtain ⟨n, hpy, hn, hk⟩ : ∃ n : ℤ, pyInt? p.1 = some n ∧ (1 ≤ n ∧ n ≤ 98) ∧
      p.1 = intTok n := by
    cases hpy : pyInt? p.1 with
    | none => rw [hpy] at hkey; simp at hkey
    | some n =>
      rw [hpy] at hkey
      simp only [Bool.and_eq_true, decide_eq_true_eq, beq_iff_eq] at hkey
      exact ⟨n, rfl, hkey.1, hkey.2⟩
  obtain ⟨shells, hsh, hne, hall⟩ : ∃ shells,
      p.2.electron_shells = some shells ∧ shells.isEmpty = false ∧
      shells.all crystalWFSh = true := by
    cases hsh : p.2.electron_shells with
    | none => rw [hsh] at hshells; simp at hshells
    | some shells =>
      rw [hsh] at hshells
      simp only [Bool.and_eq_true, Bool.not_eq_true'] at hshells
      exact ⟨shells, rfl, hshells.1, hshells.2⟩
  have hfold := crystal_shell_fold_w shells [] hall
  simp only [exc_bind_ok, exc_pure] at hfold
  have hn99 : ¬ (99 : ℤ) ≤ n := by omega
  simp only [crystal_element_record, int_of_group, hpy, hsh, exc_bind_ok, exc_pure,
    if_neg hn99, List.contains]
  simp only [hfold, exc_bind_ok]
  simp [crystalElemLinesPure, hsh, hk]

theorem crystal_record_fold (els : List (String × ElementDataW)) :
    ∀ acc : List Line, els.all crystalWFEl = true →
    els.foldlM
      (fun acc p => do
        let recs ← crystal_element_record [] p.1 p.2
        pure (acc ++ recs)) acc
      = .ok (acc ++ (els.map crystalElemLinesPure).flatten) := by
  induction els with
  | nil =>
    intro acc _
    simp [pure, Except.pure]
  | cons p rest ih =>
    intro acc h
    rw [List.all_cons, Bool.and_eq_true] at h
    rw [List.foldlM_cons]
    rw [crystal_element_record_pure p h.1]
    rw [exc_bind_ok, exc_bind_pure]
    rw [ih _ h.2]
    simp [List.append_assoc]

theorem write_crystal_pure (ug us sb : BasisW → BasisW) (B : BasisW)
    (hTr : sb (us (ug B)) = B) (hWF : crystalRoundWF B = true) :
    write_crystal ug us sb B = .ok (crystalWrittenPure B) := by
  rw [crystalRoundWF, Bool.and_eq_true] at hWF
  have hecp : B.elements.filter (fun p => p.2.ecp_potentials.isSome) = [] := by
    rw [List.filter_eq_nil_iff]
    intro p hp
    rw [List.all_eq_true] at hWF
    have hw := hWF.2 p hp
    rw [crystalWFEl, Bool.and_eq_true, Bool.and_eq_true] at hw
    have : p.2.ecp_potentials = none := by
      have h2 := hw.1.2
      simpa using h2
    simp [this]
  simp only [write_crystal, hTr, hecp, List.map_nil]
  rw [crystal_record_fold B.elements [] hWF.2]
  simp [crystalWrittenPure, exc_bind_ok, pure, Except.pure]

theorem getD_mem {α : Type} (l : List α) (i : ℕ) (d : α) (h : i < l.length) :
    l.getD i d ∈ l := by
  rw [List.getD_eq_getElem?_getD, List.getElem?_eq_getElem h]
  simp only [Option.getD_some]
  exact List.getElem_mem h

theorem prune_lines_id (L : List Line)
    (h : ∀ ln ∈ L, ln ≠ [] ∧ ∀ t ∈ ln, hasCommentChar '!' t = false) :
    prune_lines L '!' = L := by
  simp only [prune_lines]
  have hmap : L.map (fun ln => ln.takeWhile (fun t => !hasCommentChar '!' t)) = L := by
    have h1 : ∀ ln ∈ L, ln.takeWhile (fun t => !hasCommentChar '!' t) = ln := by
      intro ln hln
      apply takeWhile_all_eq_self
      intro t ht
      simp [(h ln hln).2 t ht]
    calc L.map (fun ln => ln.takeWhile (fun t => !hasCommentChar '!' t))
        = L.map id := List.map_congr_left h1
      _ = L := List.map_id L
  rw [hmap]
  apply List.filter_eq_self.mpr
  intro ln hln
  simpa using (h ln hln).1

/-- Tokens of the written output: nonempty lines free of the comment
character. -/
theorem crystalShellLines_clean (sh : Shell) (h : crystalWFSh sh = true) :
    ∀ ln ∈ crystalShellLinesPure sh, ln ≠ [] ∧
      ∀ t ∈ ln, hasCommentChar '!' t = false := by
  simp only [crystalWFSh, Bool.and_eq_true, Bool.or_eq_true, beq_iff_eq] at h
  obtain ⟨⟨⟨⟨ham, hcl⟩, hne⟩, hexp⟩, hcoef⟩ := h
  intro ln hln
  simp only [crystalShellLinesPure, List.mem_cons] at hln
  rcases hln with rfl | hln
  · refine ⟨by simp, ?_⟩
    intro t ht
    simp only [List.mem_cons] at ht
    rcases ht with rfl | rfl | rfl | rfl | rfl | hf
    · exact natTok_no_comment 0
    · exact natTok_no_comment _
    · exact natTok_no_comment _
    · exact natTok_no_comment 0
    · decide
    · simp at hf
  · obtain ⟨i, hi, rfl⟩ : ∃ i, i ∈ List.range sh.exponents.length ∧
        (sh.exponents :: sh.coefficients).map (fun c => convED (c.getD i "")) = ln := by
      obtain ⟨i, hi, hlni⟩ := List.mem_map.mp hln
      exact ⟨i, hi, hlni⟩
    have hilt : i < sh.exponents.length := List.mem_range.mp hi
    refine ⟨by simp, ?_⟩
    intro t ht
    obtain ⟨c, hc, rfl⟩ := List.mem_map.mp ht
    rcases List.mem_cons.mp hc with rfl | hc
    · have hmem := getD_mem sh.exponents i "" hilt
      rw [List.all_eq_true] at hexp
      have hg := hexp _ hmem
      simp only [goodExpTok, Bool.and_eq_true, Bool.not_eq_true'] at hg
      rw [hasCommentChar_convED]
      exact hg.2
    · rw [List.all_eq_true] at hcoef
      have hcw := hcoef c hc
      simp only [Bool.and_eq_true, beq_iff_eq] at hcw
      have hmem := getD_mem c i "" (by rw [hcw.1]; exact hilt)
      rw [List.all_eq_true] at hcw
      have hg := hcw.2 _ hmem
      simp only [goodCoefTok, Bool.and_eq_true, Bool.not_eq_true'] at hg
      rw [hasCommentChar_convED]
      exact hg.2

theorem crystalElemLines_clean (p : String × ElementDataW)
    (h : crystalWFEl p = true) :
    ∀ ln ∈ crystalElemLinesPure p, ln ≠ [] ∧
      ∀ t ∈ ln, hasCommentChar '!' t = false := by
  have h' := h
  simp only [crystalWFEl, Bool.and_eq_true] at h'
  obtain ⟨⟨hkey, _⟩, hshells⟩ := h'
  obtain ⟨n, hpy, hn, hk⟩ : ∃ n : ℤ, pyInt? p.1 = some n ∧ (1 ≤ n ∧ n ≤ 98) ∧
      p.1 = intTok n := by
    cases hpy : pyInt? p.1 with
    | none => rw [hpy] at hkey; simp at hkey
    | some n =>
      rw [hpy] at hkey
      simp only [Bool.and_eq_true, decide_eq_true_eq, beq_iff_eq] at hkey
      exact ⟨n, rfl, hkey.1, hkey.2⟩
  obtain ⟨shells, hsh, hall⟩ : ∃ shells, p.2.electron_shells = some shells ∧
      shells.all crystalWFSh = true := by
    cases hsh : p.2.electron_shells with
    | none => rw [hsh] at hshells; simp at hshells
    | some shells =>
      rw [hsh] at hshells
      simp only [Bool.and_eq_true] at hshells
      exact ⟨shells, rfl, hshells.2⟩
  intro ln hln
  simp only [crystalElemLinesPure, List.mem_cons] at hln
  rcases hln with rfl | hln
  · refine ⟨by simp, ?_⟩
    intro t ht
    simp only [List.mem_cons] at ht
    rcases ht with rfl | rfl | hf
    · rw [hk, intTok_nonneg n (by omega)]
      exact natTok_no_comment _
    · exact natTok_no_comment _
    · simp at hf
  · obtain ⟨blines, hb, hlnb⟩ := List.mem_flatten.mp hln
    obtain ⟨sh, hshm, rfl⟩ := List.mem_map.mp hb
    rw [hsh] at hshm
    simp only [Option.getD_some] at hshm
    rw [List.all_eq_true] at hall
    exact crystalShellLines_clean sh (hall sh hshm) ln hlnb

theorem crystalWritten_clean (B : BasisW) (h : crystalRoundWF B = true) :
    ∀ ln ∈ crystalWrittenPure B, ln ≠ [] ∧
      ∀ t ∈ ln, hasCommentChar '!' t = false := by
  rw [crystalRoundWF, Bool.and_eq_true] at h
  intro ln hln
  simp only [crystalWrittenPure, List.mem_append, List.mem_singleton] at hln
  rcases hln with hln | rfl
  · obtain ⟨blines, hb, hlnb⟩ := List.mem_flatten.mp hln
    obtain ⟨p, hpm, rfl⟩ := List.mem_map.mp hb
    rw [List.all_eq_true] at h
    exact crystalElemLines_clean p (h.2 p hpm) ln hlnb
  · exact ⟨by simp, by intro t ht; rcases List.mem_cons.mp ht with rfl | ht <;>
      simp_all <;> decide⟩

theorem shell_re_match_of_len (x : Line) (h : x.length ≠ 5) :
    shell_re_match x = false := by
  rcases x with _ | ⟨a, _ | ⟨b, _ | ⟨c, _ | ⟨d, _ | ⟨e, _ | ⟨f, r⟩⟩⟩⟩⟩⟩
  · rfl
  · rfl
  · rfl
  · rfl
  · rfl
  · exact absurd (by simp) h
  · rfl

theorem element_re_match_of_len (x : Line) (h : x.length ≠ 2) :
    element_re_match x = false := by
  rcases x with _ | ⟨a, _ | ⟨b, _ | ⟨c, r⟩⟩⟩
  · rfl
  · rfl
  · exact absurd (by simp) h
  · rfl

theorem element_re_match_nonint (a b : String) (h : isIntTok a = false) :
    element_re_match [a, b] = false := by
  simp [element_re_match, isInt13, h]

theorem crystalShellLines_length (sh : Shell) :
    (crystalShellLinesPure sh).length = 1 + sh.exponents.length := by
  simp [crystalShellLinesPure]
  omega

/-- The per-shell written block: the descriptor matches `shell_re`, the
data rows do not (and none of its lines matches `element_re`). -/
theorem crystalShellLines_blockwf (sh : Shell) (h : crystalWFSh sh = true) :
    crystalShellLinesPure sh ≠ [] ∧
    shell_re_match ((crystalShellLinesPure sh).headD []) = true ∧
    (∀ x ∈ (crystalShellLinesPure sh).tail, shell_re_match x = false) ∧
    (∀ x ∈ crystalShellLinesPure sh, element_re_match x = false) := by
  have h' := h
  simp only [crystalWFSh, Bool.and_eq_true, Bool.or_eq_true, beq_iff_eq] at h'
  obtain ⟨⟨⟨⟨ham, hcl⟩, hne⟩, hexp⟩, hcoef⟩ := h'
  have hrow : ∀ x ∈ (crystalShellLinesPure sh).tail,
      ∃ i, i < sh.exponents.length ∧
        x = (sh.exponents :: sh.coefficients).map (fun c => convED (c.getD i "")) := by
    intro x hx
    simp only [crystalShellLinesPure, List.tail_cons] at hx
    obtain ⟨i, hi, hxi⟩ := List.mem_map.mp hx
    exact ⟨i, List.mem_range.mp hi, hxi.symm⟩
  have hcl2 : sh.coefficients.length = 1 ∨ sh.coefficients.length = 2 := by
    rcases ham with ham | ham
    · right; rw [hcl, ham]; rfl
    · left; rw [hcl]; simpa using ham
  refine ⟨by simp [crystalShellLinesPure], ?_, ?_, ?_⟩
  · simp only [crystalShellLinesPure, List.headD_cons]
    simp [shell_re_match, natTok_isIntTok, show isFloatTok "1.0" = true from by decide]
  · intro x hx
    obtain ⟨i, hi, rfl⟩ := hrow x hx
    apply shell_re_match_of_len
    simp only [List.length_map, List.length_cons]
    omega
  · intro x hx
    simp only [crystalShellLinesPure, List.mem_cons] at hx
    rcases hx with rfl | hx
    · exact element_re_match_of_len _ (by simp)
    · obtain ⟨i, hi, rfl⟩ := hrow _ (by simpa [crystalShellLinesPure] using hx)
      rcases hcl2 with h1 | h2
      · obtain ⟨c0, hc0⟩ : ∃ c0, sh.coefficients = [c0] := by
          cases hcase : sh.coefficients with
          | nil => rw [hcase] at h1; simp at h1
          | cons y t =>
            cases t with
            | nil => exact ⟨y, rfl⟩
            | cons z t2 => rw [hcase] at h1; simp at h1
        rw [hc0]
        simp only [List.map_cons, List.map_nil]
        have hgood := (List.all_eq_true.mp hexp) _ (getD_mem sh.exponents i "" hi)
        simp only [goodExpTok, Bool.and_eq_true, Bool.not_eq_true'] at hgood
        exact element_re_match_nonint _ _
          (by rw [isIntTok_convED]; exact hgood.1.2)
      · apply element_re_match_of_len
        simp only [List.length_map, List.length_cons]
        omega

/-- `partition_lines` recovers well-formed blocks from their
concatenation, dropping the blocks below the minimum size. -/
theorem partition_lines_flatten (p : Line → Bool) (blocks : List (List Line)) (ms : ℕ)
    (hwf : ∀ b ∈ blocks, b ≠ [] ∧ p (b.headD []) = true ∧ ∀ x ∈ b.tail, p x = false)
    (hne : blocks ≠ []) :
    partition_lines blocks.flatten p ms
      = .ok (blocks.filter (fun b => decide (ms ≤ b.length))) := by
  obtain ⟨b0, rest, rfl⟩ := List.exists_cons_of_ne_nil hne
  obtain ⟨hd, tl, hb0⟩ : ∃ hd tl, b0 = hd :: tl := by
    obtain ⟨hb, _, _⟩ := hwf b0 (by simp)
    cases b0 with
    | nil => exact absurd rfl hb
    | cons x xs => exact ⟨x, xs, rfl⟩
  have hfl : (b0 :: rest).flatten = hd :: (tl ++ rest.flatten) := by
    rw [hb0]; simp
  have hphd : p hd = true := by
    have := (hwf b0 (by simp)).2.1
    rw [hb0] at this
    simpa using this
  simp only [partition_lines, hfl, hphd, if_true]
  rw [← hfl, splitBlocks_flatten p _ hwf]

theorem getD_map {α β : Type} (f : α → β) (l : List α) (i : ℕ) (d : β) (d' : α)
    (h : i < l.length) : (l.map f).getD i d = f (l.getD i d') := by
  rw [List.getD_eq_getElem?_getD, List.getD_eq_getElem?_getD,
    List.getElem?_eq_getElem (by simpa using h), List.getElem?_eq_getElem h]
  simp

/-- The CRYSTAL shell parser rebuilds a written well-formed shell as
`readShellOf` describes: same angular momenta, tokens re-normalized. -/
theorem crystal_shell_block_pure (zkey : String) (bs : BsData) (sh : Shell)
    (h : crystalWFSh sh = true) :
    crystal_shell_block zkey bs (crystalShellLinesPure sh)
      = .ok (appendShell bs zkey (readShellOf sh)) := by
  have h' := h
  simp only [crystalWFSh, Bool.and_eq_true, Bool.or_eq_true, beq_iff_eq] at h'
  obtain ⟨⟨⟨⟨ham, hcl⟩, hne⟩, hexp⟩, hcoef⟩ := h'
  have hlens : ∀ c ∈ sh.coefficients, c.length = sh.exponents.length := by
    intro c hc
    rw [List.all_eq_true] at hcoef
    have hcw := hcoef c hc
    simp only [Bool.and_eq_true, beq_iff_eq] at hcw
    exact hcw.1
  have hfloats : ∀ c ∈ sh.exponents :: sh.coefficients, ∀ i < sh.exponents.length,
      isFloatTok (convED (c.getD i "")) = true := by
    intro c hc i hi
    rw [isFloatTok_convED]
    rcases List.mem_cons.mp hc with rfl | hc
    · have hg := (List.all_eq_true.mp hexp) _ (getD_mem sh.exponents i "" hi)
      simp only [goodExpTok, Bool.and_eq_true] at hg
      exact hg.1.1
    · have hcw := (List.all_eq_true.mp hcoef) c hc
      simp only [Bool.and_eq_true, beq_iff_eq] at hcw
      have hg := (List.all_eq_true.mp hcw.2) _ (getD_mem c i "" (by rw [hcw.1]; exact hi))
      simp only [goodCoefTok, Bool.and_eq_true] at hg
      exact hg.1
  have hhd : parse_shell_header [natTok 0, natTok (latOf sh.angular_momentum),
      natTok sh.exponents.length, natTok 0, "1.0"]
      = .ok (0, latOf sh.angular_momentum, sh.exponents.length, "0", "1.0") := by
    simp [parse_shell_header, natTok_isIntTok, intTokVal_natTok,
      show isFloatTok "1.0" = true from by decide,
      show normD "1.0" = "1.0" from by decide,
      show normD (natTok 0) = "0" from by decide]
  have hamlist : (if latOf sh.angular_momentum = 0 then [0]
      else if latOf sh.angular_momentum = 1 then [0, 1]
      else [latOf sh.angular_momentum - 1]) = sh.angular_momentum := by
    rcases ham with ham | ham
    · rw [ham]; rfl
    · obtain ⟨a0, ha0⟩ : ∃ a0, sh.angular_momentum = [a0] := by
        cases hcase : sh.angular_momentum with
        | nil => rw [hcase] at ham; simp at ham
        | cons x t =>
          cases t with
          | nil => exact ⟨x, rfl⟩
          | cons y t2 => rw [hcase] at ham; simp at ham
      rw [ha0]
      by_cases h0 : a0 = 0
      · subst h0; rfl
      · simp [latOf, h0]
  have hrl : ((List.range sh.exponents.length).map (fun i =>
      (sh.exponents :: sh.coefficients).map (fun c => convED (c.getD i "")))).length
      = sh.exponents.length := by simp
  have hmat : parse_primitive_matrix
      (((List.range sh.exponents.length).map (fun i =>
        (sh.exponents :: sh.coefficients).map (fun c => convED (c.getD i "")))).take
          sh.exponents.length)
      sh.exponents.length (sh.angular_momentum.length)
      = .ok (sh.exponents.map (fun t => normD (convED t)),
             sh.coefficients.map (fun c => c.map (fun t => normD (convED t)))) := by
    rw [List.take_of_length_le (le_of_eq hrl)]
    simp only [parse_primitive_matrix]
    rw [if_neg (by rw [hrl]; omega)]
    rw [List.take_of_length_le (le_of_eq hrl)]
    rw [if_pos]
    · congr 1
      rw [Prod.mk.injEq]
      constructor
      · rw [List.map_map]
        have hcongr : ∀ i ∈ List.range sh.exponents.length,
            ((fun r => normD (r.headD "")) ∘ (fun i =>
              (sh.exponents :: sh.coefficients).map (fun c => convED (c.getD i "")))) i
            = (fun t => normD (convED t)) (sh.exponents.getD i "") := by
          intro i _
          simp
        rw [List.map_congr_left hcongr,
          range_map_getD (fun t => normD (convED t)) sh.exponents ""]
      · rw [← hcl]
        have houter : ∀ j ∈ List.range sh.coefficients.length,
            ((List.range sh.exponents.length).map (fun i =>
              (sh.exponents :: sh.coefficients).map (fun c =>
                convED (c.getD i "")))).map (fun r => normD (r.getD (j + 1) ""))
            = (fun c => c.map (fun t => normD (convED t)))
                (sh.coefficients.getD j []) := by
          intro j hj
          have hjlt : j < sh.coefficients.length := List.mem_range.mp hj
          rw [List.map_map]
          have hinner : ∀ i ∈ List.range sh.exponents.length,
              ((fun r => normD (r.getD (j + 1) "")) ∘ (fun i =>
                (sh.exponents :: sh.coefficients).map (fun c =>
                  convED (c.getD i "")))) i
              = (fun t => normD (convED t)) ((sh.coefficients.getD j []).getD i "") := by
            intro i _
            simp only [Function.comp]
            rw [getD_map (fun c => convED (c.getD i "")) _ _ _ []
              (by simp; omega), List.getD_cons_succ]
          rw [List.map_congr_left hinner]
          have hlenj : (sh.coefficients.getD j []).length = sh.exponents.length :=
            hlens _ (getD_mem sh.coefficients j [] hjlt)
          rw [← hlenj, range_map_getD (fun t => normD (convED t))
            (sh.coefficients.getD j []) ""]
        rw [List.map_congr_left houter,
          range_map_getD (fun c => c.map (fun t => normD (convED t)))
            sh.coefficients []]
    · rw [List.all_eq_true]
      intro r hr
      obtain ⟨i, hi, rfl⟩ := List.mem_map.mp hr
      have hilt := List.mem_range.mp hi
      simp only [Bool.and_eq_true]
      constructor
      · simp [hcl]
      · rw [List.all_eq_true]
        intro t ht
        obtain ⟨c, hc, rfl⟩ := List.mem_map.mp ht
        exact hfloats c hc i hilt
  have hok := crystal_shell_block_ok zkey bs
    [natTok 0, natTok (latOf sh.angular_momentum), natTok sh.exponents.length,
      natTok 0, "1.0"]
    ((List.range sh.exponents.length).map (fun i =>
      (sh.exponents :: sh.coefficients).map (fun c => convED (c.getD i ""))))
    (latOf sh.angular_momentum) sh.exponents.length "0" "1.0" ⟨10, -1⟩
    (sh.exponents.map (fun t => normD (convED t)))
    (sh.coefficients.map (fun c => c.map (fun t => normD (convED t))))
    hhd (by decide) (by decide) (by rw [hamlist]; exact hmat)
  rw [crystalShellLinesPure]
  rw [hok]
  rw [readShellOf]
  simp only [hamlist]

theorem lookupEl_eq_none (bs : BsData) (z : String) (h : ∀ q ∈ bs, q.1 ≠ z) :
    lookupEl bs z = none := by
  simp only [lookupEl]
  rw [List.find?_eq_none.mpr]
  · rfl
  · intro q hq
    simp [h q hq]

theorem lookupEl_append_last (bs0 : BsData) (z : String) (d : ElementDataR)
    (h : ∀ q ∈ bs0, q.1 ≠ z) : lookupEl (bs0 ++ [(z, d)]) z = some d := by
  induction bs0 with
  | nil => simp [lookupEl, List.find?]
  | cons q t ih =>
    have hq : q.1 ≠ z := h q (by simp)
    simp only [lookupEl, List.cons_append, List.find?_cons] at ih ⊢
    simp only [hq, decide_eq_true_eq, if_neg hq]
    exact ih (fun r hr => h r (by simp [hr]))

theorem setEl_append_last (bs0 : BsData) (z : String) (d d' : ElementDataR)
    (h : ∀ q ∈ bs0, q.1 ≠ z) :
    setEl (bs0 ++ [(z, d)]) z d' = bs0 ++ [(z, d')] := by
  simp only [setEl, List.map_append]
  congr 1
  · have h1 : ∀ q ∈ bs0, (if q.1 = z then (z, d') else q) = q := by
      intro q hq
      rw [if_neg (h q hq)]
    calc bs0.map (fun q => if q.1 = z then (z, d') else q)
        = bs0.map id := List.map_congr_left h1
      _ = bs0 := List.map_id bs0
  · simp

theorem appendShell_last (bs0 : BsData) (z : String) (cur : List Shell)
    (o2 : Option (List EcpPotR)) (o3 : Option ℤ) (sh : Shell)
    (h : ∀ q ∈ bs0, q.1 ≠ z) :
    appendShell (bs0 ++ [(z, ⟨some cur, o2, o3⟩)]) z sh
      = bs0 ++ [(z, ⟨some (cur ++ [sh]), o2, o3⟩)] := by
  rw [appendShell, lookupEl_append_last bs0 z _ h]
  rw [setEl_append_last bs0 z _ _ h]
  rfl

theorem crystal_shell_fold_r (zkey : String) (shells : List Shell) :
    ∀ (bs0 : BsData) (cur : List Shell) (o2 : Option (List EcpPotR)) (o3 : Option ℤ),
    shells.all crystalWFSh = true → (∀ q ∈ bs0, q.1 ≠ zkey) →
    (shells.map crystalShellLinesPure).foldlM (crystal_shell_block zkey)
      (bs0 ++ [(zkey, ⟨some cur, o2, o3⟩)])
      = .ok (bs0 ++ [(zkey, ⟨some (cur ++ shells.map readShellOf), o2, o3⟩)]) := by
  induction shells with
  | nil =>
    intro bs0 cur o2 o3 _ _
    simp [pure, Except.pure]
  | cons sh rest ih =>
    intro bs0 cur o2 o3 hall hq
    rw [List.all_cons, Bool.and_eq_true] at hall
    simp only [List.map_cons, List.foldlM_cons]
    rw [crystal_shell_block_pure zkey _ sh hall.1,
      appendShell_last bs0 zkey cur o2 o3 _ hq, exc_bind_ok,
      ih bs0 _ o2 o3 hall.2 hq]
    simp [List.append_assoc]

/-- The CRYSTAL electron-shell parser rebuilds a written well-formed
element section as a fresh entry of shells re-normalized per
`readShellOf`. -/
theorem crystal_parse_electron_pure (bs : BsData) (p : String × ElementDataW)
    (h : crystalWFEl p = true) (hfresh : ∀ q ∈ bs, q.1 ≠ p.1) :
    crystal_parse_electron_lines (crystalElemLinesPure p) bs
      = .ok (bs ++ [(p.1,
          ⟨some ((p.2.electron_shells.getD []).map readShellOf), none, none⟩)]) := by
  have h' := h
  simp only [crystalWFEl, Bool.and_eq_true] at h'
  obtain ⟨⟨hkey, _⟩, hshells⟩ := h'
  obtain ⟨n, hpy, hn, hk⟩ : ∃ n : ℤ, pyInt? p.1 = some n ∧ (1 ≤ n ∧ n ≤ 98) ∧
      p.1 = intTok n := by
    cases hpy : pyInt? p.1 with
    | none => rw [hpy] at hkey; simp at hkey
    | some n =>
      rw [hpy] at hkey
      simp only [Bool.and_eq_true, decide_eq_true_eq, beq_iff_eq] at hkey
      exact ⟨n, rfl, hkey.1, hkey.2⟩
  obtain ⟨shells, hsh, hne, hall⟩ : ∃ shells,
      p.2.electron_shells = some shells ∧ shells.isEmpty = false ∧
      shells.all crystalWFSh = true := by
    cases hsh : p.2.electron_shells with
    | none => rw [hsh] at hshells; simp at hshells
    | some shells =>
      rw [hsh] at hshells
      simp only [Bool.and_eq_true, Bool.not_eq_true'] at hshells
      exact ⟨shells, rfl, hshells.1, hshells.2⟩
  have hzkey : natTok ((n % 100).toNat) = p.1 := by
    rw [hk, intTok_nonneg n (by omega)]
    congr 1
    omega
  have hge : _get_element_ecp (crystalElemLinesPure p)
      = .ok ((n % 100).toNat, false) := by
    simp only [crystalElemLinesPure, _get_element_ecp, hpy]
    congr 2
    apply decide_eq_false
    omega
  have hname : element_name_from_Z ((n % 100).toNat)
      = .ok ("element-" ++ natTok ((n % 100).toNat)) := by
    rw [element_name_from_Z, if_pos (by omega)]
  have hpart : partition_lines (crystalElemLinesPure p).tail shell_re_match 1
      = .ok (shells.map crystalShellLinesPure) := by
    have hblocks : ∀ b ∈ shells.map crystalShellLinesPure, b ≠ [] ∧
        shell_re_match (b.headD []) = true ∧ ∀ x ∈ b.tail, shell_re_match x = false := by
      intro b hb
      obtain ⟨sh, hshm, rfl⟩ := List.mem_map.mp hb
      obtain ⟨h1, h2, h3, _⟩ :=
        crystalShellLines_blockwf sh ((List.all_eq_true.mp hall) sh hshm)
      exact ⟨h1, h2, h3⟩
    have hne2 : shells.map crystalShellLinesPure ≠ [] := by
      intro hcon
      rw [List.map_eq_nil_iff] at hcon
      rw [hcon] at hne
      simp at hne
    have h := partition_lines_flatten shell_re_match
      (shells.map crystalShellLinesPure) 1 hblocks hne2
    rw [show (crystalElemLinesPure p).tail
        = (shells.map crystalShellLinesPure).flatten from by
      simp [crystalElemLinesPure, hsh]]
    rw [h]
    congr 1
    apply List.filter_eq_self.mpr
    intro b hb
    obtain ⟨sh, _, rfl⟩ := List.mem_map.mp hb
    simp [crystalShellLines_length]
  have hfold := crystal_shell_fold_r p.1 shells bs [] none none hall hfresh
  simp only [List.nil_append] at hfold
  simp only [crystal_parse_electron_lines, hge, exc_bind_ok, exc_pure]
  simp only [hname, exc_bind_ok]
  rw [show (crystalElemLinesPure p).headD [] =
      [p.1, natTok (p.2.electron_shells.getD []).length] from by
    simp [crystalElemLinesPure]]
  simp only [List.get?_cons_succ, List.get?_cons_zero]
  rw [show pyInt? (natTok (p.2.electron_shells.getD []).length)
      = some ((p.2.electron_shells.getD []).length : ℤ) from pyInt?_natTok _]
  simp only [exc_bind_ok, exc_pure]
  rw [hzkey]
  rw [show create_element_data bs p.1 .shells
      = bs ++ [(p.1, ⟨some [], none, none⟩)] from by
    rw [create_element_data, lookupEl_eq_none bs p.1 hfresh]
    rfl]
  simp only [hpart, exc_bind_ok]
  rw [hfold]
  rw [hsh]
  simp

theorem _get_element_ecp_pure (p : String × ElementDataW) (h : crystalWFEl p = true) :
    _get_element_ecp (crystalElemLinesPure p)
      = .ok (((pyInt? p.1).getD 0 % 100).toNat, false) := by
  simp only [crystalWFEl, Bool.and_eq_true] at h
  obtain ⟨⟨hkey, _⟩, _⟩ := h
  cases hpy : pyInt? p.1 with
  | none => rw [hpy] at hkey; simp at hkey
  | some n =>
    rw [hpy] at hkey
    simp only [Bool.and_eq_true, decide_eq_true_eq, beq_iff_eq] at hkey
    simp only [crystalElemLinesPure, _get_element_ecp, hpy, Option.getD_some]
    congr 2
    apply decide_eq_false
    omega

theorem crystalElemLines_min (p : String × ElementDataW) (h : crystalWFEl p = true) :
    3 ≤ (crystalElemLinesPure p).length := by
  simp only [crystalWFEl, Bool.and_eq_true] at h
  obtain ⟨_, hshells⟩ := h
  cases hsh : p.2.electron_shells with
  | none => rw [hsh] at hshells; simp at hshells
  | some shells =>
    rw [hsh] at hshells
    simp only [Bool.and_eq_true, Bool.not_eq_true'] at hshells
    obtain ⟨hne, hall⟩ := hshells
    cases hcase : shells with
    | nil => rw [hcase] at hne; simp at hne
    | cons s0 rest =>
      have hs0 := (List.all_eq_true.mp hall) s0 (by rw [hcase]; simp)
      simp only [crystalWFSh, Bool.and_eq_true, Bool.not_eq_true'] at hs0
      have hexne : s0.exponents ≠ [] := by
        have := hs0.1.1.2
        simpa [List.isEmpty_iff] using this
      have hlen0 : 2 ≤ (crystalShellLinesPure s0).length := by
        rw [crystalShellLines_length]
        have : 0 < s0.exponents.length := List.length_pos.mpr hexne
        omega
      simp only [crystalElemLinesPure, hsh, Option.getD_some, hcase,
        List.length_cons, List.map_cons, List.flatten_cons, List.length_append]
      omega

theorem contains_false_forall (keys : List String) (k : String) :
    keys.contains k = false → ∀ x ∈ keys, x ≠ k := by
  induction keys with
  | nil =>
    intro _ x hx
    simp at hx
  | cons a t ih =>
    intro h x hx
    simp only [List.contains_cons, Bool.or_eq_false_iff] at h
    rcases List.mem_cons.mp hx with rfl | hx
    · intro hcon
      subst hcon
      simp at h
    · exact ih h.2 x hx

theorem crystal_read_fold (els : List (String × ElementDataW)) :
    ∀ bs0 : BsData,
    els.all crystalWFEl = true →
    keysDistinct (els.map (·.1)) = true →
    (∀ q ∈ bs0, ∀ p ∈ els, q.1 ≠ p.1) →
    (els.map crystalElemLinesPure).foldlM
      (fun bs es => do
        let bs ← crystal_parse_electron_lines es bs
        let ze ← _get_element_ecp es
        if ze.2 then crystal_parse_ecp_lines es bs else pure bs)
      bs0
      = .ok (bs0 ++ els.map (fun p =>
          (p.1, ⟨some ((p.2.electron_shells.getD []).map readShellOf),
            none, none⟩))) := by
  induction els with
  | nil =>
    intro bs0 _ _ _
    simp [pure, Except.pure]
  | cons p rest ih =>
    intro bs0 hall hkd hq
    rw [List.all_cons, Bool.and_eq_true] at hall
    simp only [List.map_cons, keysDistinct, Bool.and_eq_true,
      Bool.not_eq_true'] at hkd
    have hfresh : ∀ q ∈ bs0, q.1 ≠ p.1 := fun q hqm => hq q hqm p (by simp)
    simp only [List.map_cons, List.foldlM_cons]
    rw [crystal_parse_electron_pure bs0 p hall.1 hfresh, exc_bind_ok,
      _get_element_ecp_pure p hall.1, exc_bind_ok]
    simp only [Bool.false_eq_true, if_false, exc_bind_pure]
    have hfresh2 : ∀ q ∈ bs0 ++ [(p.1,
        (⟨some ((p.2.electron_shells.getD []).map readShellOf),
          none, none⟩ : ElementDataR))], ∀ p' ∈ rest, q.1 ≠ p'.1 := by
      intro q hqm p' hp'
      rcases List.mem_append.mp hqm with hqm | hqm
      · exact hq q hqm p' (by simp [hp'])
      · simp only [List.mem_singleton] at hqm
        subst hqm
        simp only []
        have hcf := contains_false_forall (rest.map (·.1)) p.1 hkd.1
        intro hcon
        exact hcf p'.1 (List.mem_map.mpr ⟨p', hp', rfl⟩) hcon.symm
    have ih' := ih (bs0 ++ [(p.1,
        (⟨some ((p.2.electron_shells.getD []).map readShellOf),
          none, none⟩ : ElementDataR))]) hall.2 hkd.2 hfresh2
    rw [ih']
    simp [List.append_assoc]

theorem read_crystal_pure (B : BasisW) (hWF : crystalRoundWF B = true) :
    read_crystal (crystalWrittenPure B) = .ok (crystalReadBack B) := by
  have hWF' := hWF
  rw [crystalRoundWF, Bool.and_eq_true] at hWF'
  have hclean := crystalWritten_clean B hWF
  have hprune : prune_lines (crystalWrittenPure B) '!' = crystalWrittenPure B :=
    prune_lines_id _ hclean
  have hne : crystalWrittenPure B ≠ [] := by
    simp only [crystalWrittenPure]
    intro hcon
    rcases List.append_eq_nil.mp hcon with ⟨_, h2⟩
    simp at h2
  have hblocks : ∀ b ∈ B.elements.map crystalElemLinesPure ++ [[["99", "0"]]],
      b ≠ [] ∧ element_re_match (b.headD []) = true ∧
      ∀ x ∈ b.tail, element_re_match x = false := by
    intro b hb
    rcases List.mem_append.mp hb with hb | hb
    · obtain ⟨p, hpm, rfl⟩ := List.mem_map.mp hb
      have hp := (List.all_eq_true.mp hWF'.2) p hpm
      have hp' := hp
      simp only [crystalWFEl, Bool.and_eq_true] at hp'
      obtain ⟨⟨hkey, _⟩, hshells⟩ := hp'
      obtain ⟨n, hpy, hn, hk⟩ : ∃ n : ℤ, pyInt? p.1 = some n ∧ (1 ≤ n ∧ n ≤ 98) ∧
          p.1 = intTok n := by
        cases hpy : pyInt? p.1 with
        | none => rw [hpy] at hkey; simp at hkey
        | some n =>
          rw [hpy] at hkey
          simp only [Bool.and_eq_true, decide_eq_true_eq, beq_iff_eq] at hkey
          exact ⟨n, rfl, hkey.1, hkey.2⟩
      obtain ⟨shells, hsh, hall⟩ : ∃ shells, p.2.electron_shells = some shells ∧
          shells.all crystalWFSh = true := by
        cases hsh : p.2.electron_shells with
        | none => rw [hsh] at hshells; simp at hshells
        | some shells =>
          rw [hsh] at hshells
          simp only [Bool.and_eq_true] at hshells
          exact ⟨shells, rfl, hshells.2⟩
      refine ⟨by simp [crystalElemLinesPure], ?_, ?_⟩
      · simp only [crystalElemLinesPure, List.headD_cons]
        have hint : isInt13 p.1 = true := by
          rw [hk, intTok_nonneg n (by omega)]
          simp only [isInt13, Bool.and_eq_true]
          refine ⟨⟨natTok_isIntTok _, ?_⟩, ?_⟩
          · have := natTok_data_ne n.natAbs
            simp only [decide_eq_true_eq]
            cases hdata : (natTok n.natAbs).data with
            | nil => exact absurd hdata this
            | cons c r => simp
          · have hlen := natTok_length_le n.natAbs 2 (by norm_num) (by omega)
            simp only [decide_eq_true_eq]
            omega
        simp [element_re_match, hint, natTok_isIntTok]
      · intro x hx
        simp only [crystalElemLinesPure, List.tail_cons] at hx
        obtain ⟨blines, hbm, hxm⟩ := List.mem_flatten.mp hx
        obtain ⟨sh, hshm, rfl⟩ := List.mem_map.mp hbm
        rw [hsh] at hshm
        simp only [Option.getD_some] at hshm
        obtain ⟨_, _, _, h4⟩ :=
          crystalShellLines_blockwf sh ((List.all_eq_true.mp hall) sh hshm)
        exact h4 x hxm
    · simp only [List.mem_singleton] at hb
      subst hb
      exact ⟨by simp, by decide, by simp⟩
  have hpart : partition_lines (crystalWrittenPure B) element_re_match 3
      = .ok (B.elements.map crystalElemLinesPure) := by
    have hflat : (B.elements.map crystalElemLinesPure ++ [[["99", "0"]]]).flatten
        = crystalWrittenPure B := by
      simp [crystalWrittenPure]
    have h := partition_lines_flatten element_re_match
      (B.elements.map crystalElemLinesPure ++ [[["99", "0"]]]) 3 hblocks (by simp)
    rw [hflat] at h
    rw [h, List.filter_append]
    have h1 : (B.elements.map crystalElemLinesPure).filter
        (fun b => decide (3 ≤ b.length)) = B.elements.map crystalElemLinesPure := by
      apply List.filter_eq_self.mpr
      intro b hb
      obtain ⟨p, hpm, rfl⟩ := List.mem_map.mp hb
      simp [crystalElemLines_min p ((List.all_eq_true.mp hWF'.2) p hpm)]
    have h2 : ([[["99", "0"]]] : List (List Line)).filter
        (fun b => decide (3 ≤ b.length)) = [] := by decide
    rw [h1, h2, List.append_nil]
  simp only [read_crystal, hprune]
  rw [if_neg hne]
  simp only [hpart, exc_bind_ok]
  rw [crystal_read_fold B.elements [] hWF'.2 hWF'.1 (by simp)]
  simp [crystalReadBack]

theorem toksEquiv_map_nc : ∀ ts : List String, (∀ t ∈ ts, isFloatTok t = true) →
    toksEquiv (ts.map (fun t => normD (convED t))) ts = true := by
  intro ts
  induction ts with
  | nil =>
    intro _
    decide
  | cons t rest ih =>
    intro h
    have hv : (tokVal? t).isSome = true := h t (by simp)
    obtain ⟨v, hv⟩ := Option.isSome_iff_exists.mp hv
    have ihh := ih (fun x hx => h x (by simp [hx]))
    simp only [toksEquiv, List.map_cons, List.zip_cons_cons, List.all_cons,
      List.length_cons, List.length_map, Bool.and_eq_true, beq_iff_eq] at ihh ⊢
    refine ⟨by simp, ?_, ihh.2⟩
    simp only [tokVal?_normD_convED, hv]
    exact Dec.beq_refl v

theorem zip_map_self_all {α β : Type} (f : α → β) (q : β × α → Bool) :
    ∀ l : List α, (∀ x ∈ l, q (f x, x) = true) → ((l.map f).zip l).all q = true := by
  intro l
  induction l with
  | nil => intro _; rfl
  | cons x t ih =>
    intro h
    simp only [List.map_cons, List.zip_cons_cons, List.all_cons, Bool.and_eq_true]
    exact ⟨h x (by simp), ih (fun y hy => h y (by simp [hy]))⟩

theorem shellEquiv_readShellOf (sh : Shell) (h : crystalWFSh sh = true) :
    shellEquiv (readShellOf sh) sh = true := by
  have h' := h
  simp only [crystalWFSh, Bool.and_eq_true, Bool.or_eq_true, beq_iff_eq] at h'
  obtain ⟨⟨⟨⟨ham, hcl⟩, hne⟩, hexp⟩, hcoef⟩ := h'
  simp only [shellEquiv, readShellOf, Bool.and_eq_true, beq_iff_eq]
  refine ⟨⟨⟨trivial, ?_⟩, by simp⟩, ?_⟩
  · apply toksEquiv_map_nc
    intro t ht
    have hg := (List.all_eq_true.mp hexp) t ht
    simp only [goodExpTok, Bool.and_eq_true] at hg
    exact hg.1.1
  · apply zip_map_self_all
    intro c hc
    have hcw := (List.all_eq_true.mp hcoef) c hc
    simp only [Bool.and_eq_true, beq_iff_eq] at hcw
    apply toksEquiv_map_nc
    intro t ht
    have hg := (List.all_eq_true.mp hcw.2) t ht
    simp only [goodCoefTok, Bool.and_eq_true] at hg
    exact hg.1

theorem basisEquivR_readBack (B : BasisW) (hWF : crystalRoundWF B = true) :
    basisEquivR (crystalReadBack B) B = true := by
  rw [crystalRoundWF, Bool.and_eq_true] at hWF
  simp only [basisEquivR, crystalReadBack, List.length_map, Bool.and_eq_true]
  refine ⟨by simp, ?_⟩
  apply zip_map_self_all
  intro p hp
  have hpw := (List.all_eq_true.mp hWF.2) p hp
  have hpw' := hpw
  simp only [crystalWFEl, Bool.and_eq_true] at hpw'
  obtain ⟨_, hshells⟩ := hpw'
  obtain ⟨shells, hsh, hall⟩ : ∃ shells, p.2.electron_shells = some shells ∧
      shells.all crystalWFSh = true := by
    cases hsh : p.2.electron_shells with
    | none => rw [hsh] at hshells; simp at hshells
    | some shells =>
      rw [hsh] at hshells
      simp only [Bool.and_eq_true] at hshells
      exact ⟨shells, rfl, hshells.2⟩
  simp only [Bool.and_eq_true, beq_iff_eq]
  refine ⟨trivial, ?_, ?_⟩
  · simp
  · simp only [Option.getD_some]
    apply zip_map_self_all
    intro sh hshm
    rw [hsh] at hshm
    simp only [Option.getD_some] at hshm
    exact shellEquiv_readShellOf sh ((List.all_eq_true.mp hall) sh hshm)

/-- C1 (amended): for a CRYSTAL-expressible basis without lossy features
and without an ECP — the round trip genuinely requires ECP-freeness, see
the counterexample — and stable under the writer's declared
normalization, writing and reading back reproduces the same elements and
shells with the same angular momenta and value-equal
exponent/coefficient tokens. -/
theorem C1_crystal_round_trip (ug us sb : BasisW → BasisW) (B : BasisW)
    (hTr : sb (us (ug B)) = B) (hWF : crystalRoundWF B = true) :
    write_crystal ug us sb B = .ok (crystalWrittenPure B) ∧
    read_crystal (crystalWrittenPure B) = .ok (crystalReadBack B) ∧
    basisEquivR (crystalReadBack B) B = true :=
  ⟨write_crystal_pure ug us sb B hTr hWF, read_crystal_pure B hWF,
   basisEquivR_readBack B hWF⟩

/-- C1 counterexample: an element with a CRYSTAL-expressible ECP (one
`l = 0` term, `Z = 8 < 99`, no fused shells beyond SP) writes
successfully, but reading the output back fails: the ECP block's
`INPUT` marker breaks the element partition of `read_crystal`. -/
theorem C1_counterexample :
    write_crystal id id id cexEcpBasis = .ok cexEcpWritten ∧
    read_crystal cexEcpWritten
      = .error (.formatError "partition_lines: first line does not match") :=
  ⟨by decide, by decide⟩

theorem C1_crystal_round_trip_witness :
    write_crystal id id id wfBasisH = .ok (crystalWrittenPure wfBasisH) ∧
    read_crystal (crystalWrittenPure wfBasisH) = .ok (crystalReadBack wfBasisH) ∧
    basisEquivR (crystalReadBack wfBasisH) wfBasisH = true :=
  C1_crystal_round_trip id id id wfBasisH rfl (by decide)

end BSE
